import Mathlib

/-!
# Timing-and-layout reconstructor of the REX2 decoder

A shallow embedding of `rex2decoder_mac.cpp` / `rex2decoder_win.cpp`
(the two files agree on every line modelled here).

The C++ code computes the loop timeline in `double`.  Those computations are
modelled bit-exactly: `F64` is an IEEE-754 binary64 value, `F64.rnd` is
round-to-nearest, ties-to-even, and `F64.div` / `F64.mul` are the correctly
rounded operations.  The conversion `(int) x` has no defined result when the
truncated value does not fit in a 32-bit `int` (or `x` is infinite or NaN); it
is modelled as `none`.
-/

namespace Rex2

/-! ## IEEE-754 binary64 -/

/-- A binary64 value: `fin neg m e` is `(-1)^neg * m * 2^e`. -/
inductive F64 where
  | fin (neg : Bool) (m : Nat) (e : Int)
  | inf (neg : Bool)
  | nan
  deriving DecidableEq, Repr

/-- Number of binary digits of `n` minus one (`0` for `n < 2`); `fuel` bounds the recursion. -/
def ilog2Aux : Nat → Nat → Nat
  | 0, _ => 0
  | fuel + 1, n => if n < 2 then 0 else ilog2Aux fuel (n / 2) + 1

/-- Floor of the base-2 logarithm of `n` (`0` for `n = 0`). -/
def ilog2 (n : Nat) : Nat := ilog2Aux n n

/-- Floor of the base-2 logarithm of the positive rational `n / d`. -/
def floorLog2 (n d : Nat) : Int :=
  let l : Int := (ilog2 n : Int) - (ilog2 d : Int)
  if d * 2 ^ l.toNat ≤ n * 2 ^ (-l).toNat then l else l - 1

/-- Nearest integer to `n / d`, ties to the even neighbour. -/
def roundHalfEven (n d : Nat) : Nat :=
  let q := n / d
  let r := n % d
  if 2 * r < d then q
  else if d < 2 * r then q + 1
  else if q % 2 = 0 then q else q + 1

namespace F64

/-- Round the rational `(-1)^neg * n / d` to the nearest binary64 value, ties to even
(53-bit significand, gradual underflow below `2^-1022`, overflow to infinity). -/
def rnd (neg : Bool) (n d : Nat) : F64 :=
  if n = 0 then fin neg 0 0
  else
    let p : Int := max (floorLog2 n d - 52) (-1074)
    let m := roundHalfEven (n * 2 ^ (-p).toNat) (d * 2 ^ p.toNat)
    if 971 < p ∨ (p = 971 ∧ 2 ^ 53 ≤ m) then inf neg else fin neg m p

/-- Conversion of an integer to `double`. -/
def ofInt (i : Int) : F64 := rnd (decide (i < 0)) i.natAbs 1

/-- IEEE division. -/
def div : F64 → F64 → F64
  | nan, _ => nan
  | _, nan => nan
  | inf _, inf _ => nan
  | inf s, fin t _ _ => inf (xor s t)
  | fin s _ _, inf t => fin (xor s t) 0 0
  | fin s m e, fin t k f =>
    if k = 0 then (if m = 0 then nan else inf (xor s t))
    else rnd (xor s t) (m * 2 ^ (e - f).toNat) (k * 2 ^ (f - e).toNat)

/-- IEEE multiplication. -/
def mul : F64 → F64 → F64
  | nan, _ => nan
  | _, nan => nan
  | inf s, inf t => inf (xor s t)
  | inf s, fin t k _ => if k = 0 then nan else inf (xor s t)
  | fin s m _, inf t => if m = 0 then nan else inf (xor s t)
  | fin s m e, fin t k f =>
    rnd (xor s t) (m * k * 2 ^ (e + f).toNat) (2 ^ (-(e + f)).toNat)

/-- C `round`: nearest integral value, halfway cases away from zero. -/
def round : F64 → F64
  | fin s m e =>
    let d := 2 ^ (-e).toNat
    let n := m * 2 ^ e.toNat
    fin s (if d ≤ 2 * (n % d) then n / d + 1 else n / d) 0
  | x => x

/-- The conversion `(int) x`: truncation toward zero, defined only when the
truncated value fits in a 32-bit signed integer. -/
def toInt32 : F64 → Option Int
  | fin s m e =>
    let t : Int := ((m * 2 ^ e.toNat / 2 ^ (-e).toNat : Nat) : Int)
    let v : Int := if s then -t else t
    if -2147483648 ≤ v ∧ v ≤ 2147483647 then some v else none
  | _ => none

end F64

/-! ## Container metadata -/

/-- The fields of `REXInfo` that the timeline uses (all `REX_int32_t`). -/
structure Info where
  fChannels : Int
  fSampleRate : Int
  fSliceCount : Int
  fTempo : Int
  fPPQLength : Int
  deriving DecidableEq, Repr

/-- The fields of `REXSliceInfo`. -/
structure SliceInfo where
  fPPQPos : Int
  fSampleLength : Int
  deriving DecidableEq, Repr

/-- The header fields lie in the range of a 32-bit signed integer. -/
def Int32 (i : Int) : Prop := -2147483648 ≤ i ∧ i ≤ 2147483647

instance (i : Int) : Decidable (Int32 i) := by unfold Int32; infer_instance

/-! ## Timeline calculation (main, lines 237 and 281-294) -/

/-- Line 237: `double realTempo = info.fTempo / 1000.0;`. -/
def realTempo (info : Info) : F64 := F64.div (F64.ofInt info.fTempo) (F64.ofInt 1000)

/-- Line 282: `double quarters = info.fPPQLength / 15360.0;`. -/
def quarters (info : Info) : F64 := F64.div (F64.ofInt info.fPPQLength) (F64.ofInt 15360)

/-- Line 283: `double duration = (60.0 / realTempo) * quarters;`. -/
def duration (info : Info) : F64 :=
  F64.mul (F64.div (F64.ofInt 60) (realTempo info)) (quarters info)

/-- The double handed to the cast on line 284: `round(info.fSampleRate * duration)`. -/
def totalFramesF (info : Info) : F64 :=
  F64.round (F64.mul (F64.ofInt info.fSampleRate) (duration info))

/-- Line 284: `int totalFrames = (int) round(info.fSampleRate * duration);`. -/
def totalFrames (info : Info) : Option Int := F64.toInt32 (totalFramesF info)

/-- The double handed to the cast on line 291:
`round(((double)sliceInfos[i].fPPQPos / info.fPPQLength) * totalFrames)`. -/
def markerF (info : Info) (total : Int) (s : SliceInfo) : F64 :=
  F64.round (F64.mul (F64.div (F64.ofInt s.fPPQPos) (F64.ofInt info.fPPQLength))
    (F64.ofInt total))

/-- Lines 291-292: the marker of one slice, `(int) round(...)` raised to at least 1. -/
def marker (info : Info) (total : Int) (s : SliceInfo) : Option Int :=
  match F64.toInt32 (markerF info total s) with
  | some m => some (if m < 1 then 1 else m)
  | none => none

/-- Lines 289-294: the vector `sliceMarkers`, one entry per enumerated slice. -/
def sliceMarkers (info : Info) (total : Int) : List SliceInfo → Option (List Int)
  | [] => some []
  | s :: rest =>
    match marker info total s, sliceMarkers info total rest with
    | some m, some ms => some (m :: ms)
    | _, _ => none

/-- Line 387: `int startSample = (int) round(((double)sliceInfos[i].fPPQPos /
info.fPPQLength) * totalFrames);`. -/
def startSample (info : Info) (total : Int) (s : SliceInfo) : Option Int :=
  F64.toInt32 (F64.round (F64.mul
    (F64.div (F64.ofInt s.fPPQPos) (F64.ofInt info.fPPQLength)) (F64.ofInt total)))

/-! ## Slice enumeration (main, lines 263-272) -/

/-- The outcome of `REXGetSliceInfo(handle, i, ...)` for each container index:
`none` is an SDK error. -/
abbrev SliceFetch := Nat → Option SliceInfo

/-- Lines 264-272, for indices `i, i+1, ..., i+n-1`: only successful fetches are
appended to `sliceInfos`. -/
def enumerateFrom (fetch : SliceFetch) : Nat → Nat → List SliceInfo
  | _, 0 => []
  | i, n + 1 =>
    match fetch i with
    | some s => s :: enumerateFrom fetch (i + 1) n
    | none => enumerateFrom fetch (i + 1) n

/-- Lines 263-272: the vector `sliceInfos` (the loop body never runs for a
non-positive `fSliceCount`). -/
def enumerate (fetch : SliceFetch) (sliceCount : Int) : List SliceInfo :=
  enumerateFrom fetch 0 sliceCount.toNat

/-! ## Rendering and placement (main, lines 303-397) -/

/-- A sample: the 32-bit pattern of a `float`; `0` is `0.0f`. -/
abbrev Sample := Nat

/-- The contents of `sliceChannels[0]` and `sliceChannels[1]` after a successful render. -/
structure Scratch where
  left : Nat → Sample
  right : Nat → Sample

/-- The outcome of `REXRenderSlice(handle, index, frameCount, channels)`: `none` is an
SDK error. -/
abbrev Renderer := Nat → Int → Option Scratch

/-- The full-loop buffers `fullLeft` and `fullRight`. -/
structure Full where
  left : List Sample
  right : List Sample
  deriving DecidableEq, Repr

/-- Lines 364-367: `fullLeft(totalFrames, 0.0f)`, and `fullRight` resized only for
stereo.  A negative length makes the `vector` constructor throw. -/
def initFull (info : Info) (total : Int) : Option Full :=
  if total < 0 then none
  else some ⟨List.replicate total.toNat 0,
    if info.fChannels = 2 then List.replicate total.toNat 0 else []⟩

/-- Lines 390-396, iterations `j, j+1, ..., j+n-1` of the inner loop.  The sum
`startSample + j` is an `int`: it has no defined value above `INT_MAX`, and a
negative index is a write outside the vector. -/
def placeFrames (info : Info) (start total : Int) (sc : Scratch) :
    Nat → Nat → Full → Option Full
  | 0, _, full => some full
  | n + 1, j, full =>
    if 2147483647 < start + j then none
    else if start + j < total then
      if start + j < 0 then none
      else placeFrames info start total sc n (j + 1)
        ⟨full.left.set (start + j).toNat (sc.left j),
         if info.fChannels = 2 then full.right.set (start + j).toNat (sc.right j)
         else full.right⟩
    else placeFrames info start total sc n (j + 1) full

/-- Lines 369-397, iterations `i, i+1, ...` of the placement loop over `sliceInfos`.
A negative `fSampleLength` makes the scratch `vector` constructor throw; a failed
render skips the slice (`continue`). -/
def placeFrom (info : Info) (total : Int) (render : Renderer) :
    Nat → List SliceInfo → Full → Option Full
  | _, [], full => some full
  | i, s :: rest, full =>
    if s.fSampleLength < 0 then none
    else
      match render i s.fSampleLength with
      | none => placeFrom info total render (i + 1) rest full
      | some sc =>
        match startSample info total s with
        | none => none
        | some start =>
          match placeFrames info start total sc s.fSampleLength.toNat 0 full with
          | none => none
          | some full1 => placeFrom info total render (i + 1) rest full1

/-- Lines 363-397: the reconstructed full-loop buffers. -/
def fullLoop (info : Info) (total : Int) (render : Renderer) (infos : List SliceInfo) :
    Option Full :=
  match initFull info total with
  | none => none
  | some full => placeFrom info total render 0 infos full

/-- Lines 303-319, iterations `i, i+1, ...`: for each entry of `sliceInfos` the index
handed to `REXRenderSlice`, the frame count handed to it, and the number printed in
the per-slice file name (`i + 1`). -/
def sliceRenderCallsFrom : Nat → List SliceInfo → List (Nat × Int × Nat)
  | _, [] => []
  | i, s :: rest => (i, s.fSampleLength, i + 1) :: sliceRenderCallsFrom (i + 1) rest

/-- Lines 303-319: the render calls of the per-slice file loop. -/
def sliceRenderCalls (infos : List SliceInfo) : List (Nat × Int × Nat) :=
  sliceRenderCallsFrom 0 infos

/-- The values of `startSample` over the placement loop (lines 369-397) when every
render succeeds, in slice order. -/
def placementOffsets (info : Info) (total : Int) : List SliceInfo → Option (List Int)
  | [] => some []
  | s :: rest =>
    match startSample info total s, placementOffsets info total rest with
    | some o, some os => some (o :: os)
    | _, _ => none

/-- How far the run has come after line 284. -/
inductive Progress where
  /-- A `return` statement was reached with this status. -/
  | exit (status : Int)
  /-- The conversion to `int` on line 284 has no defined value. -/
  | undefined
  /-- Line 284 assigned this value to `totalFrames`. -/
  | timeline (total : Int)
  deriving DecidableEq, Repr

/-- Lines 182-284 of `main`: the argument count check, the four fatal checks on the
input file and the SDK calls (each `return 1`), then the timeline calculation. -/
def runToTimeline (argc : Int) (fileOpened initOk createOk infoOk : Bool) (info : Info) :
    Progress :=
  if argc ≠ 5 then Progress.exit 1
  else if !fileOpened then Progress.exit 1
  else if !initOk then Progress.exit 1
  else if !createOk then Progress.exit 1
  else if !infoOk then Progress.exit 1
  else
    match totalFrames info with
    | none => Progress.undefined
    | some total => Progress.timeline total

/-- The value is a finite number (not an infinity, not NaN). -/
def F64.isFinite : F64 → Bool
  | F64.fin _ _ _ => true
  | _ => false

/-! ## WAV output (`writeInt32LE`, `writeInt16LE`, `writeWav`; main, lines 320-352) -/

/-- The result of an `int` operation: defined only when it fits in 32 bits. -/
def checkInt (v : Int) : Option Int := if Int32 v then some v else none

/-- The function `writeInt32LE`: the bytes `(value >> 8k) & 0xff` for `k = 0, 1, 2, 3`. -/
def writeInt32LE (value : Int) : List Nat :=
  [(value % 256).toNat, (value / 256 % 256).toNat, (value / 65536 % 256).toNat,
    (value / 16777216 % 256).toNat]

/-- The function `writeInt16LE`: the bytes `value & 0xff` and `(value >> 8) & 0xff`. -/
def writeInt16LE (value : Int) : List Nat :=
  [(value % 256).toNat, (value / 256 % 256).toNat]

/-- The conversion `(int16_t) v`: the value modulo `2^16` in two's complement. -/
def toInt16 (v : Int) : Int := (v + 32768) % 65536 - 32768

/-- The bytes of an ASCII string literal, as written by `out.write("RIFF", 4)`. -/
def ascii (s : String) : List Nat := s.toList.map Char.toNat

/-- The four bytes of one `float` in memory, written by
`out.write(reinterpret_cast<const char*>(&x), sizeof(float))` on the little-endian
hosts both source files target. -/
def floatBytes (w : Sample) : List Nat :=
  [w % 256, w / 256 % 256, w / 65536 % 256, w / 16777216 % 256]

/-- The inner loop `for (ch = ...; ch < channels; ++ch)` of the sample writer, for the
`n` channels from `ch` on of frame `i`. -/
def frameBytes (buffers : Nat → Nat → Sample) (i : Nat) : Nat → Nat → List Nat
  | 0, _ => []
  | n + 1, ch => floatBytes (buffers ch i) ++ frameBytes buffers i n (ch + 1)

/-- The outer loop `for (i = ...; i < frameCount; ++i)` of the sample writer, for the
`n` frames from `i` on. -/
def sampleBytes (buffers : Nat → Nat → Sample) (channels : Nat) : Nat → Nat → List Nat
  | 0, _ => []
  | n + 1, i => frameBytes buffers i channels 0 ++ sampleBytes buffers channels n (i + 1)

/-- The function `writeWav` (lines 117-151) once the file is open: the bytes written.
`buffers ch i` is `buffers[ch][i]`.  The four `int` computations are undefined when
they overflow. -/
def writeWav (channels sampleRate frameCount : Int) (buffers : Nat → Nat → Sample) :
    Option (List Nat) :=
  let bitsPerSample : Int := 32
  match checkInt (channels * (bitsPerSample / 8)) with
  | none => none
  | some blockAlign =>
    match checkInt (sampleRate * blockAlign), checkInt (frameCount * blockAlign) with
    | some byteRate, some dataSize =>
      match checkInt (36 + dataSize) with
      | none => none
      | some chunkSize =>
        some (ascii "RIFF" ++ writeInt32LE chunkSize ++ ascii "WAVE" ++
          ascii "fmt " ++ writeInt32LE 16 ++ writeInt16LE 3 ++
          writeInt16LE (toInt16 channels) ++ writeInt32LE sampleRate ++
          writeInt32LE byteRate ++ writeInt16LE (toInt16 blockAlign) ++
          writeInt16LE (toInt16 bitsPerSample) ++
          ascii "data" ++ writeInt32LE dataSize ++
          sampleBytes buffers channels.toNat frameCount.toNat 0)
    | _, _ => none

/-- Line 320: `finalChannels[ch][j]` in the per-slice writer, where `finalChannels` is
`{ sliceChannels[0], fChannels == 2 ? sliceChannels[1] : sliceChannels[0] }`. -/
def sliceFinalChannels (info : Info) (sc : Scratch) (ch j : Nat) : Sample :=
  if ch = 0 then sc.left j else if info.fChannels = 2 then sc.right j else sc.left j

/-- Lines 322-348: the bytes of one per-slice file once it is open.  The array
`finalChannels` has two entries, so a third channel would be read outside it. -/
def writeSliceWav (info : Info) (sliceFrameCount : Int) (sc : Scratch) : Option (List Nat) :=
  let bitsPerSample : Int := 32
  match checkInt (info.fChannels * (bitsPerSample / 8)) with
  | none => none
  | some blockAlign =>
    match checkInt (info.fSampleRate * blockAlign), checkInt (sliceFrameCount * blockAlign) with
    | some byteRate, some dataSize =>
      match checkInt (36 + dataSize) with
      | none => none
      | some chunkSize =>
        if 2 < info.fChannels ∧ 0 < sliceFrameCount then none
        else
          some (ascii "RIFF" ++ writeInt32LE chunkSize ++ ascii "WAVE" ++
            ascii "fmt " ++ writeInt32LE 16 ++ writeInt16LE 3 ++
            writeInt16LE (toInt16 info.fChannels) ++ writeInt32LE info.fSampleRate ++
            writeInt32LE byteRate ++ writeInt16LE (toInt16 blockAlign) ++
            writeInt16LE (toInt16 bitsPerSample) ++
            ascii "data" ++ writeInt32LE dataSize ++
            sampleBytes (sliceFinalChannels info sc) info.fChannels.toNat
              sliceFrameCount.toNat 0)
    | _, _ => none

/-! ## File names and marker text (main, lines 296-300, 318-319, 411-418) -/

/-- The call `s.find_last_of(c)`: the index of the last occurrence, `none` for `npos`. -/
def findLastOf (c : Char) : List Char → Option Nat
  | [] => none
  | x :: xs =>
    match findLastOf c xs with
    | some k => some (k + 1)
    | none => if x = c then some 0 else none

/-- Lines 297-300: `baseName`, the output path cut at `find_last_of('.')`. -/
def baseName (wavPath : String) : String :=
  match findLastOf '.' wavPath.toList with
  | some pos => String.mk (wavPath.toList.take pos)
  | none => wavPath

/-- The output of `setfill('0') << setw(3) << n`: the decimal digits of `n`, padded on
the left with `'0'` to at least three characters. -/
def pad3 (n : Nat) : String :=
  String.mk (List.replicate (3 - (Nat.repr n).length) '0') ++ Nat.repr n

/-- Line 319: the name of the per-slice file of the slice at position `i`. -/
def sliceFileName (base : String) (i : Nat) : String :=
  base ++ "_slice" ++ pad3 (i + 1) ++ ".wav"

/-- Lines 414-417: one line of the marker text. -/
def markerLine (marker : Int) : String :=
  "renoise.song().selected_sample:insert_slice_marker(" ++
    toString (if marker < 1 then 1 else marker) ++ ")\n"

/-- Lines 412-418: the marker text built from `sliceMarkers`. -/
def markerText : List Int → String
  | [] => ""
  | m :: ms => markerLine m ++ markerText ms

/-! ## The run as a whole (main, lines 178-435) -/

/-- Lines 303-361, iterations `i, i+1, ...` of the per-slice file loop: the name and the
bytes of every file written.  A negative `fSampleLength` makes the scratch `vector`
constructor throw; a failed render writes nothing; a file that cannot be opened is
skipped (`Failed to write slice file`). -/
def sliceFilesFrom (info : Info) (render : Renderer) (canOpen : String → Bool)
    (base : String) : Nat → List SliceInfo → Option (List (String × List Nat))
  | _, [] => some []
  | i, s :: rest =>
    if s.fSampleLength < 0 then none
    else
      match render i s.fSampleLength with
      | none => sliceFilesFrom info render canOpen base (i + 1) rest
      | some sc =>
        if canOpen (sliceFileName base i) then
          match writeSliceWav info s.fSampleLength sc with
          | none => none
          | some bytes =>
            match sliceFilesFrom info render canOpen base (i + 1) rest with
            | none => none
            | some files => some ((sliceFileName base i, bytes) :: files)
        else sliceFilesFrom info render canOpen base (i + 1) rest

/-- Line 400: `finalChannels[ch][i]` for the full-loop file, where `finalChannels` is
`{ fullLeft.data(), fChannels == 2 ? fullRight.data() : fullLeft.data() }`. -/
def fullFinalChannels (info : Info) (full : Full) (ch i : Nat) : Sample :=
  if ch = 0 then full.left.getD i 0
  else if info.fChannels = 2 then full.right.getD i 0 else full.left.getD i 0

/-- Lines 400-401: the bytes of the full-loop file once it is open.  The array
`finalChannels` has two entries, so a third channel would be read outside it. -/
def writeFullWav (info : Info) (total : Int) (full : Full) : Option (List Nat) :=
  if 2 < info.fChannels ∧ 0 < total then none
  else writeWav info.fChannels info.fSampleRate total (fullFinalChannels info full)

/-- A call into the REX SDK. -/
inductive SdkOp where
  | REXInitializeDLL_DirPath
  | REXCreate
  | REXGetInfo
  | REXGetCreatorInfo
  | REXGetSliceInfo (index : Nat)
  | REXRenderSlice (index : Nat) (frameCount : Int)
  | REXDelete
  | REXUninitializeDLL
  deriving DecidableEq, Repr

/-- The answers of the SDK during one run: whether `REXInitializeDLL_DirPath`, `REXCreate`
(with a non-null handle) and `REXGetInfo` succeed, the header, and the outcomes of
`REXGetSliceInfo` and `REXRenderSlice`. -/
structure Sdk where
  initOk : Bool
  createOk : Bool
  infoOk : Bool
  info : Info
  fetch : SliceFetch
  render : Renderer

/-- What a run that reaches a `return` statement has done. -/
structure Output where
  /-- The value returned by `main`. -/
  status : Int
  /-- The SDK calls, in order. -/
  ops : List SdkOp
  /-- The per-slice files, in order of writing. -/
  sliceFiles : List (String × List Nat)
  /-- The buffers `fullLeft` and `fullRight` after the placement loop. -/
  full : Option Full
  /-- The bytes of the full-loop file, when it could be opened. -/
  wav : Option (List Nat)
  /-- The vector `sliceMarkers`. -/
  markers : List Int
  /-- The contents of the stream `txt`. -/
  markerText : String
  deriving DecidableEq, Repr

/-- Lines 264-266: the calls `REXGetSliceInfo(handle, i, ...)` for `i, i+1, ..., i+n-1`. -/
def getSliceInfoOps : Nat → Nat → List SdkOp
  | _, 0 => []
  | i, n + 1 => SdkOp.REXGetSliceInfo i :: getSliceInfoOps (i + 1) n

/-- Line 316 and line 381: the calls `REXRenderSlice(handle, i, sliceFrameCount, ...)` of
one pass over `sliceInfos`. -/
def renderOpsFrom : Nat → List SliceInfo → List SdkOp
  | _, [] => []
  | i, s :: rest => SdkOp.REXRenderSlice i s.fSampleLength :: renderOpsFrom (i + 1) rest

/-- The function `main`, for a run that reaches a `return` statement: `none` when the
run has no defined behaviour or is ended by an exception.  `fileOpened` says whether
the input file could be opened, `canOpen` which output files can be. -/
def run (argc : Int) (fileOpened : Bool) (wavPath : String) (canOpen : String → Bool)
    (sdk : Sdk) : Option Output :=
  if argc ≠ 5 then some ⟨1, [], [], none, none, [], ""⟩
  else if !fileOpened then some ⟨1, [], [], none, none, [], ""⟩
  else if !sdk.initOk then
    some ⟨1, [SdkOp.REXInitializeDLL_DirPath], [], none, none, [], ""⟩
  else if !sdk.createOk then
    some ⟨1, [SdkOp.REXInitializeDLL_DirPath, SdkOp.REXCreate], [], none, none, [], ""⟩
  else if !sdk.infoOk then
    some ⟨1, [SdkOp.REXInitializeDLL_DirPath, SdkOp.REXCreate, SdkOp.REXGetInfo], [], none,
      none, [], ""⟩
  else
    let infos := enumerate sdk.fetch sdk.info.fSliceCount
    match totalFrames sdk.info with
    | none => none
    | some total =>
      match sliceMarkers sdk.info total infos with
      | none => none
      | some ms =>
        match sliceFilesFrom sdk.info sdk.render canOpen (baseName wavPath) 0 infos with
        | none => none
        | some files =>
          match fullLoop sdk.info total sdk.render infos with
          | none => none
          | some full =>
            match (if canOpen wavPath then (writeFullWav sdk.info total full).map some
                else some none) with
            | none => none
            | some wav =>
              some ⟨0,
                [SdkOp.REXInitializeDLL_DirPath, SdkOp.REXCreate, SdkOp.REXGetInfo,
                  SdkOp.REXGetCreatorInfo] ++
                  getSliceInfoOps 0 sdk.info.fSliceCount.toNat ++
                  renderOpsFrom 0 infos ++ renderOpsFrom 0 infos ++
                  [SdkOp.REXDelete, SdkOp.REXUninitializeDLL],
                files, some full, wav, ms, markerText ms⟩

/-! ## Specification-level functions and scenario data used in the statements -/

/-- Nearest integer to a rational, ties to the even neighbour. -/
def rheQ (z : ℚ) : ℤ :=
  if 2 * (z - ⌊z⌋) < 1 then ⌊z⌋
  else if 1 < 2 * (z - ⌊z⌋) then ⌊z⌋ + 1
  else if ⌊z⌋ % 2 = 0 then ⌊z⌋ else ⌊z⌋ + 1

/-- Exponent of the last significand bit of the binary64 nearest to `x`. -/
def ulpExp (x : ℚ) : ℤ := max (Int.log 2 x - 52) (-1074)

/-- The value of the binary64 nearest to the non-negative rational `x` (ties to even),
ignoring overflow. -/
def roundQ (x : ℚ) : ℚ := (rheQ (x / 2 ^ ulpExp x) : ℚ) * 2 ^ ulpExp x

/-- Nearest integer to a non-negative rational, ties upward (C `round` on magnitudes). -/
def rhaQ (x : ℚ) : ℤ := ⌊x + 1 / 2⌋

/-- The value of the code's expression `round(((double)pos / len) * total)` written
over the rationals: the quotient and the product are each rounded to the nearest double
and `round` takes halves away from zero.  It describes the code, not the spec, and is
used in proofs only. -/
def doubleStartOffset (pos len total : Int) : Int :=
  if decide (pos < 0) ≠ decide (total < 0)
  then -rhaQ (roundQ (roundQ (|(pos : ℚ)| / len) * |(total : ℚ)|))
  else rhaQ (roundQ (roundQ (|(pos : ℚ)| / len) * |(total : ℚ)|))

/-- Nearest integer to a rational, halves away from zero. -/
def roundHalfAwayQ (x : ℚ) : ℤ := if 0 ≤ x then ⌊x + 1 / 2⌋ else -⌊-x + 1 / 2⌋

/-- The spec's slice offset `round((ppq_pos / ppq_length) × total_frames)` in exact
arithmetic, halves away from zero. -/
def specStartOffset (pos len total : Int) : Int :=
  roundHalfAwayQ ((pos : ℚ) / len * total)

/-- The loop length in frames in exact arithmetic:
`sample_rate × (60 / (tempo / 1000)) × (ppq_length / 15360)`. -/
def exactLoopFrames (info : Info) : ℚ :=
  (info.fSampleRate : ℚ) * (60 / ((info.fTempo : ℚ) / 1000)) * ((info.fPPQLength : ℚ) / 15360)

/-- The spec's `total_frames`: the exact loop length rounded to the nearest integer,
halves away from zero. -/
def specTotalFrames (info : Info) : ℤ := roundHalfAwayQ (exactLoopFrames info)

/-- Header of scenario S1. -/
def s1Info : Info := ⟨2, 44100, 4, 120000, 61440⟩

/-- Slice metadata of scenario S1. -/
def s1Slices : List SliceInfo := [⟨0, 22050⟩, ⟨15360, 22050⟩, ⟨30720, 22050⟩, ⟨46080, 22050⟩]

/-- The window `[st, st + len)` of a slice contains frame `k`. -/
def inWindow (st : Int) (s : SliceInfo) (k : Nat) : Prop :=
  st ≤ k ∧ (k : Int) < st + s.fSampleLength

instance (st : Int) (s : SliceInfo) (k : Nat) : Decidable (inWindow st s k) := by
  unfold inWindow; infer_instance

/-- Every slice has a non-negative length and a defined, non-negative start offset
whose window ends within the range of `int`. -/
def Placeable (info : Info) (total : Int) (infos : List SliceInfo) : Prop :=
  ∀ s ∈ infos, 0 ≤ s.fSampleLength ∧
    ∃ st, startSample info total s = some st ∧ 0 ≤ st ∧ st + s.fSampleLength ≤ 2147483648

/-- Executable form of `Placeable` for one slice. -/
def slicePlaceable (info : Info) (total : Int) (s : SliceInfo) : Bool :=
  decide (0 ≤ s.fSampleLength) &&
    match startSample info total s with
    | some st => decide (0 ≤ st) && decide (st + s.fSampleLength ≤ 2147483648)
    | none => false

/-- The number whose little-endian bytes are `bs`. -/
def leValue : List Nat → Nat
  | [] => 0
  | b :: bs => b + 256 * leValue bs

/-- The `n` bytes at offset `o`. -/
def bytesAt (bytes : List Nat) (o n : Nat) : List Nat := (bytes.drop o).take n

/-- Scenario S5 at a small scale: a mono loop of 12 frames (24 Hz, 120 BPM, one quarter
note) in three slices of four frames. -/
def s5Info : Info := ⟨1, 24, 3, 120000, 15360⟩

/-- The slices of scenario S5, at PPQ 0, 5120 and 10240. -/
def s5Slices : List SliceInfo := [⟨0, 4⟩, ⟨5120, 4⟩, ⟨10240, 4⟩]

/-- The renders of scenario S5: slice index 1 fails, the others return the words
`16 × (index + 1) + j`. -/
def s5Render : Renderer := fun i _ =>
  if i = 1 then none else some ⟨fun j => 16 * (i + 1) + j, fun _ => 0⟩

/-- The SDK of scenario S5. -/
def s5Sdk : Sdk := ⟨true, true, true, s5Info, fun i => s5Slices.get? i, s5Render⟩

/-! # Theorems -/

/-! ## Rounding to binary64 -/

theorem ilog2Aux_spec : ∀ (fuel n : Nat), 1 ≤ n → n ≤ fuel →
    2 ^ ilog2Aux fuel n ≤ n ∧ n < 2 ^ (ilog2Aux fuel n + 1) := by
  intro fuel
  induction fuel with
  | zero => intro n h1 h2; omega
  | succ fuel ih =>
    intro n h1 h2
    unfold ilog2Aux
    by_cases h : n < 2
    · rw [if_pos h]
      have : n = 1 := by omega
      subst this
      simp
    · rw [if_neg h]
      obtain ⟨a, b⟩ := ih (n / 2) (by omega) (by omega)
      constructor
      · rw [pow_succ]
        omega
      · rw [pow_succ]
        omega

theorem ilog2_spec (n : Nat) (h : 1 ≤ n) : 2 ^ ilog2 n ≤ n ∧ n < 2 ^ (ilog2 n + 1) :=
  ilog2Aux_spec n n h le_rfl

/-- The rational `2 ^ e` as a quotient of two natural powers of two. -/
theorem zpow_two_split (e : Int) :
    (2 : ℚ) ^ e = (2 : ℚ) ^ e.toNat / (2 : ℚ) ^ (-e).toNat := by
  rcases le_total 0 e with h | h
  · have h2 : (-e).toNat = 0 := by omega
    rw [h2, pow_zero, div_one]
    conv_lhs => rw [← Int.toNat_of_nonneg h]
    rw [zpow_natCast]
  · have h2 : e.toNat = 0 := by omega
    rw [h2, pow_zero, one_div]
    have h3 : e = -((-e).toNat : Int) := by omega
    conv_lhs => rw [h3]
    rw [zpow_neg, zpow_natCast]

theorem floorLog2_spec (n d : Nat) (hn : 0 < n) (hd : 0 < d) :
    (2 : ℚ) ^ floorLog2 n d ≤ (n : ℚ) / d ∧ (n : ℚ) / d < (2 : ℚ) ^ (floorLog2 n d + 1) := by
  obtain ⟨a1, a2⟩ := ilog2_spec n hn
  obtain ⟨b1, b2⟩ := ilog2_spec d hd
  have hdq : (0 : ℚ) < d := by exact_mod_cast hd
  have a1q : (2 : ℚ) ^ (ilog2 n : Int) ≤ n := by rw [zpow_natCast]; exact_mod_cast a1
  have a2q : (n : ℚ) < (2 : ℚ) ^ ((ilog2 n : Int) + 1) := by
    have : (n : ℚ) < (2 : ℚ) ^ (ilog2 n + 1) := by exact_mod_cast a2
    rw [← zpow_natCast] at this
    exact_mod_cast this
  have b1q : (2 : ℚ) ^ (ilog2 d : Int) ≤ d := by rw [zpow_natCast]; exact_mod_cast b1
  have b2q : (d : ℚ) < (2 : ℚ) ^ ((ilog2 d : Int) + 1) := by
    have : (d : ℚ) < (2 : ℚ) ^ (ilog2 d + 1) := by exact_mod_cast b2
    rw [← zpow_natCast] at this
    exact_mod_cast this
  set l : Int := (ilog2 n : Int) - (ilog2 d : Int) with hl
  have two_ne : (2 : ℚ) ≠ 0 := by norm_num
  -- the test of `floorLog2` compares `2 ^ l` with `n / d`
  have htest : (d * 2 ^ l.toNat ≤ n * 2 ^ (-l).toNat) ↔ (2 : ℚ) ^ l ≤ (n : ℚ) / d := by
    rw [zpow_two_split l, le_div_iff₀ hdq, div_mul_eq_mul_div, div_le_iff₀ (by positivity)]
    constructor
    · intro h
      have : ((d * 2 ^ l.toNat : Nat) : ℚ) ≤ ((n * 2 ^ (-l).toNat : Nat) : ℚ) := by
        exact_mod_cast h
      push_cast at this
      linarith
    · intro h
      have : ((d * 2 ^ l.toNat : Nat) : ℚ) ≤ ((n * 2 ^ (-l).toNat : Nat) : ℚ) := by
        push_cast
        linarith
      exact_mod_cast this
  -- coarse bounds: 2^(l-1) < n/d < 2^(l+1)
  have hup : (n : ℚ) / d < (2 : ℚ) ^ (l + 1) := by
    rw [div_lt_iff₀ hdq]
    calc (n : ℚ) < (2 : ℚ) ^ ((ilog2 n : Int) + 1) := a2q
      _ = (2 : ℚ) ^ (l + 1) * (2 : ℚ) ^ (ilog2 d : Int) := by
          rw [← zpow_add₀ two_ne]; congr 1; omega
      _ ≤ (2 : ℚ) ^ (l + 1) * d := by
          apply mul_le_mul_of_nonneg_left b1q (by positivity)
  have hlo : (2 : ℚ) ^ (l - 1) ≤ (n : ℚ) / d := by
    rw [le_div_iff₀ hdq]
    calc (2 : ℚ) ^ (l - 1) * d ≤ (2 : ℚ) ^ (l - 1) * (2 : ℚ) ^ ((ilog2 d : Int) + 1) := by
          apply mul_le_mul_of_nonneg_left b2q.le (by positivity)
      _ = (2 : ℚ) ^ (ilog2 n : Int) := by
          rw [← zpow_add₀ two_ne]; congr 1; omega
      _ ≤ n := a1q
  unfold floorLog2
  simp only []
  rw [← hl]
  by_cases h : d * 2 ^ l.toNat ≤ n * 2 ^ (-l).toNat
  · rw [if_pos h]
    exact ⟨htest.mp h, hup⟩
  · rw [if_neg h]
    refine ⟨hlo, ?_⟩
    have : ¬ ((2 : ℚ) ^ l ≤ (n : ℚ) / d) := fun h2 => h (htest.mpr h2)
    rw [sub_add_cancel]
    exact lt_of_not_le this

theorem floorLog2_eq_log (n d : Nat) (hn : 0 < n) (hd : 0 < d) :
    floorLog2 n d = Int.log 2 ((n : ℚ) / d) := by
  obtain ⟨h1, h2⟩ := floorLog2_spec n d hn hd
  have hpos : (0 : ℚ) < (n : ℚ) / d := by positivity
  have e1 : floorLog2 n d ≤ Int.log 2 ((n : ℚ) / d) :=
    (Int.zpow_le_iff_le_log (by norm_num) hpos).mp (by exact_mod_cast h1)
  have e2 : Int.log 2 ((n : ℚ) / d) < floorLog2 n d + 1 :=
    (Int.lt_zpow_iff_log_lt (by norm_num) hpos).mp (by exact_mod_cast h2)
  omega

theorem nat_div_floor (n d : Nat) : ⌊(n : ℚ) / d⌋ = ((n / d : Nat) : ℤ) := by
  have := Rat.floor_intCast_div_natCast (n : ℤ) d
  simpa using this

theorem nat_div_frac (n d : Nat) (hd : 0 < d) :
    (n : ℚ) / d - ((n / d : Nat) : ℤ) = ((n % d : Nat) : ℚ) / d := by
  have hdq : (d : ℚ) ≠ 0 := by positivity
  have h := Nat.div_add_mod n d
  have hq : (n : ℚ) = d * ((n / d : Nat) : ℚ) + ((n % d : Nat) : ℚ) := by exact_mod_cast h.symm
  rw [Int.cast_natCast, eq_div_iff hdq, sub_mul, div_mul_cancel₀ _ hdq]
  linarith

theorem roundHalfEven_eq (n d : Nat) (hd : 0 < d) :
    ((roundHalfEven n d : Nat) : ℤ) = rheQ ((n : ℚ) / d) := by
  have hdq : (0 : ℚ) < d := by exact_mod_cast hd
  unfold roundHalfEven rheQ
  simp only []
  rw [nat_div_floor, nat_div_frac n d hd]
  have c1 : (2 * (((n % d : Nat) : ℚ) / d) < 1) ↔ 2 * (n % d) < d := by
    rw [← mul_div_assoc, div_lt_one hdq]
    exact_mod_cast Iff.rfl
  have c2 : (1 < 2 * (((n % d : Nat) : ℚ) / d)) ↔ d < 2 * (n % d) := by
    rw [← mul_div_assoc, one_lt_div hdq]
    exact_mod_cast Iff.rfl
  have c3 : (((n / d : Nat) : ℤ) % 2 = 0) ↔ (n / d) % 2 = 0 := by omega
  by_cases h1 : 2 * (n % d) < d
  · rw [if_pos h1, if_pos (c1.mpr h1)]
  · rw [if_neg h1, if_neg (fun h => h1 (c1.mp h))]
    by_cases h2 : d < 2 * (n % d)
    · rw [if_pos h2, if_pos (c2.mpr h2)]
      push_cast; rfl
    · rw [if_neg h2, if_neg (fun h => h2 (c2.mp h))]
      by_cases h3 : (n / d) % 2 = 0
      · rw [if_pos h3, if_pos (c3.mpr h3)]
      · rw [if_neg h3, if_neg (fun h => h3 (c3.mp h))]
        push_cast; rfl

theorem rheQ_cases (z : ℚ) :
    (rheQ z = ⌊z⌋ ∧ 2 * (z - ⌊z⌋) ≤ 1) ∨ (rheQ z = ⌊z⌋ + 1 ∧ 1 ≤ 2 * (z - ⌊z⌋)) := by
  unfold rheQ
  by_cases h1 : 2 * (z - ⌊z⌋) < 1
  · left; rw [if_pos h1]; exact ⟨rfl, h1.le⟩
  · rw [if_neg h1]
    by_cases h2 : 1 < 2 * (z - ⌊z⌋)
    · right; rw [if_pos h2]; exact ⟨rfl, h2.le⟩
    · rw [if_neg h2]
      by_cases h3 : ⌊z⌋ % 2 = 0
      · left; rw [if_pos h3]; exact ⟨rfl, not_lt.mp h2⟩
      · right; rw [if_neg h3]; exact ⟨rfl, not_lt.mp h1⟩

theorem rheQ_intCast (k : ℤ) : rheQ (k : ℚ) = k := by
  unfold rheQ
  simp

theorem rheQ_err (z : ℚ) : |(rheQ z : ℚ) - z| ≤ 1 / 2 := by
  have h1 := Int.floor_le z
  have h2 := Int.lt_floor_add_one z
  rw [abs_le]
  rcases rheQ_cases z with ⟨e, h⟩ | ⟨e, h⟩
  · rw [e]; constructor <;> linarith
  · rw [e]; push_cast; constructor <;> linarith

theorem rheQ_mono {z w : ℚ} (h : z ≤ w) : rheQ z ≤ rheQ w := by
  have hf : ⌊z⌋ ≤ ⌊w⌋ := Int.floor_mono h
  rcases lt_or_eq_of_le hf with hlt | heq
  · -- different floors
    have hz : rheQ z ≤ ⌊z⌋ + 1 := by
      rcases rheQ_cases z with ⟨e, _⟩ | ⟨e, _⟩ <;> omega
    have hw : ⌊w⌋ ≤ rheQ w := by
      rcases rheQ_cases w with ⟨e, _⟩ | ⟨e, _⟩ <;> omega
    omega
  · -- same floor
    unfold rheQ
    rw [← heq]
    by_cases a1 : 2 * (z - ⌊z⌋) < 1
    · rw [if_pos a1]
      split_ifs <;> omega
    · rw [if_neg a1]
      have b1 : ¬ (2 * (w - ⌊z⌋) < 1) := by intro hh; apply a1; linarith
      rw [if_neg b1]
      by_cases a2 : 1 < 2 * (z - ⌊z⌋)
      · rw [if_pos a2]
        have b2 : 1 < 2 * (w - ⌊z⌋) := by linarith
        rw [if_pos b2]
      · rw [if_neg a2]
        split_ifs <;> omega

theorem rheQ_le_of_le_int {z : ℚ} {k : ℤ} (h : z ≤ k) : rheQ z ≤ k := by
  have := rheQ_mono h
  rwa [rheQ_intCast] at this

theorem rheQ_ge_of_int_le {z : ℚ} {k : ℤ} (h : (k : ℚ) ≤ z) : k ≤ rheQ z := by
  have := rheQ_mono h
  rwa [rheQ_intCast] at this

theorem roundQ_zero : roundQ 0 = 0 := by
  unfold roundQ
  rw [zero_div]
  have : rheQ (0 : ℚ) = 0 := by simpa using rheQ_intCast 0
  rw [this]
  simp

theorem rnd_val (s : Bool) (n d : Nat) (hd : 0 < d) (hx : (n : ℚ) / d < 2 ^ (1023 : ℤ)) :
    ∃ m p, F64.rnd s n d = F64.fin s m p ∧ (m : ℚ) * 2 ^ p = roundQ ((n : ℚ) / d) := by
  by_cases hn : n = 0
  · refine ⟨0, 0, ?_, ?_⟩
    · unfold F64.rnd; rw [if_pos hn]
    · subst hn; simp [roundQ_zero]
  · have hnpos : 0 < n := Nat.pos_of_ne_zero hn
    have hxpos : (0 : ℚ) < (n : ℚ) / d := by positivity
    have hlog : Int.log 2 ((n : ℚ) / d) < 1023 :=
      (Int.lt_zpow_iff_log_lt (by norm_num) hxpos).mp (by exact_mod_cast hx)
    have hp : max (floorLog2 n d - 52) (-1074) = ulpExp ((n : ℚ) / d) := by
      unfold ulpExp; rw [floorLog2_eq_log n d hnpos hd]
    have hple : ulpExp ((n : ℚ) / d) ≤ 970 := by
      unfold ulpExp; omega
    refine ⟨roundHalfEven (n * 2 ^ (-(ulpExp ((n : ℚ) / d))).toNat)
      (d * 2 ^ (ulpExp ((n : ℚ) / d)).toNat), ulpExp ((n : ℚ) / d), ?_, ?_⟩
    · unfold F64.rnd
      rw [if_neg hn]
      simp only []
      rw [hp]
      rw [if_neg (by omega)]
    · unfold roundQ
      congr 1
      have hdpos : 0 < d * 2 ^ (ulpExp ((n : ℚ) / d)).toNat := by positivity
      have h := roundHalfEven_eq (n * 2 ^ (-(ulpExp ((n : ℚ) / d))).toNat)
        (d * 2 ^ (ulpExp ((n : ℚ) / d)).toNat) hdpos
      have hz : (((n * 2 ^ (-(ulpExp ((n : ℚ) / d))).toNat : Nat) : ℚ) /
          ((d * 2 ^ (ulpExp ((n : ℚ) / d)).toNat : Nat) : ℚ)) =
          (n : ℚ) / d / 2 ^ ulpExp ((n : ℚ) / d) := by
        rw [zpow_two_split (ulpExp ((n : ℚ) / d))]
        push_cast
        have hdq : (d : ℚ) ≠ 0 := by positivity
        field_simp
      rw [hz] at h
      rw [← h]
      norm_cast

theorem two_pow52_mul (e : ℤ) : (4503599627370496 : ℚ) * 2 ^ (e - 52) = 2 ^ e := by
  have h : (4503599627370496 : ℚ) = 2 ^ (52 : ℤ) := by norm_num
  rw [h, ← zpow_add₀ (by norm_num : (2 : ℚ) ≠ 0)]
  congr 1
  omega

theorem rheQ_nonneg {z : ℚ} (h : 0 ≤ z) : 0 ≤ rheQ z :=
  rheQ_ge_of_int_le (by simpa using h)

theorem roundQ_nonneg {x : ℚ} (h : 0 ≤ x) : 0 ≤ roundQ x := by
  unfold roundQ
  have : (0 : ℚ) ≤ (rheQ (x / 2 ^ ulpExp x) : ℚ) := by
    exact_mod_cast rheQ_nonneg (div_nonneg h (by positivity))
  positivity

theorem roundQ_mono {x y : ℚ} (hx : 0 ≤ x) (hxy : x ≤ y) : roundQ x ≤ roundQ y := by
  rcases eq_or_lt_of_le hx with h0 | hpos
  · rw [← h0, roundQ_zero]
    exact roundQ_nonneg (le_trans hx hxy)
  · have hypos : 0 < y := lt_of_lt_of_le hpos hxy
    have hlog : Int.log 2 x ≤ Int.log 2 y := Int.log_mono_right hpos hxy
    have hP : ulpExp x ≤ ulpExp y := by unfold ulpExp; omega
    rcases eq_or_lt_of_le hP with heq | hlt
    · unfold roundQ
      rw [← heq]
      apply mul_le_mul_of_nonneg_right _ (by positivity)
      have : x / 2 ^ ulpExp x ≤ y / 2 ^ ulpExp x :=
        div_le_div_of_nonneg_right hxy (by positivity)
      exact_mod_cast rheQ_mono this
    · -- `y` lies in a higher binade: compare both with `2 ^ log y`
      have hpy : ulpExp y = Int.log 2 y - 52 := by
        unfold ulpExp at hlt ⊢; omega
      have hxlt : Int.log 2 x < Int.log 2 y := by
        unfold ulpExp at hlt hpy; omega
      have hxE : x < (2 : ℚ) ^ Int.log 2 y := by
        have := (Int.lt_zpow_iff_log_lt (R := ℚ) (b := 2) (by norm_num) hpos).mpr hxlt
        exact_mod_cast this
      have hyE : (2 : ℚ) ^ Int.log 2 y ≤ y := by
        have := Int.zpow_log_le_self (R := ℚ) (b := 2) (by norm_num) hypos
        exact_mod_cast this
      have two_ne : (2 : ℚ) ≠ 0 := by norm_num
      -- below
      have h1 : roundQ x ≤ (2 : ℚ) ^ Int.log 2 y := by
        unfold roundQ
        have hk : 0 ≤ Int.log 2 y - ulpExp x := by omega
        have hz : x / 2 ^ ulpExp x ≤ (((2 : ℤ) ^ (Int.log 2 y - ulpExp x).toNat : ℤ) : ℚ) := by
          rw [div_le_iff₀ (by positivity)]
          push_cast
          rw [← zpow_natCast, Int.toNat_of_nonneg hk, ← zpow_add₀ two_ne, sub_add_cancel]
          exact hxE.le
        have := rheQ_le_of_le_int hz
        have hq : (rheQ (x / 2 ^ ulpExp x) : ℚ) ≤
            (((2 : ℤ) ^ (Int.log 2 y - ulpExp x).toNat : ℤ) : ℚ) := by exact_mod_cast this
        calc (rheQ (x / 2 ^ ulpExp x) : ℚ) * 2 ^ ulpExp x
            ≤ (((2 : ℤ) ^ (Int.log 2 y - ulpExp x).toNat : ℤ) : ℚ) * 2 ^ ulpExp x :=
              mul_le_mul_of_nonneg_right hq (by positivity)
          _ = (2 : ℚ) ^ Int.log 2 y := by
              push_cast
              rw [← zpow_natCast, Int.toNat_of_nonneg hk, ← zpow_add₀ two_ne, sub_add_cancel]
      -- above
      have h2 : (2 : ℚ) ^ Int.log 2 y ≤ roundQ y := by
        unfold roundQ
        rw [hpy]
        have hz : ((((2 : ℤ) ^ (52 : ℕ) : ℤ)) : ℚ) ≤ y / 2 ^ (Int.log 2 y - 52) := by
          rw [le_div_iff₀ (by positivity)]
          push_cast
          rw [two_pow52_mul]
          exact hyE
        have := rheQ_ge_of_int_le hz
        have hq : ((((2 : ℤ) ^ (52 : ℕ) : ℤ)) : ℚ) ≤
            (rheQ (y / 2 ^ (Int.log 2 y - 52)) : ℚ) := by exact_mod_cast this
        calc (2 : ℚ) ^ Int.log 2 y
            = ((((2 : ℤ) ^ (52 : ℕ) : ℤ)) : ℚ) * 2 ^ (Int.log 2 y - 52) := by
              push_cast
              rw [two_pow52_mul]
          _ ≤ (rheQ (y / 2 ^ (Int.log 2 y - 52)) : ℚ) * 2 ^ (Int.log 2 y - 52) :=
              mul_le_mul_of_nonneg_right hq (by positivity)
      exact le_trans h1 h2

/-- A number `m * 2 ^ e` with `m < 2 ^ 53` and `e ≥ -1074` is a binary64 value. -/
theorem roundQ_fix (m : Nat) (e : ℤ) (hm : m < 2 ^ 53) (he : -1074 ≤ e) :
    roundQ ((m : ℚ) * 2 ^ e) = (m : ℚ) * 2 ^ e := by
  by_cases h0 : m = 0
  · subst h0; simp [roundQ_zero]
  · have hmpos : (0 : ℚ) < m := by exact_mod_cast Nat.pos_of_ne_zero h0
    have hxpos : (0 : ℚ) < (m : ℚ) * 2 ^ e := by positivity
    have two_ne : (2 : ℚ) ≠ 0 := by norm_num
    have hlt : (m : ℚ) * 2 ^ e < (2 : ℚ) ^ (53 + e) := by
      rw [zpow_add₀ two_ne]
      apply mul_lt_mul_of_pos_right _ (by positivity)
      have : (m : ℚ) < ((2 ^ 53 : Nat) : ℚ) := by exact_mod_cast hm
      calc (m : ℚ) < ((2 ^ 53 : Nat) : ℚ) := this
        _ = 2 ^ (53 : ℤ) := by norm_num
    have hlog : Int.log 2 ((m : ℚ) * 2 ^ e) < 53 + e :=
      (Int.lt_zpow_iff_log_lt (by norm_num) hxpos).mp (by exact_mod_cast hlt)
    have hp : ulpExp ((m : ℚ) * 2 ^ e) ≤ e := by unfold ulpExp; omega
    unfold roundQ
    set p := ulpExp ((m : ℚ) * 2 ^ e) with hpdef
    have hk : 0 ≤ e - p := by omega
    have hz : (m : ℚ) * 2 ^ e / 2 ^ p = (((m : ℤ) * 2 ^ (e - p).toNat : ℤ) : ℚ) := by
      push_cast
      rw [← zpow_natCast, Int.toNat_of_nonneg hk, zpow_sub₀ two_ne]
      field_simp
    rw [hz, rheQ_intCast]
    push_cast
    rw [← zpow_natCast, Int.toNat_of_nonneg hk, mul_assoc, ← zpow_add₀ two_ne, sub_add_cancel]

theorem roundQ_natCast (k : Nat) (hk : k < 2 ^ 53) : roundQ (k : ℚ) = k := by
  have := roundQ_fix k 0 hk (by norm_num)
  simpa using this

/-- In the normal range the relative rounding error is at most `2 ^ -53`. -/
theorem roundQ_err {x : ℚ} (hx : (2 : ℚ) ^ (-1022 : ℤ) ≤ x) :
    |roundQ x - x| ≤ x * 2 ^ (-53 : ℤ) := by
  have hxpos : 0 < x := lt_of_lt_of_le (by positivity) hx
  have two_ne : (2 : ℚ) ≠ 0 := by norm_num
  have hlog : -1022 ≤ Int.log 2 x :=
    (Int.zpow_le_iff_le_log (by norm_num) hxpos).mp (by exact_mod_cast hx)
  have hp : ulpExp x = Int.log 2 x - 52 := by unfold ulpExp; omega
  have hE : (2 : ℚ) ^ Int.log 2 x ≤ x := by
    have := Int.zpow_log_le_self (R := ℚ) (b := 2) (by norm_num) hxpos
    exact_mod_cast this
  unfold roundQ
  rw [hp]
  set p := Int.log 2 x - 52 with hpdef
  have hpp : (0 : ℚ) < 2 ^ p := by positivity
  have h1 := rheQ_err (x / 2 ^ p)
  have h2 : (rheQ (x / 2 ^ p) : ℚ) * 2 ^ p - x = ((rheQ (x / 2 ^ p) : ℚ) - x / 2 ^ p) * 2 ^ p := by
    field_simp
  rw [h2, abs_mul, abs_of_pos hpp]
  calc |(rheQ (x / 2 ^ p) : ℚ) - x / 2 ^ p| * 2 ^ p ≤ 1 / 2 * 2 ^ p :=
        mul_le_mul_of_nonneg_right h1 hpp.le
    _ = 2 ^ Int.log 2 x * 2 ^ (-53 : ℤ) := by
        rw [← zpow_add₀ two_ne, hpdef]
        have : (1 / 2 : ℚ) = 2 ^ (-1 : ℤ) := by norm_num
        rw [this, ← zpow_add₀ two_ne]
        congr 1
        omega
    _ ≤ x * 2 ^ (-53 : ℤ) := mul_le_mul_of_nonneg_right hE (by positivity)

theorem rhaQ_mono {x y : ℚ} (h : x ≤ y) : rhaQ x ≤ rhaQ y :=
  Int.floor_mono (by linarith)

theorem rhaQ_intCast (k : ℤ) : rhaQ (k : ℚ) = k := by
  unfold rhaQ
  rw [Int.floor_eq_iff]
  constructor <;> linarith

theorem rhaQ_err (x : ℚ) : |(rhaQ x : ℚ) - x| ≤ 1 / 2 := by
  unfold rhaQ
  have h1 := Int.floor_le (x + 1 / 2)
  have h2 := Int.lt_floor_add_one (x + 1 / 2)
  rw [abs_le]
  constructor <;> linarith

theorem ofInt_val (i : Int) (h : i.natAbs < 2 ^ 53) :
    ∃ m p, F64.ofInt i = F64.fin (decide (i < 0)) m p ∧ (m : ℚ) * 2 ^ p = (i.natAbs : ℚ) := by
  have hlt : ((i.natAbs : ℚ)) / ((1 : Nat) : ℚ) < 2 ^ (1023 : ℤ) := by
    have h1 : (i.natAbs : ℚ) < ((2 ^ 53 : Nat) : ℚ) := by exact_mod_cast h
    have h2 : (((2 ^ 53 : Nat) : ℚ)) < 2 ^ (1023 : ℤ) := by norm_num
    simpa using lt_trans h1 h2
  obtain ⟨m, p, e1, e2⟩ := rnd_val (decide (i < 0)) i.natAbs 1 (by norm_num) hlt
  refine ⟨m, p, e1, ?_⟩
  rw [e2]
  simp only [Nat.cast_one, div_one]
  exact roundQ_natCast _ h

theorem div_val (s t : Bool) (m k : Nat) (e f : ℤ) (hk : k ≠ 0)
    (hx : (m : ℚ) * 2 ^ e / ((k : ℚ) * 2 ^ f) < 2 ^ (1023 : ℤ)) :
    ∃ m2 p2, F64.div (F64.fin s m e) (F64.fin t k f) = F64.fin (xor s t) m2 p2 ∧
      (m2 : ℚ) * 2 ^ p2 = roundQ ((m : ℚ) * 2 ^ e / ((k : ℚ) * 2 ^ f)) := by
  have hkq : (k : ℚ) ≠ 0 := by exact_mod_cast hk
  have two_ne : (2 : ℚ) ≠ 0 := by norm_num
  have hratio : (((m * 2 ^ (e - f).toNat : Nat) : ℚ)) / ((k * 2 ^ (f - e).toNat : Nat) : ℚ) =
      (m : ℚ) * 2 ^ e / ((k : ℚ) * 2 ^ f) := by
    have h1 : (2 : ℚ) ^ e / 2 ^ f = 2 ^ (e - f).toNat / 2 ^ (-(e - f)).toNat := by
      rw [← zpow_sub₀ two_ne, zpow_two_split (e - f)]
    have h2 : (-(e - f)).toNat = (f - e).toNat := by congr 1; omega
    rw [h2] at h1
    push_cast
    rw [mul_div_mul_comm, ← h1, ← mul_div_mul_comm]
  have hd : 0 < k * 2 ^ (f - e).toNat := by
    have : 0 < k := Nat.pos_of_ne_zero hk
    positivity
  obtain ⟨m2, p2, e1, e2⟩ := rnd_val (xor s t) (m * 2 ^ (e - f).toNat)
    (k * 2 ^ (f - e).toNat) hd (by rw [hratio]; exact hx)
  refine ⟨m2, p2, ?_, ?_⟩
  · show (if k = 0 then (if m = 0 then F64.nan else F64.inf (xor s t))
      else F64.rnd (xor s t) (m * 2 ^ (e - f).toNat) (k * 2 ^ (f - e).toNat)) = _
    rw [if_neg hk]
    exact e1
  · rw [e2, hratio]

theorem mul_val (s t : Bool) (m k : Nat) (e f : ℤ)
    (hx : (m : ℚ) * 2 ^ e * ((k : ℚ) * 2 ^ f) < 2 ^ (1023 : ℤ)) :
    ∃ m2 p2, F64.mul (F64.fin s m e) (F64.fin t k f) = F64.fin (xor s t) m2 p2 ∧
      (m2 : ℚ) * 2 ^ p2 = roundQ ((m : ℚ) * 2 ^ e * ((k : ℚ) * 2 ^ f)) := by
  have two_ne : (2 : ℚ) ≠ 0 := by norm_num
  have hratio : (((m * k * 2 ^ (e + f).toNat : Nat) : ℚ)) / ((2 ^ (-(e + f)).toNat : Nat) : ℚ) =
      (m : ℚ) * 2 ^ e * ((k : ℚ) * 2 ^ f) := by
    have h1 : (2 : ℚ) ^ e * 2 ^ f = 2 ^ (e + f).toNat / 2 ^ (-(e + f)).toNat := by
      rw [← zpow_add₀ two_ne, zpow_two_split (e + f)]
    push_cast
    rw [mul_div_assoc, ← h1]
    ring
  obtain ⟨m2, p2, e1, e2⟩ := rnd_val (xor s t) (m * k * 2 ^ (e + f).toNat)
    (2 ^ (-(e + f)).toNat) (by positivity) (by rw [hratio]; exact hx)
  refine ⟨m2, p2, ?_, ?_⟩
  · show F64.rnd (xor s t) (m * k * 2 ^ (e + f).toNat) (2 ^ (-(e + f)).toNat) = _
    exact e1
  · rw [e2, hratio]

theorem round_val (s : Bool) (m : Nat) (e : ℤ) :
    ∃ K : Nat, F64.round (F64.fin s m e) = F64.fin s K 0 ∧ (K : ℤ) = rhaQ ((m : ℚ) * 2 ^ e) := by
  have hx : (m : ℚ) * 2 ^ e =
      ((m * 2 ^ e.toNat : Nat) : ℚ) / ((2 ^ (-e).toNat : Nat) : ℚ) := by
    rw [zpow_two_split e]
    push_cast
    rw [mul_div_assoc]
  have hd : 0 < 2 ^ (-e).toNat := by positivity
  have hdq : (0 : ℚ) < ((2 ^ (-e).toNat : Nat) : ℚ) := by exact_mod_cast hd
  set n := m * 2 ^ e.toNat with hn
  set d := 2 ^ (-e).toNat with hdd
  have hfl := nat_div_floor n d
  have hfr := nat_div_frac n d hd
  have hmod : n % d < d := Nat.mod_lt _ hd
  have hmodq : ((n % d : Nat) : ℚ) < d := by exact_mod_cast hmod
  have hmod0 : (0 : ℚ) ≤ ((n % d : Nat) : ℚ) := by positivity
  refine ⟨if d ≤ 2 * (n % d) then n / d + 1 else n / d, ?_, ?_⟩
  · unfold F64.round
    simp only []
  · rw [hx]
    unfold rhaQ
    symm
    rw [Int.floor_eq_iff]
    have hxe : (n : ℚ) / d = ((n / d : Nat) : ℚ) + ((n % d : Nat) : ℚ) / d := by
      have := hfr
      rw [Int.cast_natCast] at this
      linarith
    rw [hxe]
    by_cases hc : d ≤ 2 * (n % d)
    · rw [if_pos hc]
      have hcq : (d : ℚ) ≤ 2 * ((n % d : Nat) : ℚ) := by exact_mod_cast hc
      have h1 : (1 : ℚ) / 2 ≤ ((n % d : Nat) : ℚ) / d := by
        rw [le_div_iff₀ hdq]; linarith
      have h2 : ((n % d : Nat) : ℚ) / d < 1 := by
        rw [div_lt_one hdq]; exact hmodq
      simp only [Nat.cast_add, Nat.cast_one, Int.cast_add, Int.cast_one, Int.cast_natCast]
      constructor <;> linarith
    · rw [if_neg hc]
      have hcq : 2 * ((n % d : Nat) : ℚ) < (d : ℚ) := by exact_mod_cast not_le.mp hc
      have h1 : ((n % d : Nat) : ℚ) / d < 1 / 2 := by
        rw [div_lt_iff₀ hdq]; linarith
      have h2 : (0 : ℚ) ≤ ((n % d : Nat) : ℚ) / d := by positivity
      simp only [Int.cast_natCast]
      constructor <;> linarith

theorem toInt32_int (s : Bool) (K : Nat) :
    F64.toInt32 (F64.fin s K 0) =
      if -2147483648 ≤ (if s then -(K : ℤ) else K) ∧ (if s then -(K : ℤ) else K) ≤ 2147483647
      then some (if s then -(K : ℤ) else K) else none := by
  unfold F64.toInt32
  simp

theorem int32_natAbs_lt {i : Int} (h : Int32 i) : i.natAbs < 2 ^ 53 := by
  unfold Int32 at h
  have : i.natAbs ≤ 2147483648 := by omega
  calc i.natAbs ≤ 2147483648 := this
    _ < 2 ^ 53 := by norm_num

theorem int32_abs_le {i : Int} (h : Int32 i) : |(i : ℚ)| ≤ 2147483648 := by
  unfold Int32 at h
  rw [abs_le]
  constructor
  · have : (-2147483648 : ℤ) ≤ i := h.1
    exact_mod_cast this
  · have : i ≤ (2147483648 : ℤ) := by omega
    exact_mod_cast this

theorem natAbs_cast_abs (i : Int) : ((i.natAbs : ℕ) : ℚ) = |(i : ℚ)| := by
  rw [Nat.cast_natAbs]
  simp

theorem roundQ_le_of_le_nat {x : ℚ} (hx : 0 ≤ x) (k : Nat) (hk : k < 2 ^ 53) (h : x ≤ k) :
    roundQ x ≤ k := by
  have := roundQ_mono hx h
  rwa [roundQ_natCast k hk] at this

/-- The value of `round(((double)pos / len) * total)` for a positive loop length: the
sign is that of `pos * total`, the magnitude is the nearest integer to the double
product of the double quotient. -/
theorem slice_round_val (pos len total : Int) (hp : Int32 pos) (hl : Int32 len)
    (ht : Int32 total) (hlen : 0 < len) :
    ∃ K : Nat, F64.round (F64.mul (F64.div (F64.ofInt pos) (F64.ofInt len))
        (F64.ofInt total)) = F64.fin (xor (decide (pos < 0)) (decide (total < 0))) K 0 ∧
      (K : ℤ) = rhaQ (roundQ (roundQ (|(pos : ℚ)| / len) * |(total : ℚ)|)) := by
  obtain ⟨m1, p1, e1, v1⟩ := ofInt_val pos (int32_natAbs_lt hp)
  obtain ⟨m2, p2, e2, v2⟩ := ofInt_val len (int32_natAbs_lt hl)
  obtain ⟨m4, p4, e4, v4⟩ := ofInt_val total (int32_natAbs_lt ht)
  rw [natAbs_cast_abs] at v1 v2 v4
  have hposq : (0 : ℚ) ≤ |(pos : ℚ)| := abs_nonneg _
  have hlenq : (0 : ℚ) < len := by exact_mod_cast hlen
  have hlen1 : (1 : ℚ) ≤ len := by exact_mod_cast hlen
  rw [abs_of_pos hlenq] at v2
  have s2 : decide (len < 0) = false := by simpa using hlen.le
  rw [s2] at e2
  have hm2 : m2 ≠ 0 := by
    intro h0
    rw [h0] at v2
    simp at v2
    linarith
  have hpb : |(pos : ℚ)| ≤ 2147483648 := int32_abs_le hp
  have hratio : |(pos : ℚ)| / len ≤ 2147483648 := by
    rw [div_le_iff₀ hlenq]
    nlinarith
  have hratio0 : (0 : ℚ) ≤ |(pos : ℚ)| / len := by positivity
  obtain ⟨m3, p3, e3, v3⟩ := div_val (decide (pos < 0)) false m1 m2 p1 p2 hm2 (by
    rw [v1, v2]
    calc |(pos : ℚ)| / len ≤ 2147483648 := hratio
      _ < 2 ^ (1023 : ℤ) := by norm_num)
  rw [v1, v2] at v3
  have hr3 : roundQ (|(pos : ℚ)| / len) ≤ 2147483648 := by
    have := roundQ_le_of_le_nat hratio0 2147483648 (by norm_num) (by simpa using hratio)
    simpa using this
  have hr30 : 0 ≤ roundQ (|(pos : ℚ)| / len) := roundQ_nonneg hratio0
  have htb := int32_abs_le ht
  obtain ⟨m5, p5, e5, v5⟩ := mul_val (xor (decide (pos < 0)) false) (decide (total < 0))
    m3 m4 p3 p4 (by
    rw [v3, v4]
    calc roundQ (|(pos : ℚ)| / len) * |(total : ℚ)| ≤ 2147483648 * 2147483648 :=
          mul_le_mul hr3 htb (abs_nonneg _) (by norm_num)
      _ < 2 ^ (1023 : ℤ) := by norm_num)
  rw [v3, v4] at v5
  obtain ⟨K, e6, v6⟩ := round_val (xor (xor (decide (pos < 0)) false) (decide (total < 0))) m5 p5
  refine ⟨K, ?_, ?_⟩
  · simp only [Bool.xor_false] at e3 e5 e6
    rw [e1, e2, e3, e4, e5, e6]
  · rw [v6, v5]

theorem startSample_eq (info : Info) (total : Int) (s : SliceInfo) (hp : Int32 s.fPPQPos)
    (hl : Int32 info.fPPQLength) (ht : Int32 total) (hlen : 0 < info.fPPQLength) :
    startSample info total s =
      if Int32 (doubleStartOffset s.fPPQPos info.fPPQLength total)
      then some (doubleStartOffset s.fPPQPos info.fPPQLength total) else none := by
  obtain ⟨K, e, v⟩ := slice_round_val s.fPPQPos info.fPPQLength total hp hl ht hlen
  unfold startSample
  rw [e, toInt32_int]
  unfold doubleStartOffset Int32
  rw [← v]
  by_cases h1 : s.fPPQPos < 0 <;> by_cases h2 : total < 0 <;> simp [h1, h2]

theorem marker_eq_startSample (info : Info) (total : Int) (s : SliceInfo) :
    marker info total s = (startSample info total s).map (fun st => max 1 st) := by
  unfold marker markerF startSample
  cases F64.toInt32 (F64.round (F64.mul
      (F64.div (F64.ofInt s.fPPQPos) (F64.ofInt info.fPPQLength)) (F64.ofInt total))) with
  | none => rfl
  | some m =>
    simp only [Option.map_some']
    congr 1
    rw [max_def]
    split_ifs <;> omega

theorem toInt32_int32 (x : F64) (t : Int) (h : F64.toInt32 x = some t) : Int32 t := by
  have key : ∀ v : Int,
      (if -2147483648 ≤ v ∧ v ≤ 2147483647 then some v else none) = some t → Int32 t := by
    intro v hv
    split_ifs at hv with hr
    cases hv
    exact hr
  cases x with
  | fin s m e => exact key _ h
  | inf s => simp [F64.toInt32] at h
  | nan => simp [F64.toInt32] at h

theorem totalFrames_int32 (info : Info) (t : Int) (h : totalFrames info = some t) : Int32 t :=
  toInt32_int32 _ t h

/-- The magnitude of the rounded slice position grows with the PPQ position. -/
theorem slice_mag_mono (p1 p2 len total : Int) (h0 : 0 ≤ p1) (h12 : p1 ≤ p2) (hlen : 0 < len) :
    rhaQ (roundQ (roundQ (|(p1 : ℚ)| / len) * |(total : ℚ)|)) ≤
      rhaQ (roundQ (roundQ (|(p2 : ℚ)| / len) * |(total : ℚ)|)) := by
  have hlenq : (0 : ℚ) < len := by exact_mod_cast hlen
  have a1 : (0 : ℚ) ≤ p1 := by exact_mod_cast h0
  have a2 : (p1 : ℚ) ≤ p2 := by exact_mod_cast h12
  rw [abs_of_nonneg a1, abs_of_nonneg (le_trans a1 a2)]
  apply rhaQ_mono
  have hq : (p1 : ℚ) / len ≤ (p2 : ℚ) / len := div_le_div_of_nonneg_right a2 hlenq.le
  have hq0 : (0 : ℚ) ≤ (p1 : ℚ) / len := by positivity
  have hr := roundQ_mono hq0 hq
  have hr0 := roundQ_nonneg hq0
  apply roundQ_mono (by positivity)
  exact mul_le_mul_of_nonneg_right hr (abs_nonneg _)

theorem marker_some (info : Info) (total : Int) (s : SliceInfo) (a : Int)
    (hp : Int32 s.fPPQPos) (hl : Int32 info.fPPQLength) (ht : Int32 total)
    (hlen : 0 < info.fPPQLength) (ha : marker info total s = some a) :
    a = max 1 (doubleStartOffset s.fPPQPos info.fPPQLength total) ∧
      startSample info total s = some (doubleStartOffset s.fPPQPos info.fPPQLength total) := by
  rw [marker_eq_startSample] at ha
  have he := startSample_eq info total s hp hl ht hlen
  by_cases c : Int32 (doubleStartOffset s.fPPQPos info.fPPQLength total)
  · rw [if_pos c] at he
    rw [he] at ha
    simp only [Option.map_some', Option.some.injEq] at ha
    exact ⟨ha.symm, he⟩
  · rw [if_neg c] at he
    rw [he] at ha
    simp at ha

theorem marker_mono (info : Info) (total : Int) (s1 s2 : SliceInfo) (a b : Int)
    (hp1 : Int32 s1.fPPQPos) (hp2 : Int32 s2.fPPQPos) (hl : Int32 info.fPPQLength)
    (ht : Int32 total) (hlen : 0 < info.fPPQLength) (h0 : 0 ≤ s1.fPPQPos)
    (h12 : s1.fPPQPos ≤ s2.fPPQPos)
    (ha : marker info total s1 = some a) (hb : marker info total s2 = some b) : a ≤ b := by
  obtain ⟨ea, _⟩ := marker_some info total s1 a hp1 hl ht hlen ha
  obtain ⟨eb, _⟩ := marker_some info total s2 b hp2 hl ht hlen hb
  have hm := slice_mag_mono s1.fPPQPos s2.fPPQPos info.fPPQLength total h0 h12 hlen
  have hn1 : 0 ≤ rhaQ (roundQ (roundQ (|(s1.fPPQPos : ℚ)| / info.fPPQLength) * |(total : ℚ)|)) := by
    have : (0 : ℚ) ≤ roundQ (roundQ (|(s1.fPPQPos : ℚ)| / info.fPPQLength) * |(total : ℚ)|) :=
      roundQ_nonneg (mul_nonneg (roundQ_nonneg (by positivity)) (abs_nonneg _))
    have := rhaQ_mono this
    rwa [show ((0 : ℚ)) = ((0 : ℤ) : ℚ) by simp, rhaQ_intCast] at this
  have d1 : decide (s1.fPPQPos < 0) = false := by simpa using h0
  have d2 : decide (s2.fPPQPos < 0) = false := by simpa using (le_trans h0 h12)
  unfold doubleStartOffset at ea eb
  rw [d1] at ea
  rw [d2] at eb
  by_cases htn : total < 0
  · have d3 : decide (total < 0) = true := by simpa using htn
    rw [d3] at ea eb
    simp only [ne_eq, Bool.false_eq_true, not_false_eq_true, if_true] at ea eb
    rw [ea, eb, max_eq_left (by omega), max_eq_left (by omega)]
  · have d3 : decide (total < 0) = false := by simpa using htn
    rw [d3] at ea eb
    simp only [ne_eq, not_true_eq_false, if_false] at ea eb
    rw [ea, eb]
    exact max_le_max le_rfl hm

theorem marker_ge_one (info : Info) (total : Int) (s : SliceInfo) (a : Int)
    (ha : marker info total s = some a) : 1 ≤ a := by
  rw [marker_eq_startSample] at ha
  cases hst : startSample info total s with
  | none => rw [hst] at ha; simp at ha
  | some st =>
    rw [hst] at ha
    simp only [Option.map_some', Option.some.injEq] at ha
    rw [← ha]
    exact le_max_left _ _

theorem sliceMarkers_cons (info : Info) (total : Int) (s : SliceInfo) (rest : List SliceInfo)
    (ms : List Int) (h : sliceMarkers info total (s :: rest) = some ms) :
    ∃ m ms2, ms = m :: ms2 ∧ marker info total s = some m ∧
      sliceMarkers info total rest = some ms2 := by
  unfold sliceMarkers at h
  cases hm : marker info total s with
  | none => rw [hm] at h; simp at h
  | some m =>
    cases hr : sliceMarkers info total rest with
    | none => rw [hm, hr] at h; simp at h
    | some ms2 =>
      rw [hm, hr] at h
      simp only [Option.some.injEq] at h
      exact ⟨m, ms2, h.symm, rfl, rfl⟩

theorem sliceMarkers_sorted (info : Info) (total : Int) (hl : Int32 info.fPPQLength)
    (ht : Int32 total) (hlen : 0 < info.fPPQLength) :
    ∀ (infos : List SliceInfo) (ms : List Int),
      (∀ s ∈ infos, Int32 s.fPPQPos ∧ 0 ≤ s.fPPQPos) →
      infos.Pairwise (fun a b => a.fPPQPos ≤ b.fPPQPos) →
      sliceMarkers info total infos = some ms →
      (∀ m ∈ ms, 1 ≤ m) ∧ ms.Pairwise (· ≤ ·) ∧
      (∀ m ∈ ms, ∃ s ∈ infos, marker info total s = some m) := by
  intro infos
  induction infos with
  | nil =>
    intro ms _ _ h
    simp only [sliceMarkers, Option.some.injEq] at h
    subst h
    simp
  | cons s rest ih =>
    intro ms hin hpw h
    obtain ⟨m, ms2, rfl, hm, hr⟩ := sliceMarkers_cons info total s rest ms h
    rw [List.pairwise_cons] at hpw
    obtain ⟨i1, i2, i3⟩ := ih ms2 (fun t ht2 => hin t (List.mem_cons_of_mem _ ht2)) hpw.2 hr
    refine ⟨?_, ?_, ?_⟩
    · intro x hx
      rcases List.mem_cons.mp hx with rfl | hx
      · exact marker_ge_one info total s _ hm
      · exact i1 x hx
    · rw [List.pairwise_cons]
      refine ⟨?_, i2⟩
      intro x hx
      obtain ⟨t, ht2, hmt⟩ := i3 x hx
      exact marker_mono info total s t m x (hin s (List.mem_cons_self _ _)).1
        (hin t (List.mem_cons_of_mem _ ht2)).1 hl ht hlen (hin s (List.mem_cons_self _ _)).2
        (hpw.1 t ht2) hm hmt
    · intro x hx
      rcases List.mem_cons.mp hx with rfl | hx
      · exact ⟨s, List.mem_cons_self _ _, hm⟩
      · obtain ⟨t, ht2, hmt⟩ := i3 x hx
        exact ⟨t, List.mem_cons_of_mem _ ht2, hmt⟩

/-- A position inside the loop gives an offset of magnitude at most `|total|`. -/
theorem slice_mag_le (pos len total : Int) (ht : Int32 total) (h0 : 0 ≤ pos) (hle : pos ≤ len)
    (hlen : 0 < len) :
    rhaQ (roundQ (roundQ (|(pos : ℚ)| / len) * |(total : ℚ)|)) ≤ |total| := by
  have hlenq : (0 : ℚ) < len := by exact_mod_cast hlen
  have a1 : (0 : ℚ) ≤ pos := by exact_mod_cast h0
  have a2 : (pos : ℚ) ≤ len := by exact_mod_cast hle
  rw [abs_of_nonneg a1]
  have hq : (pos : ℚ) / len ≤ ((1 : ℕ) : ℚ) := by
    rw [div_le_iff₀ hlenq]; simpa using a2
  have hq0 : (0 : ℚ) ≤ (pos : ℚ) / len := by positivity
  have hr : roundQ ((pos : ℚ) / len) ≤ 1 := by
    have := roundQ_le_of_le_nat hq0 1 (by norm_num) hq
    simpa using this
  have hr0 := roundQ_nonneg hq0
  have habs : |(total : ℚ)| = ((total.natAbs : ℕ) : ℚ) := (natAbs_cast_abs total).symm
  have hprod : roundQ ((pos : ℚ) / len) * |(total : ℚ)| ≤ ((total.natAbs : ℕ) : ℚ) := by
    rw [habs]
    have : (0 : ℚ) ≤ ((total.natAbs : ℕ) : ℚ) := by positivity
    nlinarith
  have h2 := roundQ_le_of_le_nat (mul_nonneg hr0 (abs_nonneg _)) total.natAbs
    (int32_natAbs_lt ht) hprod
  have h3 := rhaQ_mono h2
  have h4 : rhaQ (((total.natAbs : ℕ) : ℚ)) = (total.natAbs : ℤ) := by
    have := rhaQ_intCast (total.natAbs : ℤ)
    rwa [Int.cast_natCast] at this
  rw [h4] at h3
  calc _ ≤ (total.natAbs : ℤ) := h3
    _ = |total| := Int.natCast_natAbs total

/-- Relative rounding bounds for a number that is zero or in the normal range. -/
theorem roundQ_bounds {x : ℚ} (h : x = 0 ∨ (2 : ℚ) ^ (-1022 : ℤ) ≤ x) :
    (1 - 2 ^ (-53 : ℤ)) * x ≤ roundQ x ∧ roundQ x ≤ (1 + 2 ^ (-53 : ℤ)) * x := by
  rcases h with h | h
  · subst h; simp [roundQ_zero]
  · have := roundQ_err h
    rw [abs_le] at this
    constructor <;> linarith [this.1, this.2]

/-- Accumulated rounding error of `S * ((60 / T) * Q)` evaluated with five roundings. -/
theorem chain_bounds (S T Q rt a q d y : ℚ) (hS : 0 ≤ S) (hT : 0 < T) (hQ : 0 ≤ Q)
    (h1 : (1 - 2 ^ (-53 : ℤ)) * T ≤ rt ∧ rt ≤ (1 + 2 ^ (-53 : ℤ)) * T)
    (h2 : (1 - 2 ^ (-53 : ℤ)) * (60 / rt) ≤ a ∧ a ≤ (1 + 2 ^ (-53 : ℤ)) * (60 / rt))
    (h3 : (1 - 2 ^ (-53 : ℤ)) * Q ≤ q ∧ q ≤ (1 + 2 ^ (-53 : ℤ)) * Q)
    (h4 : (1 - 2 ^ (-53 : ℤ)) * (a * q) ≤ d ∧ d ≤ (1 + 2 ^ (-53 : ℤ)) * (a * q))
    (h5 : (1 - 2 ^ (-53 : ℤ)) * (S * d) ≤ y ∧ y ≤ (1 + 2 ^ (-53 : ℤ)) * (S * d)) :
    (1 - 2 ^ (-50 : ℤ)) * (S * (60 / T) * Q) ≤ y ∧
      y ≤ (1 + 2 ^ (-50 : ℤ)) * (S * (60 / T) * Q) := by
  have hu : (2 : ℚ) ^ (-53 : ℤ) = 1 / 9007199254740992 := by norm_num
  have hv : (2 : ℚ) ^ (-50 : ℤ) = 1 / 1125899906842624 := by norm_num
  rw [hu] at h1 h2 h3 h4 h5
  rw [hv]
  set u : ℚ := 1 / 9007199254740992 with hudef
  have hu0 : 0 < u := by norm_num [hudef]
  have hu1 : 0 < 1 - u := by norm_num [hudef]
  have hrt : 0 < rt := lt_of_lt_of_le (mul_pos hu1 hT) h1.1
  have hA : 0 < 60 / rt := by positivity
  have ha : 0 < a := lt_of_lt_of_le (mul_pos hu1 hA) h2.1
  have hq : 0 ≤ q := le_trans (mul_nonneg hu1.le hQ) h3.1
  have hd : 0 ≤ d := le_trans (mul_nonneg hu1.le (mul_nonneg ha.le hq)) h4.1
  have hAhi : 60 / rt ≤ 60 / ((1 - u) * T) :=
    div_le_div_of_nonneg_left (by norm_num) (mul_pos hu1 hT) h1.1
  have hAlo : 60 / ((1 + u) * T) ≤ 60 / rt :=
    div_le_div_of_nonneg_left (by norm_num) hrt h1.2
  have hx : 0 ≤ S * (60 / T) * Q := by positivity
  constructor
  · -- lower bound
    have e1 : (1 - u) * (60 / ((1 + u) * T)) ≤ a :=
      le_trans (mul_le_mul_of_nonneg_left hAlo hu1.le) h2.1
    have e2 : ((1 - u) * (60 / ((1 + u) * T))) * ((1 - u) * Q) ≤ a * q :=
      mul_le_mul e1 h3.1 (mul_nonneg hu1.le hQ) ha.le
    have e3 : (1 - u) * (((1 - u) * (60 / ((1 + u) * T))) * ((1 - u) * Q)) ≤ d :=
      le_trans (mul_le_mul_of_nonneg_left e2 hu1.le) h4.1
    have e4 : (1 - u) * (S * ((1 - u) * (((1 - u) * (60 / ((1 + u) * T))) * ((1 - u) * Q)))) ≤ y :=
      le_trans (mul_le_mul_of_nonneg_left (mul_le_mul_of_nonneg_left e3 hS) hu1.le) h5.1
    have e5 : (1 - u) * (S * ((1 - u) * (((1 - u) * (60 / ((1 + u) * T))) * ((1 - u) * Q)))) =
        ((1 - u) ^ 4 / (1 + u)) * (S * (60 / T) * Q) := by
      field_simp
      ring
    have e6 : (1 - 1 / 1125899906842624 : ℚ) ≤ (1 - u) ^ 4 / (1 + u) := by
      norm_num [hudef]
    calc (1 - 1 / 1125899906842624 : ℚ) * (S * (60 / T) * Q)
        ≤ ((1 - u) ^ 4 / (1 + u)) * (S * (60 / T) * Q) := mul_le_mul_of_nonneg_right e6 hx
      _ = _ := e5.symm
      _ ≤ y := e4
  · -- upper bound
    have e1 : a ≤ (1 + u) * (60 / ((1 - u) * T)) :=
      le_trans h2.2 (mul_le_mul_of_nonneg_left hAhi (by positivity))
    have e2 : a * q ≤ ((1 + u) * (60 / ((1 - u) * T))) * ((1 + u) * Q) :=
      mul_le_mul e1 h3.2 hq (le_trans ha.le e1)
    have e3 : d ≤ (1 + u) * (((1 + u) * (60 / ((1 - u) * T))) * ((1 + u) * Q)) :=
      le_trans h4.2 (mul_le_mul_of_nonneg_left e2 (by positivity))
    have e4 : y ≤ (1 + u) * (S * ((1 + u) * (((1 + u) * (60 / ((1 - u) * T))) * ((1 + u) * Q)))) :=
      le_trans h5.2 (mul_le_mul_of_nonneg_left (mul_le_mul_of_nonneg_left e3 hS) (by positivity))
    have e5 : (1 + u) * (S * ((1 + u) * (((1 + u) * (60 / ((1 - u) * T))) * ((1 + u) * Q)))) =
        ((1 + u) ^ 4 / (1 - u)) * (S * (60 / T) * Q) := by
      field_simp
      ring
    have e6 : (1 + u) ^ 4 / (1 - u) ≤ (1 + 1 / 1125899906842624 : ℚ) := by
      norm_num [hudef]
    calc y ≤ _ := e4
      _ = ((1 + u) ^ 4 / (1 - u)) * (S * (60 / T) * Q) := e5
      _ ≤ (1 + 1 / 1125899906842624 : ℚ) * (S * (60 / T) * Q) :=
          mul_le_mul_of_nonneg_right e6 hx

theorem tiny_normal {x : ℚ} (h : (1 : ℚ) / 1000000000000 ≤ x) : (2 : ℚ) ^ (-1022 : ℤ) ≤ x := by
  have h1 : (2 : ℚ) ^ (-1022 : ℤ) ≤ 2 ^ (-40 : ℤ) :=
    zpow_le_zpow_right₀ (by norm_num) (by norm_num)
  have h2 : (2 : ℚ) ^ (-40 : ℤ) ≤ 1 / 1000000000000 := by norm_num
  exact le_trans h1 (le_trans h2 h)

theorem big_finite {x : ℚ} (h : x ≤ 1000000000000000000000000) : x < (2 : ℚ) ^ (1023 : ℤ) := by
  have h1 : (2 : ℚ) ^ (100 : ℤ) ≤ 2 ^ (1023 : ℤ) :=
    zpow_le_zpow_right₀ (by norm_num) (by norm_num)
  have h2 : (1000000000000000000000000 : ℚ) < 2 ^ (100 : ℤ) := by norm_num
  exact lt_of_le_of_lt h (lt_of_lt_of_le h2 h1)

theorem lo_step {x r c : ℚ} (hb : (1 - 1 / 9007199254740992) * x ≤ r) (hc : c ≤ x)
    (h0 : 0 ≤ c) : 1 / 2 * c ≤ r := by
  have h1 : (1 - 1 / 9007199254740992 : ℚ) * c ≤ (1 - 1 / 9007199254740992) * x :=
    mul_le_mul_of_nonneg_left hc (by norm_num)
  have : 1 / 2 * c ≤ (1 - 1 / 9007199254740992 : ℚ) * c :=
    mul_le_mul_of_nonneg_right (by norm_num) h0
  linarith

theorem hi_step {x r c : ℚ} (hb : r ≤ (1 + 1 / 9007199254740992) * x) (hc : x ≤ c)
    (h0 : 0 ≤ c) : r ≤ 2 * c := by
  have h1 : (1 + 1 / 9007199254740992 : ℚ) * x ≤ (1 + 1 / 9007199254740992) * c :=
    mul_le_mul_of_nonneg_left hc (by norm_num)
  have h2 : (1 + 1 / 9007199254740992 : ℚ) * c ≤ 2 * c :=
    mul_le_mul_of_nonneg_right (by norm_num) h0
  linarith

theorem ofInt_nonneg_val (i : Int) (h : Int32 i) (h0 : 0 ≤ i) :
    ∃ m p, F64.ofInt i = F64.fin false m p ∧ (m : ℚ) * 2 ^ p = (i : ℚ) := by
  obtain ⟨m, p, e, v⟩ := ofInt_val i (int32_natAbs_lt h)
  have d : decide (i < 0) = false := by simpa using h0
  rw [d] at e
  refine ⟨m, p, e, ?_⟩
  rw [v, natAbs_cast_abs, abs_of_nonneg (by exact_mod_cast h0)]

theorem mant_ne_zero {m : Nat} {p : ℤ} {x : ℚ} (v : (m : ℚ) * 2 ^ p = x) (hx : 0 < x) :
    m ≠ 0 := by
  intro h0
  rw [h0] at v
  simp at v
  linarith

/-- The double handed to the cast that produces `totalFrames`, and its distance from
the exact loop length `x = sr × (60 / (tempo / 1000)) × (ppq / 15360)`. -/
theorem totalFramesF_val (info : Info) (hs : Int32 info.fSampleRate) (ht : Int32 info.fTempo)
    (hp : Int32 info.fPPQLength) (hs0 : 0 ≤ info.fSampleRate) (ht0 : 0 < info.fTempo)
    (hp0 : 0 ≤ info.fPPQLength) :
    ∃ (K : Nat) (y : ℚ), totalFramesF info = F64.fin false K 0 ∧ (K : ℤ) = rhaQ y ∧
      (1 - 2 ^ (-50 : ℤ)) * ((info.fSampleRate : ℚ) * (60 / ((info.fTempo : ℚ) / 1000)) *
          ((info.fPPQLength : ℚ) / 15360)) ≤ y ∧
      y ≤ (1 + 2 ^ (-50 : ℤ)) * ((info.fSampleRate : ℚ) * (60 / ((info.fTempo : ℚ) / 1000)) *
          ((info.fPPQLength : ℚ) / 15360)) := by
  have hu : (2 : ℚ) ^ (-53 : ℤ) = 1 / 9007199254740992 := by norm_num
  -- ranges of the inputs
  have hSq0 : (0 : ℚ) ≤ info.fSampleRate := by exact_mod_cast hs0
  have hSq1 : (info.fSampleRate : ℚ) ≤ 2147483648 :=
    le_trans (le_abs_self _) (int32_abs_le hs)
  have hTq1 : (1 : ℚ) ≤ info.fTempo := by exact_mod_cast ht0
  have hTq2 : (info.fTempo : ℚ) ≤ 2147483648 := le_trans (le_abs_self _) (int32_abs_le ht)
  have hPq0 : (0 : ℚ) ≤ info.fPPQLength := by exact_mod_cast hp0
  have hPq2 : (info.fPPQLength : ℚ) ≤ 2147483648 :=
    le_trans (le_abs_self _) (int32_abs_le hp)
  set T : ℚ := (info.fTempo : ℚ) / 1000 with hT
  set Q : ℚ := (info.fPPQLength : ℚ) / 15360 with hQ
  have hT1 : (1 : ℚ) / 1000 ≤ T := by rw [hT]; linarith
  have hT2 : T ≤ 2147483648 / 1000 := by rw [hT]; linarith
  have hTpos : 0 < T := by linarith
  have hQ0 : 0 ≤ Q := by rw [hQ]; positivity
  have hQ2 : Q ≤ 2147483648 / 15360 := by rw [hQ]; linarith
  have hQz : Q = 0 ∨ 1 / 15360 ≤ Q := by
    rcases eq_or_lt_of_le hp0 with h | h
    · left; rw [hQ, ← h]; simp
    · right
      have : (1 : ℚ) ≤ info.fPPQLength := by exact_mod_cast h
      rw [hQ]; linarith
  -- realTempo
  obtain ⟨mt, pt, et, vt⟩ := ofInt_nonneg_val info.fTempo ht ht0.le
  obtain ⟨mk, pk, ek, vk⟩ := ofInt_nonneg_val 1000 (by decide) (by decide)
  have hmk : mk ≠ 0 := mant_ne_zero vk (by norm_num)
  obtain ⟨m1, p1, e1, v1⟩ := div_val false false mt mk pt pk hmk (by
    rw [vt, vk]; push_cast; exact big_finite (by linarith))
  rw [vt, vk] at v1
  push_cast at v1
  have B1 := roundQ_bounds (Or.inr (tiny_normal (by linarith)) : T = 0 ∨ _)
  rw [hu] at B1
  set rt := roundQ T with hrt
  have hrt1 : (1 : ℚ) / 2000 ≤ rt := by have := lo_step B1.1 hT1 (by norm_num); linarith
  have hrt2 : rt ≤ 2 * (2147483648 / 1000) := hi_step B1.2 hT2 (by norm_num)
  have hrtpos : 0 < rt := by linarith
  have hm1 : m1 ≠ 0 := mant_ne_zero v1 hrtpos
  -- 60.0 / realTempo
  obtain ⟨m60, p60, e60, v60⟩ := ofInt_nonneg_val 60 (by decide) (by decide)
  have hA1 : (1 : ℚ) / 100000 ≤ 60 / rt := by
    rw [le_div_iff₀ hrtpos]; linarith
  have hA2 : 60 / rt ≤ 120000 := by
    rw [div_le_iff₀ hrtpos]; linarith
  obtain ⟨m2, p2, e2, v2⟩ := div_val false false m60 m1 p60 p1 hm1 (by
    rw [v60, v1]; push_cast; exact big_finite (by linarith))
  rw [v60, v1] at v2
  push_cast at v2
  have B2 := roundQ_bounds (Or.inr (tiny_normal (by linarith)) : 60 / rt = 0 ∨ _)
  rw [hu] at B2
  set a := roundQ (60 / rt) with ha
  have ha1 : (1 : ℚ) / 200000 ≤ a := by have := lo_step B2.1 hA1 (by norm_num); linarith
  have ha2 : a ≤ 240000 := by have := hi_step B2.2 hA2 (by norm_num); linarith
  -- quarters
  obtain ⟨mp, pp, ep, vp⟩ := ofInt_nonneg_val info.fPPQLength hp hp0
  obtain ⟨mc, pc, ec, vc⟩ := ofInt_nonneg_val 15360 (by decide) (by decide)
  have hmc : mc ≠ 0 := mant_ne_zero vc (by norm_num)
  obtain ⟨m3, p3, e3, v3⟩ := div_val false false mp mc pp pc hmc (by
    rw [vp, vc]; push_cast; exact big_finite (by linarith))
  rw [vp, vc] at v3
  push_cast at v3
  have B3 := roundQ_bounds (x := Q) (by
    rcases hQz with h | h
    · exact Or.inl h
    · exact Or.inr (tiny_normal (by linarith)))
  rw [hu] at B3
  set q := roundQ Q with hq
  have hq0 : 0 ≤ q := roundQ_nonneg hQ0
  have hq2 : q ≤ 300000 := by have := hi_step B3.2 hQ2 (by norm_num); linarith
  have hqz : q = 0 ∨ 1 / 30720 ≤ q := by
    rcases hQz with h | h
    · left; rw [hq, h, roundQ_zero]
    · right; have := lo_step B3.1 h (by norm_num); linarith
  -- duration
  have hD2 : a * q ≤ 240000 * 300000 := mul_le_mul ha2 hq2 hq0 (by norm_num)
  obtain ⟨m4, p4, e4, v4⟩ := mul_val false false m2 m3 p2 p3 (by
    rw [v2, v3]; exact big_finite (by linarith))
  rw [v2, v3] at v4
  have hDz : a * q = 0 ∨ 1 / 200000 * (1 / 30720) ≤ a * q := by
    rcases hqz with h | h
    · left; rw [h, mul_zero]
    · right; exact mul_le_mul ha1 h (by norm_num) (by linarith)
  have B4 := roundQ_bounds (x := a * q) (by
    rcases hDz with h | h
    · exact Or.inl h
    · exact Or.inr (tiny_normal (by linarith)))
  rw [hu] at B4
  set d := roundQ (a * q) with hd
  have hd0 : 0 ≤ d := roundQ_nonneg (mul_nonneg (by linarith) hq0)
  have hd2 : d ≤ 2 * (240000 * 300000) := hi_step B4.2 hD2 (by norm_num)
  have hdz : d = 0 ∨ 1 / 2 * (1 / 200000 * (1 / 30720)) ≤ d := by
    rcases hDz with h | h
    · left; rw [hd, h, roundQ_zero]
    · right; exact lo_step B4.1 h (by norm_num)
  -- fSampleRate * duration
  obtain ⟨ms, ps, es, vs⟩ := ofInt_nonneg_val info.fSampleRate hs hs0
  have hY2 : (info.fSampleRate : ℚ) * d ≤ 2147483648 * (2 * (240000 * 300000)) :=
    mul_le_mul hSq1 hd2 hd0 (by norm_num)
  obtain ⟨m5, p5, e5, v5⟩ := mul_val false false ms m4 ps p4 (by
    rw [vs, v4]; exact big_finite (by linarith))
  rw [vs, v4] at v5
  have hYz : (info.fSampleRate : ℚ) * d = 0 ∨
      1 / 2 * (1 / 200000 * (1 / 30720)) ≤ (info.fSampleRate : ℚ) * d := by
    rcases eq_or_lt_of_le hs0 with h | h
    · left; rw [← h]; simp
    · rcases hdz with h2 | h2
      · left; rw [h2, mul_zero]
      · right
        have h3 : (1 : ℚ) ≤ info.fSampleRate := by exact_mod_cast h
        calc 1 / 2 * (1 / 200000 * (1 / 30720)) ≤ d := h2
          _ = 1 * d := (one_mul d).symm
          _ ≤ (info.fSampleRate : ℚ) * d := mul_le_mul_of_nonneg_right h3 hd0
  have B5 := roundQ_bounds (x := (info.fSampleRate : ℚ) * d) (by
    rcases hYz with h | h
    · exact Or.inl h
    · exact Or.inr (tiny_normal (by linarith)))
  obtain ⟨K, e6, v6⟩ := round_val (xor false false) m5 p5
  refine ⟨K, roundQ ((info.fSampleRate : ℚ) * d), ?_, ?_, ?_⟩
  · unfold totalFramesF duration realTempo quarters
    simp only [Bool.xor_false] at e1 e2 e3 e4 e5 e6
    rw [et, ek, e1, e60, e2, ep, ec, e3, e4, es, e5, e6]
  · rw [v6, v5]
  · rw [← hu] at B1 B2 B3 B4
    exact chain_bounds (info.fSampleRate : ℚ) T Q rt a q d _ hSq0 hTpos hQ0 B1 B2 B3 B4 B5

theorem two_pow_neg50_mul {x : ℚ} (h : x ≤ 2147483647) :
    (2 : ℚ) ^ (-50 : ℤ) * x ≤ 1 / 524288 := by
  have hv : (2 : ℚ) ^ (-50 : ℤ) = 1 / 1125899906842624 := by norm_num
  rw [hv]
  linarith

/-- For a valid header whose exact loop length fits in `int`, `totalFrames` is defined
and is the nearest integer to a double `y` within `2^-19` of the exact length. -/
theorem totalFrames_near (info : Info) (hs : Int32 info.fSampleRate) (ht : Int32 info.fTempo)
    (hp : Int32 info.fPPQLength) (hs0 : 0 ≤ info.fSampleRate) (ht0 : 0 < info.fTempo)
    (hp0 : 0 ≤ info.fPPQLength) (hfit : exactLoopFrames info ≤ 2147483647) :
    ∃ (t : ℤ) (y : ℚ), totalFrames info = some t ∧ t = rhaQ y ∧ 0 ≤ t ∧
      |y - exactLoopFrames info| ≤ 1 / 524288 := by
  obtain ⟨K, y, e, v, lo, hi⟩ := totalFramesF_val info hs ht hp hs0 ht0 hp0
  have hx0 : 0 ≤ exactLoopFrames info := by
    unfold exactLoopFrames
    have a : (0 : ℚ) ≤ info.fSampleRate := by exact_mod_cast hs0
    have b : (0 : ℚ) < info.fTempo := by exact_mod_cast ht0
    have c : (0 : ℚ) ≤ info.fPPQLength := by exact_mod_cast hp0
    positivity
  have hb := two_pow_neg50_mul hfit
  have lo2 : exactLoopFrames info - 1 / 524288 ≤ y := by
    unfold exactLoopFrames at hb ⊢
    linarith
  have hi2 : y ≤ exactLoopFrames info + 1 / 524288 := by
    unfold exactLoopFrames at hb ⊢
    linarith
  have hK : (K : ℤ) ≤ 2147483647 := by
    rw [v]
    unfold rhaQ
    have : ⌊y + 1 / 2⌋ < 2147483648 := by
      rw [Int.floor_lt]
      push_cast
      linarith
    omega
  refine ⟨K, y, ?_, v, by omega, ?_⟩
  · unfold totalFrames
    rw [e, toInt32_int]
    simp only [Bool.false_eq_true, if_false]
    rw [if_pos ⟨by omega, hK⟩]
  · rw [abs_le]
    constructor <;> linarith

theorem doubleStartOffset_bounds (pos len total : Int) (ht : Int32 total) (h0 : 0 ≤ pos)
    (hle : pos ≤ len) (hlen : 0 < len) :
    (0 ≤ total → 0 ≤ doubleStartOffset pos len total ∧ doubleStartOffset pos len total ≤ total) ∧
    (total < 0 → total ≤ doubleStartOffset pos len total ∧ doubleStartOffset pos len total ≤ 0) := by
  have hK := slice_mag_le pos len total ht h0 hle hlen
  have hK0 : 0 ≤ rhaQ (roundQ (roundQ (|(pos : ℚ)| / len) * |(total : ℚ)|)) := by
    have hlenq : (0 : ℚ) < len := by exact_mod_cast hlen
    have : (0 : ℚ) ≤ roundQ (roundQ (|(pos : ℚ)| / len) * |(total : ℚ)|) :=
      roundQ_nonneg (mul_nonneg (roundQ_nonneg (by positivity)) (abs_nonneg _))
    have := rhaQ_mono this
    rwa [show ((0 : ℚ)) = ((0 : ℤ) : ℚ) by simp, rhaQ_intCast] at this
  have d1 : decide (pos < 0) = false := by simpa using h0
  unfold doubleStartOffset
  rw [d1]
  constructor
  · intro htn
    have d3 : decide (total < 0) = false := by simpa using htn
    rw [d3]
    simp only [ne_eq, not_true_eq_false, if_false]
    rw [abs_of_nonneg htn] at hK
    exact ⟨hK0, hK⟩
  · intro htn
    have d3 : decide (total < 0) = true := by simpa using htn
    rw [d3]
    simp only [ne_eq, Bool.false_eq_true, not_false_eq_true, if_true]
    rw [abs_of_neg htn] at hK
    constructor <;> omega

theorem startSample_defined (info : Info) (total : Int) (s : SliceInfo)
    (hp : Int32 s.fPPQPos) (hl : Int32 info.fPPQLength) (ht : Int32 total)
    (hlen : 0 < info.fPPQLength) (h0 : 0 ≤ s.fPPQPos) (hle : s.fPPQPos ≤ info.fPPQLength) :
    startSample info total s = some (doubleStartOffset s.fPPQPos info.fPPQLength total) := by
  rw [startSample_eq info total s hp hl ht hlen]
  obtain ⟨b1, b2⟩ := doubleStartOffset_bounds s.fPPQPos info.fPPQLength total ht h0 hle hlen
  have : Int32 (doubleStartOffset s.fPPQPos info.fPPQLength total) := by
    unfold Int32 at ht ⊢
    rcases lt_or_le total 0 with h | h
    · have := b2 h; omega
    · have := b1 h; omega
  rw [if_pos this]

theorem sliceMarkers_defined (info : Info) (total : Int) (hl : Int32 info.fPPQLength)
    (ht : Int32 total) (hlen : 0 < info.fPPQLength) :
    ∀ infos : List SliceInfo,
      (∀ s ∈ infos, Int32 s.fPPQPos ∧ 0 ≤ s.fPPQPos ∧ s.fPPQPos ≤ info.fPPQLength) →
      ∃ ms, sliceMarkers info total infos = some ms := by
  intro infos
  induction infos with
  | nil => intro _; exact ⟨[], rfl⟩
  | cons s rest ih =>
    intro h
    obtain ⟨ms, hms⟩ := ih (fun t ht2 => h t (List.mem_cons_of_mem _ ht2))
    obtain ⟨a, b, c⟩ := h s (List.mem_cons_self _ _)
    have hs := startSample_defined info total s a hl ht hlen b c
    have hm : marker info total s =
        some (max 1 (doubleStartOffset s.fPPQPos info.fPPQLength total)) := by
      rw [marker_eq_startSample, hs]; rfl
    refine ⟨max 1 (doubleStartOffset s.fPPQPos info.fPPQLength total) :: ms, ?_⟩
    unfold sliceMarkers
    rw [hm, hms]

theorem sliceMarkers_length (info : Info) (total : Int) :
    ∀ (infos : List SliceInfo) (ms : List Int),
      sliceMarkers info total infos = some ms → ms.length = infos.length := by
  intro infos
  induction infos with
  | nil =>
    intro ms h
    simp only [sliceMarkers, Option.some.injEq] at h
    subst h; rfl
  | cons s rest ih =>
    intro ms h
    obtain ⟨m, ms2, rfl, _, hr⟩ := sliceMarkers_cons info total s rest ms h
    simp [ih ms2 hr]

/-- For a position inside the loop and a non-negative loop length, the placement
offset is defined and within `1/2 + 2^-20` of the exact value `(pos / len) × total`. -/
theorem startSample_round (info : Info) (total : Int) (s : SliceInfo)
    (hp : Int32 s.fPPQPos) (hl : Int32 info.fPPQLength) (ht : Int32 total)
    (hlen : 0 < info.fPPQLength) (h0 : 0 ≤ s.fPPQPos) (hle : s.fPPQPos ≤ info.fPPQLength)
    (ht0 : 0 ≤ total) :
    ∃ (st : ℤ) (y : ℚ), startSample info total s = some st ∧ 0 ≤ st ∧ st ≤ total ∧
      st = rhaQ y ∧
      |y - (s.fPPQPos : ℚ) / info.fPPQLength * total| ≤ 1 / 1048576 := by
  have hs := startSample_defined info total s hp hl ht hlen h0 hle
  obtain ⟨hb, _⟩ := doubleStartOffset_bounds s.fPPQPos info.fPPQLength total ht h0 hle hlen
  have d1 : decide (s.fPPQPos < 0) = false := by simpa using h0
  have d3 : decide (total < 0) = false := by simpa using ht0
  have hpq : (0 : ℚ) ≤ s.fPPQPos := by exact_mod_cast h0
  have hlq : (0 : ℚ) < info.fPPQLength := by exact_mod_cast hlen
  have htq : (0 : ℚ) ≤ total := by exact_mod_cast ht0
  have hval : doubleStartOffset s.fPPQPos info.fPPQLength total =
      rhaQ (roundQ (roundQ ((s.fPPQPos : ℚ) / info.fPPQLength) * (total : ℚ))) := by
    unfold doubleStartOffset
    rw [d1, d3]
    simp only [ne_eq, not_true_eq_false, if_false]
    rw [abs_of_nonneg hpq, abs_of_nonneg htq]
  refine ⟨_, roundQ (roundQ ((s.fPPQPos : ℚ) / info.fPPQLength) * (total : ℚ)), hs,
    (hb ht0).1, (hb ht0).2, hval, ?_⟩
  have hlq2 : (info.fPPQLength : ℚ) ≤ 2147483648 := le_trans (le_abs_self _) (int32_abs_le hl)
  have htq2 : (total : ℚ) ≤ 2147483648 := le_trans (le_abs_self _) (int32_abs_le ht)
  set q : ℚ := (s.fPPQPos : ℚ) / info.fPPQLength with hq
  have hq0 : 0 ≤ q := by rw [hq]; positivity
  have hq1 : q ≤ 1 := by
    rw [hq, div_le_one hlq]
    exact_mod_cast hle
  have hu : (2 : ℚ) ^ (-53 : ℤ) = 1 / 9007199254740992 := by norm_num
  -- the quotient
  have hqz : q = 0 ∨ 1 / 2147483648 ≤ q := by
    rcases eq_or_lt_of_le h0 with h | h
    · left; rw [hq, ← h]; simp
    · right
      have h1 : (1 : ℚ) ≤ s.fPPQPos := by exact_mod_cast h
      rw [hq, le_div_iff₀ hlq]
      linarith
  have B1 := roundQ_bounds (x := q) (by
    rcases hqz with h | h
    · exact Or.inl h
    · exact Or.inr (tiny_normal (by linarith)))
  rw [hu] at B1
  set r := roundQ q with hr
  have hr0 : 0 ≤ r := roundQ_nonneg hq0
  have hrz : r = 0 ∨ 1 / 2 * (1 / 2147483648) ≤ r := by
    rcases hqz with h | h
    · left; rw [hr, h, roundQ_zero]
    · right; exact lo_step B1.1 h (by norm_num)
  -- the product
  have hzz : r * total = 0 ∨ 1 / 2 * (1 / 2147483648) ≤ r * total := by
    rcases eq_or_lt_of_le ht0 with h | h
    · left; rw [← h]; simp
    · rcases hrz with h2 | h2
      · left; rw [h2, zero_mul]
      · right
        have h3 : (1 : ℚ) ≤ total := by exact_mod_cast h
        calc 1 / 2 * (1 / 2147483648) ≤ r := h2
          _ = r * 1 := (mul_one r).symm
          _ ≤ r * total := mul_le_mul_of_nonneg_left h3 hr0
  have B2 := roundQ_bounds (x := r * total) (by
    rcases hzz with h | h
    · exact Or.inl h
    · exact Or.inr (tiny_normal (by linarith)))
  rw [hu] at B2
  set y := roundQ (r * total) with hy
  have hx0 : 0 ≤ q * total := mul_nonneg hq0 htq
  have hx1 : q * total ≤ 2147483648 := by
    calc q * total ≤ 1 * total := mul_le_mul_of_nonneg_right hq1 htq
      _ ≤ 2147483648 := by linarith
  -- two roundings
  have e1 : (1 - 1 / 9007199254740992 : ℚ) * ((1 - 1 / 9007199254740992) * q * total) ≤ y := by
    have : (1 - 1 / 9007199254740992 : ℚ) * q * total ≤ r * total :=
      mul_le_mul_of_nonneg_right B1.1 htq
    exact le_trans (mul_le_mul_of_nonneg_left this (by norm_num)) B2.1
  have e2 : y ≤ (1 + 1 / 9007199254740992 : ℚ) * ((1 + 1 / 9007199254740992) * q * total) := by
    have : r * total ≤ (1 + 1 / 9007199254740992 : ℚ) * q * total :=
      mul_le_mul_of_nonneg_right B1.2 htq
    exact le_trans B2.2 (mul_le_mul_of_nonneg_left this (by norm_num))
  have e3 : (1 - 1 / 9007199254740992 : ℚ) * ((1 - 1 / 9007199254740992) * q * total) =
      q * total - (2 / 9007199254740992 - 1 / 9007199254740992 ^ 2) * (q * total) := by ring
  have e4 : (1 + 1 / 9007199254740992 : ℚ) * ((1 + 1 / 9007199254740992) * q * total) =
      q * total + (2 / 9007199254740992 + 1 / 9007199254740992 ^ 2) * (q * total) := by ring
  have e5 : (2 / 9007199254740992 + 1 / 9007199254740992 ^ 2 : ℚ) * (q * total) ≤
      1 / 1048576 := by
    calc (2 / 9007199254740992 + 1 / 9007199254740992 ^ 2 : ℚ) * (q * total)
        ≤ (2 / 9007199254740992 + 1 / 9007199254740992 ^ 2) * 2147483648 :=
          mul_le_mul_of_nonneg_left hx1 (by norm_num)
      _ ≤ 1 / 1048576 := by norm_num
  have e6 : (2 / 9007199254740992 - 1 / 9007199254740992 ^ 2 : ℚ) * (q * total) ≤
      1 / 1048576 := by
    calc (2 / 9007199254740992 - 1 / 9007199254740992 ^ 2 : ℚ) * (q * total)
        ≤ (2 / 9007199254740992 - 1 / 9007199254740992 ^ 2) * 2147483648 :=
          mul_le_mul_of_nonneg_left hx1 (by norm_num)
      _ ≤ 1 / 1048576 := by norm_num
  rw [abs_le]
  constructor <;> linarith

theorem startSample_near (info : Info) (total : Int) (s : SliceInfo)
    (hp : Int32 s.fPPQPos) (hl : Int32 info.fPPQLength) (ht : Int32 total)
    (hlen : 0 < info.fPPQLength) (h0 : 0 ≤ s.fPPQPos) (hle : s.fPPQPos ≤ info.fPPQLength)
    (ht0 : 0 ≤ total) :
    ∃ st : ℤ, startSample info total s = some st ∧ 0 ≤ st ∧ st ≤ total ∧
      |(st : ℚ) - (s.fPPQPos : ℚ) / info.fPPQLength * total| ≤ 1 / 2 + 1 / 1048576 := by
  obtain ⟨st, y, e, a, b, v, hy⟩ := startSample_round info total s hp hl ht hlen h0 hle ht0
  refine ⟨st, e, a, b, ?_⟩
  have h1 := rhaQ_err y
  rw [← v, abs_le] at h1
  rw [abs_le] at hy ⊢
  constructor <;> linarith [h1.1, h1.2, hy.1, hy.2]

/-! ## C1: total frames against exact arithmetic -/

/-- C1, as stated, fails at 44100 Hz, 138.24 BPM, four quarters: the exact loop length
is 76562.5 frames, which rounds to 76563, but the double product is just below and the
code computes 76562. -/
theorem totalFrames_differs_from_exact_round :
    totalFrames ⟨2, 44100, 4, 138240, 61440⟩ = some 76562 ∧
      exactLoopFrames ⟨2, 44100, 4, 138240, 61440⟩ = 153125 / 2 ∧
      specTotalFrames ⟨2, 44100, 4, 138240, 61440⟩ = 76563 := by
  have hx : exactLoopFrames ⟨2, 44100, 4, 138240, 61440⟩ = 153125 / 2 := by
    unfold exactLoopFrames
    norm_num
  refine ⟨by set_option maxRecDepth 100000 in decide, hx, ?_⟩
  unfold specTotalFrames roundHalfAwayQ
  rw [hx, if_pos (by norm_num)]
  rw [Int.floor_eq_iff]
  constructor <;> norm_num

/-- C1 (amended): for a header with 32-bit fields, `tempo > 0`, `sample_rate ≥ 0`,
`ppq_length ≥ 0` and exact loop length `x ≤ 2^31 - 1`, `total_frames` is defined,
non-negative and within `1/2 + 2^-19` of `x`; it equals the exact rounding of `x`
whenever `x` is farther than `2^-19` from every half-integer; and the three listed
headers give 88200, 48000 and 18900. -/
theorem totalFrames_near_exact (info : Info) (hs : Int32 info.fSampleRate)
    (ht : Int32 info.fTempo) (hp : Int32 info.fPPQLength) (hs0 : 0 ≤ info.fSampleRate)
    (ht0 : 0 < info.fTempo) (hp0 : 0 ≤ info.fPPQLength)
    (hfit : exactLoopFrames info ≤ 2147483647) :
    (∃ t : ℤ, totalFrames info = some t ∧ 0 ≤ t ∧
      |(t : ℚ) - exactLoopFrames info| ≤ 1 / 2 + 1 / 524288 ∧
      ((∀ n : ℤ, 1 / 524288 < |exactLoopFrames info - ((n : ℚ) + 1 / 2)|) →
        t = specTotalFrames info)) ∧
    totalFrames ⟨2, 44100, 4, 120000, 61440⟩ = some 88200 ∧
    totalFrames ⟨1, 48000, 1, 60000, 15360⟩ = some 48000 ∧
    totalFrames ⟨2, 44100, 0, 140000, 15360⟩ = some 18900 := by
  refine ⟨?_, by set_option maxRecDepth 100000 in decide,
    by set_option maxRecDepth 100000 in decide, by set_option maxRecDepth 100000 in decide⟩
  obtain ⟨t, y, e, v, t0, hy⟩ := totalFrames_near info hs ht hp hs0 ht0 hp0 hfit
  have hx0 : 0 ≤ exactLoopFrames info := by
    unfold exactLoopFrames
    have a : (0 : ℚ) ≤ info.fSampleRate := by exact_mod_cast hs0
    have b : (0 : ℚ) < info.fTempo := by exact_mod_cast ht0
    have c : (0 : ℚ) ≤ info.fPPQLength := by exact_mod_cast hp0
    positivity
  rw [abs_le] at hy
  refine ⟨t, e, t0, ?_, ?_⟩
  · have h1 := rhaQ_err y
    rw [← v, abs_le] at h1
    rw [abs_le]
    constructor <;> linarith [h1.1, h1.2, hy.1, hy.2]
  · intro hfar
    unfold specTotalFrames roundHalfAwayQ
    rw [if_pos hx0, v]
    unfold rhaQ
    set x := exactLoopFrames info with hxdef
    set n := ⌊x + 1 / 2⌋ with hn
    have f1 : (n : ℚ) ≤ x + 1 / 2 := Int.floor_le _
    have f2 : x + 1 / 2 < (n : ℚ) + 1 := Int.lt_floor_add_one _
    have g1 := hfar (n - 1)
    have g2 := hfar n
    push_cast at g1
    have e1 : |x - ((n : ℚ) - 1 + 1 / 2)| = x - ((n : ℚ) - 1 + 1 / 2) :=
      abs_of_nonneg (by linarith)
    have e2 : |x - ((n : ℚ) + 1 / 2)| = (n : ℚ) + 1 / 2 - x := by
      rw [abs_sub_comm]
      exact abs_of_nonneg (by linarith)
    rw [e1] at g1
    rw [e2] at g2
    rw [Int.floor_eq_iff]
    constructor <;> linarith [hy.1, hy.2]

/-- The header of scenario S1. -/
theorem totalFrames_near_exact_witness :
    (∃ t : ℤ, totalFrames ⟨2, 44100, 4, 120000, 61440⟩ = some t ∧ 0 ≤ t ∧
      |(t : ℚ) - exactLoopFrames ⟨2, 44100, 4, 120000, 61440⟩| ≤ 1 / 2 + 1 / 524288 ∧
      ((∀ n : ℤ, 1 / 524288 <
          |exactLoopFrames ⟨2, 44100, 4, 120000, 61440⟩ - ((n : ℚ) + 1 / 2)|) →
        t = specTotalFrames ⟨2, 44100, 4, 120000, 61440⟩)) ∧
    totalFrames ⟨2, 44100, 4, 120000, 61440⟩ = some 88200 ∧
    totalFrames ⟨1, 48000, 1, 60000, 15360⟩ = some 48000 ∧
    totalFrames ⟨2, 44100, 0, 140000, 15360⟩ = some 18900 :=
  totalFrames_near_exact ⟨2, 44100, 4, 120000, 61440⟩ (by decide) (by decide) (by decide)
    (by decide) (by decide) (by decide) (by unfold exactLoopFrames; norm_num)

/-! ## C2: marker and placement offset of one slice -/

/-- C2, as stated, fails on the header of scenario S1 for a slice at PPQ 5376: the exact
value of `(ppq_pos / ppq_length) × total_frames` is 7717.5, which rounds to 7718 (halves
away from zero, and also halves to even), but the double product is just below and the
code places the slice at 7717 and emits marker 7717. -/
theorem startSample_differs_from_exact_round :
    totalFrames s1Info = some 88200 ∧
      startSample s1Info 88200 ⟨5376, 100⟩ = some 7717 ∧
      marker s1Info 88200 ⟨5376, 100⟩ = some 7717 ∧
      (5376 : ℚ) / 61440 * 88200 = 15435 / 2 ∧
      specStartOffset 5376 61440 88200 = 7718 ∧
      rheQ ((5376 : ℚ) / 61440 * 88200) = 7718 := by
  have hx : (5376 : ℚ) / 61440 * 88200 = 15435 / 2 := by norm_num
  have hf : ⌊(15435 / 2 : ℚ)⌋ = 7717 := by
    rw [Int.floor_eq_iff]
    constructor <;> norm_num
  refine ⟨by set_option maxRecDepth 100000 in decide,
    by set_option maxRecDepth 100000 in decide,
    by set_option maxRecDepth 100000 in decide, hx, ?_, ?_⟩
  · unfold specStartOffset roundHalfAwayQ
    push_cast
    rw [hx, if_pos (by norm_num), Int.floor_eq_iff]
    constructor <;> norm_num
  · rw [hx]
    unfold rheQ
    rw [hf]
    norm_num

/-- C2 (amended): for a header with `ppq_length > 0` (fields 32-bit) the marker of a
slice is `max(1, start_offset)`, where `start_offset` is the offset at which the placer
starts writing it, and one is defined exactly when the other is; for a position with
`0 ≤ ppq_pos ≤ ppq_length` and `total_frames ≥ 0` the offset is defined, within
`1/2 + 2^-20` of `x = (ppq_pos / ppq_length) × total_frames`, and equal to the exact
rounding of `x` whenever `x` is farther than `2^-20` from every half-integer; scenario
S1 gives start offsets `[0, 22050, 44100, 66150]` and markers `[1, 22050, 44100, 66150]`. -/
theorem startSample_near_exact_round (info : Info) (total : Int) (s : SliceInfo)
    (hp : Int32 s.fPPQPos) (hl : Int32 info.fPPQLength) (ht : Int32 total)
    (hlen : 0 < info.fPPQLength) :
    marker info total s = (startSample info total s).map (fun st => max 1 st) ∧
      (0 ≤ s.fPPQPos → s.fPPQPos ≤ info.fPPQLength → 0 ≤ total →
        ∃ st : ℤ, startSample info total s = some st ∧ marker info total s = some (max 1 st) ∧
          |(st : ℚ) - (s.fPPQPos : ℚ) / info.fPPQLength * total| ≤ 1 / 2 + 1 / 1048576 ∧
          ((∀ n : ℤ, 1 / 1048576 <
              |(s.fPPQPos : ℚ) / info.fPPQLength * total - ((n : ℚ) + 1 / 2)|) →
            st = specStartOffset s.fPPQPos info.fPPQLength total)) ∧
      totalFrames s1Info = some 88200 ∧
      s1Slices.map (startSample s1Info 88200) = [some 0, some 22050, some 44100, some 66150] ∧
      sliceMarkers s1Info 88200 s1Slices = some [1, 22050, 44100, 66150] := by
  refine ⟨marker_eq_startSample info total s, ?_,
    by set_option maxRecDepth 100000 in decide,
    by set_option maxRecDepth 100000 in decide,
    by set_option maxRecDepth 100000 in decide⟩
  intro h0 hle ht0
  obtain ⟨st, y, e, _, _, v, hy⟩ := startSample_round info total s hp hl ht hlen h0 hle ht0
  have hx0 : (0 : ℚ) ≤ (s.fPPQPos : ℚ) / info.fPPQLength * total := by
    have a : (0 : ℚ) ≤ s.fPPQPos := by exact_mod_cast h0
    have b : (0 : ℚ) < info.fPPQLength := by exact_mod_cast hlen
    have c : (0 : ℚ) ≤ total := by exact_mod_cast ht0
    positivity
  rw [abs_le] at hy
  refine ⟨st, e, ?_, ?_, ?_⟩
  · rw [marker_eq_startSample, e]
    rfl
  · have h1 := rhaQ_err y
    rw [← v, abs_le] at h1
    rw [abs_le]
    constructor <;> linarith [h1.1, h1.2, hy.1, hy.2]
  · intro hfar
    unfold specStartOffset roundHalfAwayQ
    rw [if_pos hx0, v]
    unfold rhaQ
    set x := (s.fPPQPos : ℚ) / info.fPPQLength * total with hxdef
    set n := ⌊x + 1 / 2⌋ with hn
    have f1 : (n : ℚ) ≤ x + 1 / 2 := Int.floor_le _
    have f2 : x + 1 / 2 < (n : ℚ) + 1 := Int.lt_floor_add_one _
    have g1 := hfar (n - 1)
    have g2 := hfar n
    push_cast at g1
    have e1 : |x - ((n : ℚ) - 1 + 1 / 2)| = x - ((n : ℚ) - 1 + 1 / 2) :=
      abs_of_nonneg (by linarith)
    have e2 : |x - ((n : ℚ) + 1 / 2)| = (n : ℚ) + 1 / 2 - x := by
      rw [abs_sub_comm]
      exact abs_of_nonneg (by linarith)
    rw [e1] at g1
    rw [e2] at g2
    rw [Int.floor_eq_iff]
    constructor <;> linarith [hy.1, hy.2]

/-- The second slice of scenario S1: the exact value is 22050, far from every
half-integer, and the offset and the marker are 22050. -/
theorem startSample_near_exact_round_witness :
    startSample ⟨2, 44100, 4, 120000, 61440⟩ 88200 ⟨15360, 22050⟩ = some 22050 ∧
      marker ⟨2, 44100, 4, 120000, 61440⟩ 88200 ⟨15360, 22050⟩ = some 22050 ∧
      specStartOffset 15360 61440 88200 = 22050 ∧
      ∃ st : ℤ, startSample ⟨2, 44100, 4, 120000, 61440⟩ 88200 ⟨15360, 22050⟩ = some st ∧
        marker ⟨2, 44100, 4, 120000, 61440⟩ 88200 ⟨15360, 22050⟩ = some (max 1 st) ∧
        |(st : ℚ) - ((15360 : ℤ) : ℚ) / ((61440 : ℤ) : ℚ) * ((88200 : ℤ) : ℚ)| ≤
          1 / 2 + 1 / 1048576 ∧
        ((∀ n : ℤ, 1 / 1048576 <
            |((15360 : ℤ) : ℚ) / ((61440 : ℤ) : ℚ) * ((88200 : ℤ) : ℚ) - ((n : ℚ) + 1 / 2)|) →
          st = specStartOffset 15360 61440 88200) := by
  have h := (startSample_near_exact_round ⟨2, 44100, 4, 120000, 61440⟩ 88200 ⟨15360, 22050⟩
    (by decide) (by decide) (by decide) (by decide)).2.1 (by decide) (by decide) (by decide)
  refine ⟨by set_option maxRecDepth 100000 in decide,
    by set_option maxRecDepth 100000 in decide, ?_, h⟩
  unfold specStartOffset roundHalfAwayQ
  push_cast
  rw [if_pos (by norm_num), Int.floor_eq_iff]
  constructor <;> norm_num

/-! ## C3: placement offsets and markers as sets -/

/-- C3, as stated, fails on scenario S1: the first slice is placed at offset 0, which
is not a marker, and marker 1 is not a placement offset. -/
theorem offsets_differ_from_markers_S1 :
    ∃ offs ms, totalFrames s1Info = some 88200 ∧
      placementOffsets s1Info 88200 s1Slices = some offs ∧
      sliceMarkers s1Info 88200 s1Slices = some ms ∧
      ¬ (∀ x : Int, x ∈ offs ↔ x ∈ ms) := by
  refine ⟨[0, 22050, 44100, 66150], [1, 22050, 44100, 66150], ?_, ?_, ?_, ?_⟩
  · set_option maxRecDepth 100000 in decide
  · set_option maxRecDepth 100000 in decide
  · set_option maxRecDepth 100000 in decide
  · intro h
    have := (h 0).mp (by decide)
    revert this
    decide

/-- C3 (amended): the marker list is the list of placement offsets with every entry
raised to at least 1, so the set of markers is the image of the set of placement
offsets under `max(1, ·)`; the two sets are equal exactly when every placement offset
is at least 1. -/
theorem sliceMarkers_eq_clamped_offsets (info : Info) (total : Int)
    (infos : List SliceInfo) :
    sliceMarkers info total infos =
        (placementOffsets info total infos).map (List.map (fun o => max 1 o)) ∧
      ∀ offs ms, placementOffsets info total infos = some offs →
        sliceMarkers info total infos = some ms →
        (∀ x : Int, x ∈ ms ↔ ∃ o ∈ offs, x = max 1 o) ∧
        ((∀ x : Int, x ∈ offs ↔ x ∈ ms) ↔ ∀ o ∈ offs, 1 ≤ o) := by
  have key : sliceMarkers info total infos =
      (placementOffsets info total infos).map (List.map (fun o => max 1 o)) := by
    induction infos with
    | nil => rfl
    | cons s rest ih =>
      unfold sliceMarkers placementOffsets
      rw [ih, marker_eq_startSample]
      cases startSample info total s <;> cases placementOffsets info total rest <;> rfl
  refine ⟨key, ?_⟩
  intro offs ms hoffs hms
  rw [key, hoffs] at hms
  simp only [Option.map_some', Option.some.injEq] at hms
  have hmem : ∀ x : Int, x ∈ ms ↔ ∃ o ∈ offs, x = max 1 o := by
    intro x
    rw [← hms, List.mem_map]
    constructor
    · rintro ⟨o, ho, rfl⟩; exact ⟨o, ho, rfl⟩
    · rintro ⟨o, ho, rfl⟩; exact ⟨o, ho, rfl⟩
  refine ⟨hmem, ?_⟩
  constructor
  · intro heq o ho
    obtain ⟨o2, _, e⟩ := (hmem o).mp ((heq o).mp ho)
    rw [e]
    exact le_max_left _ _
  · intro hge x
    rw [hmem]
    constructor
    · intro hx
      exact ⟨x, hx, (max_eq_right (hge x hx)).symm⟩
    · rintro ⟨o, ho, rfl⟩
      rw [max_eq_right (hge o ho)]
      exact ho

/-! ## C4: markers are positive and non-decreasing -/

/-- C4: for a header with `ppq_length > 0` whose `total_frames` is defined and slices
whose PPQ positions are non-negative and non-decreasing (all fields 32-bit), the
marker list, whenever every cast producing it is defined, has one entry per slice,
each `≥ 1`, in non-decreasing order; it is defined whenever no position exceeds
`ppq_length`. -/
theorem markers_positive_sorted (info : Info) (total : Int) (infos : List SliceInfo)
    (hl : Int32 info.fPPQLength) (hlen : 0 < info.fPPQLength)
    (ht : totalFrames info = some total)
    (hpos : ∀ s ∈ infos, Int32 s.fPPQPos ∧ 0 ≤ s.fPPQPos)
    (hsorted : (infos.map (fun s => s.fPPQPos)).Chain' (· ≤ ·)) :
    (∀ ms, sliceMarkers info total infos = some ms →
      ms.length = infos.length ∧ (∀ m ∈ ms, 1 ≤ m) ∧ ms.Chain' (· ≤ ·)) ∧
    ((∀ s ∈ infos, s.fPPQPos ≤ info.fPPQLength) →
      ∃ ms, sliceMarkers info total infos = some ms) := by
  have ht32 := totalFrames_int32 info total ht
  have hpw : infos.Pairwise (fun a b => a.fPPQPos ≤ b.fPPQPos) := by
    have := List.chain'_iff_pairwise.mp hsorted
    exact List.pairwise_map.mp this
  constructor
  · intro ms hms
    obtain ⟨a, b, _⟩ := sliceMarkers_sorted info total hl ht32 hlen infos ms hpos hpw hms
    exact ⟨sliceMarkers_length info total infos ms hms, a, List.Pairwise.chain' b⟩
  · intro hle
    exact sliceMarkers_defined info total hl ht32 hlen infos
      (fun s hs => ⟨(hpos s hs).1, (hpos s hs).2, hle s hs⟩)

/-- Scenario S1. -/
theorem markers_positive_sorted_witness :
    (∀ ms, sliceMarkers s1Info 88200 s1Slices = some ms →
      ms.length = s1Slices.length ∧ (∀ m ∈ ms, 1 ≤ m) ∧ ms.Chain' (· ≤ ·)) ∧
    ((∀ s ∈ s1Slices, s.fPPQPos ≤ s1Info.fPPQLength) →
      ∃ ms, sliceMarkers s1Info 88200 s1Slices = some ms) :=
  markers_positive_sorted s1Info 88200 s1Slices (by decide) (by decide)
    (by set_option maxRecDepth 100000 in decide) (by decide) (by simp [s1Slices])

/-! ## C5: at least one frame -/

/-- C5, as stated, fails at 8000 Hz, 120 BPM and a loop of one PPQ pulse holding one
slice at position 0: the loop is a quarter of a frame long and `total_frames` is 0. -/
theorem totalFrames_zero_with_slice :
    totalFrames ⟨1, 8000, 1, 120000, 1⟩ = some 0 ∧
      enumerate (fun _ => some ⟨0, 100⟩) (1 : Int) = [⟨0, 100⟩] ∧
      (0 : Int) < 8000 ∧ (0 : Int) < 120000 ∧
      (∀ s ∈ enumerate (fun _ => some ⟨0, 100⟩) (1 : Int), 0 ≤ s.fPPQPos ∧ s.fPPQPos < 1) := by
  refine ⟨by set_option maxRecDepth 100000 in decide, by decide, by decide, by decide,
    by decide⟩

/-- C5 (amended): for a header with 32-bit fields, `tempo > 0`, `sample_rate ≥ 0`,
`ppq_length ≥ 0` and exact loop length `x ≤ 2^31 - 1` frames, `total_frames` is defined
and non-negative; it is at least 1 when `x ≥ 1/2 + 2^-19` and it is 0 when
`x < 1/2 - 2^-19`. -/
theorem totalFrames_ge_one_iff_long (info : Info) (hs : Int32 info.fSampleRate)
    (ht : Int32 info.fTempo) (hp : Int32 info.fPPQLength) (hs0 : 0 ≤ info.fSampleRate)
    (ht0 : 0 < info.fTempo) (hp0 : 0 ≤ info.fPPQLength)
    (hfit : exactLoopFrames info ≤ 2147483647) :
    ∃ t : ℤ, totalFrames info = some t ∧ 0 ≤ t ∧
      (1 / 2 + 1 / 524288 ≤ exactLoopFrames info → 1 ≤ t) ∧
      (exactLoopFrames info < 1 / 2 - 1 / 524288 → t = 0) := by
  obtain ⟨t, y, e, v, t0, hy⟩ := totalFrames_near info hs ht hp hs0 ht0 hp0 hfit
  rw [abs_le] at hy
  refine ⟨t, e, t0, ?_, ?_⟩
  · intro hx
    rw [v]
    unfold rhaQ
    rw [Int.le_floor]
    push_cast
    linarith [hy.1]
  · intro hx
    have : t < 1 := by
      rw [v]
      unfold rhaQ
      rw [Int.floor_lt]
      push_cast
      linarith [hy.2]
    omega

/-- The header of scenario S1. -/
theorem totalFrames_ge_one_iff_long_witness :
    ∃ t : ℤ, totalFrames ⟨2, 44100, 4, 120000, 61440⟩ = some t ∧ 0 ≤ t ∧
      (1 / 2 + 1 / 524288 ≤ exactLoopFrames ⟨2, 44100, 4, 120000, 61440⟩ → 1 ≤ t) ∧
      (exactLoopFrames ⟨2, 44100, 4, 120000, 61440⟩ < 1 / 2 - 1 / 524288 → t = 0) :=
  totalFrames_ge_one_iff_long ⟨2, 44100, 4, 120000, 61440⟩ (by decide) (by decide)
    (by decide) (by decide) (by decide) (by decide) (by unfold exactLoopFrames; norm_num)

theorem mul_inf_left (s : Bool) (x : F64) : (F64.mul (F64.inf s) x).isFinite = false := by
  cases x with
  | fin t k f =>
    show (if k = 0 then F64.nan else F64.inf (xor s t)).isFinite = false
    split_ifs <;> rfl
  | inf t => rfl
  | nan => rfl

theorem mul_not_finite_right (y z : F64) (h : z.isFinite = false) :
    (F64.mul y z).isFinite = false := by
  cases z with
  | fin t k f => simp [F64.isFinite] at h
  | inf t =>
    cases y with
    | fin s m e =>
      show (if m = 0 then F64.nan else F64.inf (xor s t)).isFinite = false
      split_ifs <;> rfl
    | inf s => rfl
    | nan => rfl
  | nan =>
    cases y <;> rfl

theorem toInt32_round_not_finite (x : F64) (h : x.isFinite = false) :
    F64.toInt32 (F64.round x) = none := by
  cases x with
  | fin t k f => simp [F64.isFinite] at h
  | inf t => rfl
  | nan => rfl

/-- With a zero tempo the timeline has no defined `totalFrames`: the real tempo is
`0.0`, `60.0 / realTempo` is `+∞`, and the product handed to the cast is infinite or
NaN. -/
theorem zero_tempo_timeline (info : Info) (h0 : info.fTempo = 0) :
    realTempo info = F64.fin false 0 0 ∧
      F64.div (F64.ofInt 60) (realTempo info) = F64.inf false ∧
      (totalFramesF info).isFinite = false ∧
      totalFrames info = none := by
  have hrt : realTempo info = F64.fin false 0 0 := by
    unfold realTempo
    rw [h0]
    decide
  have hdiv : F64.div (F64.ofInt 60) (realTempo info) = F64.inf false := by
    rw [hrt]
    decide
  have hd : (duration info).isFinite = false := by
    unfold duration
    rw [hdiv]
    exact mul_inf_left false _
  have hy := mul_not_finite_right (F64.ofInt info.fSampleRate) (duration info) hd
  refine ⟨hrt, hdiv, ?_, toInt32_round_not_finite _ hy⟩
  unfold totalFramesF
  revert hy
  cases F64.mul (F64.ofInt info.fSampleRate) (duration info) with
  | fin t k f => intro h; simp [F64.isFinite] at h
  | inf t => intro _; rfl
  | nan => intro _; rfl

/-! ## C6: zero tempo -/

/-- C6, as stated, fails for the S1 header with its tempo set to 0: every fatal check
passes, no `return` is reached, `duration` is `+∞` and the conversion that should
produce `totalFrames` has no defined value. -/
theorem zero_tempo_is_not_rejected :
    runToTimeline 5 true true true true ⟨2, 44100, 4, 0, 61440⟩ = Progress.undefined ∧
      (∀ status, runToTimeline 5 true true true true ⟨2, 44100, 4, 0, 61440⟩ ≠
        Progress.exit status) ∧
      realTempo ⟨2, 44100, 4, 0, 61440⟩ = F64.fin false 0 0 ∧
      duration ⟨2, 44100, 4, 0, 61440⟩ = F64.inf false := by
  have h : runToTimeline 5 true true true true ⟨2, 44100, 4, 0, 61440⟩ = Progress.undefined := by
    set_option maxRecDepth 100000 in decide
  refine ⟨h, ?_, by decide, by set_option maxRecDepth 100000 in decide⟩
  intro status
  rw [h]
  exact fun hh => Progress.noConfusion hh

/-- C6 (amended): the code has no check of the tempo field.  For a header with
`tempo = 0` the run returns status 1 exactly when one of the five earlier checks
(argument count, input file, SDK initialisation, container open, header fetch) fails;
otherwise `realTempo` is `0.0`, `60.0 / realTempo` is `+∞`, the double handed to the
cast is not finite and `total_frames` has no defined value. -/
theorem zero_tempo_unchecked (argc : Int) (fileOpened initOk createOk infoOk : Bool)
    (info : Info) (h0 : info.fTempo = 0) :
    runToTimeline argc fileOpened initOk createOk infoOk info =
        (if argc ≠ 5 ∨ fileOpened = false ∨ initOk = false ∨ createOk = false ∨
            infoOk = false
         then Progress.exit 1 else Progress.undefined) ∧
      realTempo info = F64.fin false 0 0 ∧
      F64.div (F64.ofInt 60) (realTempo info) = F64.inf false ∧
      (totalFramesF info).isFinite = false ∧
      totalFrames info = none := by
  obtain ⟨a, b, c, d⟩ := zero_tempo_timeline info h0
  refine ⟨?_, a, b, c, d⟩
  unfold runToTimeline
  rw [d]
  by_cases h1 : argc = 5 <;> cases fileOpened <;> cases initOk <;> cases createOk <;>
    cases infoOk <;> simp [h1]

/-- The S1 header with its tempo set to 0, all earlier checks passing. -/
theorem zero_tempo_unchecked_witness :
    runToTimeline 5 true true true true ⟨2, 44100, 4, 0, 61440⟩ =
        (if (5 : Int) ≠ 5 ∨ true = false ∨ true = false ∨ true = false ∨ true = false
         then Progress.exit 1 else Progress.undefined) ∧
      realTempo ⟨2, 44100, 4, 0, 61440⟩ = F64.fin false 0 0 ∧
      F64.div (F64.ofInt 60) (realTempo ⟨2, 44100, 4, 0, 61440⟩) = F64.inf false ∧
      (totalFramesF ⟨2, 44100, 4, 0, 61440⟩).isFinite = false ∧
      totalFrames ⟨2, 44100, 4, 0, 61440⟩ = none :=
  zero_tempo_unchecked 5 true true true true ⟨2, 44100, 4, 0, 61440⟩ rfl

/-! ## Placement of one slice -/

/-- What the inner placement loop leaves behind, for iterations `j, ..., j+n-1`. -/
theorem placeFrames_run (info : Info) (start total : Int) (sc : Scratch)
    (hs : 0 ≤ start) (n : Nat) :
    ∀ (j : Nat) (full : Full), start + j + n ≤ 2147483648 →
      full.left.length = total.toNat →
      (info.fChannels = 2 → full.right.length = total.toNat) →
      ∃ out, placeFrames info start total sc n j full = some out ∧
        out.left.length = full.left.length ∧ out.right.length = full.right.length ∧
        (∀ k : Nat, out.left[k]? =
          if start + j ≤ k ∧ (k : Int) < start + j + n ∧ (k : Int) < total
          then some (sc.left (k - start.toNat)) else full.left[k]?) ∧
        (∀ k : Nat, out.right[k]? =
          if info.fChannels = 2 ∧ start + j ≤ k ∧ (k : Int) < start + j + n ∧ (k : Int) < total
          then some (sc.right (k - start.toNat)) else full.right[k]?) := by
  induction n with
  | zero =>
    intro j full _ _ _
    refine ⟨full, rfl, rfl, rfl, ?_, ?_⟩
    · intro k
      have : ¬ (start + j ≤ k ∧ (k : Int) < start + j + (0 : Nat) ∧ (k : Int) < total) := by
        omega
      rw [if_neg this]
    · intro k
      have : ¬ (info.fChannels = 2 ∧ start + j ≤ k ∧ (k : Int) < start + j + (0 : Nat) ∧
          (k : Int) < total) := by omega
      rw [if_neg this]
  | succ n ih =>
    intro j full hfit hl hr
    have hov : ¬ (2147483647 < start + j) := by omega
    by_cases hlt : start + j < total
    · have hnn : ¬ (start + j < 0) := by omega
      have hidx : (start + j).toNat < full.left.length := by omega
      obtain ⟨out, hout, hlen1, hlen2, hL, hR⟩ := ih (j + 1)
        ⟨full.left.set (start + j).toNat (sc.left j),
         if info.fChannels = 2 then full.right.set (start + j).toNat (sc.right j)
         else full.right⟩ (by push_cast; omega) (by simpa using hl)
        (by intro h2; simpa [h2] using hr h2)
      refine ⟨out, ?_, ?_, ?_, ?_, ?_⟩
      · simp only [placeFrames, hov, hlt, hnn, if_true, if_false]
        exact hout
      · simpa using hlen1
      · rw [hlen2]; split <;> simp
      · intro k
        rw [hL k, List.getElem?_set]
        by_cases hk : (start + j).toNat = k
        · have hj : k - start.toNat = j := by omega
          have c1 : ¬ (start + ((j + 1 : Nat) : Int) ≤ k ∧
              (k : Int) < start + ((j + 1 : Nat) : Int) + n ∧ (k : Int) < total) := by omega
          have c2 : start + j ≤ k ∧ (k : Int) < start + j + ((n + 1 : Nat) : Int) ∧
              (k : Int) < total := by omega
          simp only [c1, c2, hk, if_true, if_false, hj, and_self]
          rw [← hk]; simp [hidx]
        · by_cases c1 : start + ((j + 1 : Nat) : Int) ≤ k ∧
              (k : Int) < start + ((j + 1 : Nat) : Int) + n ∧ (k : Int) < total
          · have c2 : start + j ≤ k ∧ (k : Int) < start + j + ((n + 1 : Nat) : Int) ∧
                (k : Int) < total := by omega
            simp only [c1, c2, and_self, if_true]
          · have c2 : ¬ (start + j ≤ k ∧ (k : Int) < start + j + ((n + 1 : Nat) : Int) ∧
                (k : Int) < total) := by omega
            simp only [c1, c2, hk, if_false]
      · intro k
        rw [hR k]
        by_cases h2 : info.fChannels = 2
        · have hidx2 : (start + j).toNat < full.right.length := by have := hr h2; omega
          simp only [h2, true_and, if_true, List.getElem?_set]
          by_cases hk : (start + j).toNat = k
          · have hj : k - start.toNat = j := by omega
            have c1 : ¬ (start + ((j + 1 : Nat) : Int) ≤ k ∧
                (k : Int) < start + ((j + 1 : Nat) : Int) + n ∧ (k : Int) < total) := by omega
            have c2 : start + j ≤ k ∧ (k : Int) < start + j + ((n + 1 : Nat) : Int) ∧
                (k : Int) < total := by omega
            simp only [c1, c2, hk, if_true, if_false, hj, and_self]
            rw [← hk]; simp [hidx2]
          · by_cases c1 : start + ((j + 1 : Nat) : Int) ≤ k ∧
                (k : Int) < start + ((j + 1 : Nat) : Int) + n ∧ (k : Int) < total
            · have c2 : start + j ≤ k ∧ (k : Int) < start + j + ((n + 1 : Nat) : Int) ∧
                  (k : Int) < total := by omega
              simp only [c1, c2, and_self, if_true]
            · have c2 : ¬ (start + j ≤ k ∧ (k : Int) < start + j + ((n + 1 : Nat) : Int) ∧
                  (k : Int) < total) := by omega
              simp only [c1, c2, hk, if_false]
        · simp [h2]
    · obtain ⟨out, hout, hlen1, hlen2, hL, hR⟩ := ih (j + 1) full (by push_cast; omega) hl hr
      refine ⟨out, ?_, hlen1, hlen2, ?_, ?_⟩
      · simp only [placeFrames, hov, hlt, if_false]
        exact hout
      · intro k
        rw [hL k]
        have c1 : ¬ (start + ((j + 1 : Nat) : Int) ≤ k ∧
            (k : Int) < start + ((j + 1 : Nat) : Int) + n ∧ (k : Int) < total) := by omega
        have c2 : ¬ (start + j ≤ k ∧ (k : Int) < start + j + ((n + 1 : Nat) : Int) ∧
            (k : Int) < total) := by omega
        simp only [c1, c2, if_false]
      · intro k
        rw [hR k]
        have c1 : ¬ (info.fChannels = 2 ∧ start + ((j + 1 : Nat) : Int) ≤ k ∧
            (k : Int) < start + ((j + 1 : Nat) : Int) + n ∧ (k : Int) < total) := by omega
        have c2 : ¬ (info.fChannels = 2 ∧ start + j ≤ k ∧
            (k : Int) < start + j + ((n + 1 : Nat) : Int) ∧ (k : Int) < total) := by omega
        simp only [c1, c2, if_false]

/-- When the inner loop completes, no sum `start + j` left the range of `int` and no
write went below index 0. -/
theorem placeFrames_bounds (info : Info) (start total : Int) (sc : Scratch) (n : Nat) :
    ∀ (j : Nat) (full out : Full), placeFrames info start total sc n j full = some out →
      n = 0 ∨ (start + j + n ≤ 2147483648 ∧ (start + j < total → 0 ≤ start + j)) := by
  induction n with
  | zero => intro j full out _; exact Or.inl rfl
  | succ n ih =>
    intro j full out h
    right
    unfold placeFrames at h
    by_cases hov : 2147483647 < start + j
    · rw [if_pos hov] at h; cases h
    · rw [if_neg hov] at h
      by_cases hlt : start + j < total
      · rw [if_pos hlt] at h
        by_cases hneg : start + j < 0
        · rw [if_pos hneg] at h; cases h
        · rw [if_neg hneg] at h
          rcases ih (j + 1) _ out h with h0 | ⟨h1, _⟩
          · subst h0
            refine ⟨by push_cast; omega, fun _ => by omega⟩
          · refine ⟨by push_cast at h1 ⊢; omega, fun _ => by omega⟩
      · rw [if_neg hlt] at h
        rcases ih (j + 1) _ out h with h0 | ⟨h1, _⟩
        · subst h0
          refine ⟨by push_cast; omega, fun hh => absurd hh hlt⟩
        · refine ⟨by push_cast at h1 ⊢; omega, fun hh => absurd hh hlt⟩

/-- The buffers after a completed inner loop. -/
theorem placeFrames_inv (info : Info) (start total : Int) (sc : Scratch) (n : Nat)
    (full out : Full) (h : placeFrames info start total sc n 0 full = some out)
    (hs : n = 0 ∨ 0 ≤ start) (hl : full.left.length = total.toNat)
    (hr : info.fChannels = 2 → full.right.length = total.toNat) :
    out.left.length = full.left.length ∧ out.right.length = full.right.length ∧
      (∀ k : Nat, out.left[k]? =
        if start ≤ k ∧ (k : Int) < start + n ∧ (k : Int) < total
        then some (sc.left (k - start.toNat)) else full.left[k]?) ∧
      (∀ k : Nat, out.right[k]? =
        if info.fChannels = 2 ∧ start ≤ k ∧ (k : Int) < start + n ∧ (k : Int) < total
        then some (sc.right (k - start.toNat)) else full.right[k]?) := by
  rcases Nat.eq_zero_or_pos n with h0 | hpos
  · subst h0
    simp only [placeFrames, Option.some.injEq] at h
    subst h
    refine ⟨rfl, rfl, ?_, ?_⟩
    · intro k
      rw [if_neg (by omega)]
    · intro k
      rw [if_neg (by omega)]
  · have hs0 : 0 ≤ start := by
      rcases hs with h0 | h0
      · omega
      · exact h0
    rcases placeFrames_bounds info start total sc n 0 full out h with h0 | ⟨hb, _⟩
    · omega
    · obtain ⟨out2, e, a, b, c, d⟩ := placeFrames_run info start total sc hs0 n 0 full hb hl hr
      rw [h] at e
      cases e
      refine ⟨a, b, ?_, ?_⟩
      · intro k
        rw [c k]
        simp only [Nat.cast_zero, add_zero]
      · intro k
        rw [d k]
        simp only [Nat.cast_zero, add_zero]

theorem placeable_of_check (info : Info) (total : Int) (infos : List SliceInfo)
    (h : infos.all (slicePlaceable info total) = true) : Placeable info total infos := by
  intro s hs
  have hc := List.all_eq_true.mp h s hs
  unfold slicePlaceable at hc
  cases hst : startSample info total s with
  | none => simp [hst] at hc
  | some st =>
    simp only [hst, Bool.and_eq_true, decide_eq_true_eq] at hc
    exact ⟨hc.1, st, rfl, hc.2.1, hc.2.2⟩

/-- The buffers after a completed placement loop over the slices `infos` numbered
from `i`: an index outside every rendered window is untouched, an index inside one
holds the sample of the last slice covering it. -/
theorem placeFrom_inv (info : Info) (total : Int) (render : Renderer) (ht : 0 ≤ total) :
    ∀ (infos : List SliceInfo) (i : Nat) (full out : Full),
      placeFrom info total render i infos full = some out →
      full.left.length = total.toNat →
      (info.fChannels = 2 → full.right.length = total.toNat) →
      out.left.length = total.toNat ∧
        (info.fChannels = 2 → out.right.length = total.toNat) ∧
        (info.fChannels ≠ 2 → out.right = full.right) ∧
        ∀ k : Nat, (k : Int) < total →
          ((∀ p s sc st, infos[p]? = some s → render (i + p) s.fSampleLength = some sc →
              startSample info total s = some st → ¬ inWindow st s k) →
            out.left[k]? = full.left[k]? ∧ out.right[k]? = full.right[k]?) ∧
          (∀ p s sc st, infos[p]? = some s → render (i + p) s.fSampleLength = some sc →
              startSample info total s = some st → inWindow st s k →
              (∀ q s2 sc2 st2, p < q → infos[q]? = some s2 →
                render (i + q) s2.fSampleLength = some sc2 →
                startSample info total s2 = some st2 → ¬ inWindow st2 s2 k) →
              out.left[k]? = some (sc.left (k - st.toNat)) ∧
              (info.fChannels = 2 → out.right[k]? = some (sc.right (k - st.toNat)))) := by
  intro infos
  induction infos with
  | nil =>
    intro i full out h hl hr
    simp only [placeFrom, Option.some.injEq] at h
    subst h
    refine ⟨hl, hr, fun _ => rfl, ?_⟩
    intro k _
    refine ⟨fun _ => ⟨rfl, rfl⟩, ?_⟩
    intro p s sc st hp
    simp at hp
  | cons s rest ih =>
    intro i full out h hl hr
    unfold placeFrom at h
    by_cases hneg : s.fSampleLength < 0
    · rw [if_pos hneg] at h; cases h
    rw [if_neg hneg] at h
    have hlen0 : 0 ≤ s.fSampleLength := by omega
    cases hren : render i s.fSampleLength with
    | none =>
      simp only [hren] at h
      obtain ⟨hol, hor, hmono, hk⟩ := ih (i + 1) full out h hl hr
      refine ⟨hol, hor, hmono, ?_⟩
      intro k hkt
      obtain ⟨hA, hB⟩ := hk k hkt
      refine ⟨?_, ?_⟩
      · intro hun
        apply hA
        intro p t sc2 st2 hp hr2 hs2
        exact hun (p + 1) t sc2 st2 (by simpa using hp)
          (by rw [show i + (p + 1) = i + 1 + p by omega]; exact hr2) hs2
      · intro p t sc2 st2 hp hr2 hs2 hin hlater
        cases p with
        | zero =>
          simp only [List.getElem?_cons_zero, Option.some.injEq] at hp
          subst hp
          simp only [Nat.add_zero] at hr2
          rw [hren] at hr2
          cases hr2
        | succ p =>
          apply hB p t sc2 st2 (by simpa using hp)
            (by rw [show i + 1 + p = i + (p + 1) by omega]; exact hr2) hs2 hin
          intro q s3 sc3 st3 hpq hq hr3 hs3
          exact hlater (q + 1) s3 sc3 st3 (by omega) (by simpa using hq)
            (by rw [show i + (q + 1) = i + 1 + q by omega]; exact hr3) hs3
    | some sc =>
      cases hst : startSample info total s with
      | none => simp [hren, hst] at h
      | some st =>
        cases hmid : placeFrames info st total sc s.fSampleLength.toNat 0 full with
        | none => simp [hren, hst, hmid] at h
        | some mid =>
          simp only [hren, hst, hmid] at h
          have hst0 : s.fSampleLength.toNat = 0 ∨ 0 ≤ st := by
            rcases placeFrames_bounds info st total sc _ 0 full mid hmid with h0 | ⟨_, hb⟩
            · exact Or.inl h0
            · right
              by_cases hc : st + ((0 : Nat) : Int) < total
              · have := hb hc; omega
              · omega
          obtain ⟨hml, hmr, hmL, hmR⟩ :=
            placeFrames_inv info st total sc _ full mid hmid hst0 hl hr
          have hml2 : mid.left.length = total.toNat := by rw [hml, hl]
          have hmr2 : info.fChannels = 2 → mid.right.length = total.toNat := by
            intro h2; rw [hmr, hr h2]
          obtain ⟨hol, hor, hmono, hk⟩ := ih (i + 1) mid out h hml2 hmr2
          have hmidR : info.fChannels ≠ 2 → mid.right = full.right := by
            intro h2
            apply List.ext_getElem?
            intro k
            rw [hmR k]
            simp [h2]
          refine ⟨hol, hor, ?_, ?_⟩
          · intro h2; rw [hmono h2, hmidR h2]
          · intro k hkt
            obtain ⟨hA, hB⟩ := hk k hkt
            have hwin : (st ≤ k ∧ (k : Int) < st + (s.fSampleLength.toNat : Int) ∧
                (k : Int) < total) ↔ inWindow st s k := by
              unfold inWindow
              constructor
              · rintro ⟨a, b, _⟩; constructor <;> omega
              · rintro ⟨a, b⟩; refine ⟨by omega, by omega, hkt⟩
            refine ⟨?_, ?_⟩
            · intro hun
              have h0 : ¬ inWindow st s k := hun 0 s sc st (by simp) (by simpa using hren) hst
              have hrestun : ∀ p t sc2 st2, rest[p]? = some t →
                  render (i + 1 + p) t.fSampleLength = some sc2 →
                  startSample info total t = some st2 → ¬ inWindow st2 t k := by
                intro p t sc2 st2 hp hr2 hs2
                exact hun (p + 1) t sc2 st2 (by simpa using hp)
                  (by rw [show i + (p + 1) = i + 1 + p by omega]; exact hr2) hs2
              obtain ⟨e1, e2⟩ := hA hrestun
              rw [e1, e2, hmL k, hmR k]
              rw [if_neg (fun hh => h0 (hwin.mp hh)), if_neg (fun hh => h0 (hwin.mp hh.2))]
              exact ⟨rfl, rfl⟩
            · intro p t sc2 st2 hp hr2 hs2 hin hlater
              cases p with
              | zero =>
                simp only [List.getElem?_cons_zero, Option.some.injEq] at hp
                subst hp
                simp only [Nat.add_zero] at hr2
                rw [hren] at hr2
                rw [hst] at hs2
                cases hr2
                cases hs2
                have hrestun : ∀ p t sc2 st2, rest[p]? = some t →
                    render (i + 1 + p) t.fSampleLength = some sc2 →
                    startSample info total t = some st2 → ¬ inWindow st2 t k := by
                  intro p t sc2 st2 hp hr2 hs2
                  exact hlater (p + 1) t sc2 st2 (by omega) (by simpa using hp)
                    (by rw [show i + (p + 1) = i + 1 + p by omega]; exact hr2) hs2
                obtain ⟨e1, e2⟩ := hA hrestun
                rw [e1, e2, hmL k, hmR k]
                have c1 := hwin.mpr hin
                refine ⟨by rw [if_pos c1], ?_⟩
                intro h2
                rw [if_pos ⟨h2, c1⟩]
              | succ p =>
                apply hB p t sc2 st2 (by simpa using hp)
                  (by rw [show i + 1 + p = i + (p + 1) by omega]; exact hr2) hs2 hin
                intro q s3 sc3 st3 hpq hq hr3 hs3
                exact hlater (q + 1) s3 sc3 st3 (by omega) (by simpa using hq)
                  (by rw [show i + (q + 1) = i + 1 + q by omega]; exact hr3) hs3

/-- The placement loop completes when every slice is placeable. -/
theorem placeFrom_defined (info : Info) (total : Int) (render : Renderer) :
    ∀ (infos : List SliceInfo) (i : Nat) (full : Full),
      full.left.length = total.toNat →
      (info.fChannels = 2 → full.right.length = total.toNat) →
      Placeable info total infos →
      ∃ out, placeFrom info total render i infos full = some out := by
  intro infos
  induction infos with
  | nil => intro i full _ _ _; exact ⟨full, rfl⟩
  | cons s rest ih =>
    intro i full hl hr hdef
    have hrest : Placeable info total rest := fun t ht => hdef t (List.mem_cons_of_mem _ ht)
    obtain ⟨hlen0, st, hst, hst0, hfit⟩ := hdef s (List.mem_cons_self _ _)
    have hneg : ¬ (s.fSampleLength < 0) := by omega
    unfold placeFrom
    rw [if_neg hneg]
    cases hren : render i s.fSampleLength with
    | none => exact ih (i + 1) full hl hr hrest
    | some sc =>
      obtain ⟨mid, hmid, hml, hmr, _, _⟩ :=
        placeFrames_run info st total sc hst0 s.fSampleLength.toNat 0 full
          (by push_cast; omega) hl hr
      simp only [hst, hmid]
      exact ih (i + 1) mid (by rw [hml, hl]) (by intro h2; rw [hmr, hr h2]) hrest

theorem initFull_some (info : Info) (total : Int) (full : Full)
    (h : initFull info total = some full) :
    0 ≤ total ∧ full.left = List.replicate total.toNat 0 ∧
      full.right = (if info.fChannels = 2 then List.replicate total.toNat 0 else []) := by
  unfold initFull at h
  by_cases ht : total < 0
  · rw [if_pos ht] at h; cases h
  · rw [if_neg ht] at h
    cases h
    exact ⟨by omega, rfl, rfl⟩

/-! ## C7: placing one slice -/

/-- C7: placing one rendered slice with start offset `start ≥ 0` and `L` frames into
full-loop buffers of length `total`: whenever the loop completes, both buffers keep
their length, index `start + j` holds `scratch[j]` for every `j < L` with
`start + j < total` in every channel, every other index holds the value it had before
(frames with `start + j ≥ total` are dropped); and the loop completes exactly when no
sum `start + j` leaves the range of `int`, that is `L = 0` or `start + L ≤ 2^31`. -/
theorem placeFrames_places_slice (info : Info) (start total : Int) (sc : Scratch) (L : Nat)
    (full : Full) (hs : 0 ≤ start) (hl : full.left.length = total.toNat)
    (hr : info.fChannels = 2 → full.right.length = total.toNat) :
    (∀ out, placeFrames info start total sc L 0 full = some out →
      out.left.length = total.toNat ∧ out.right.length = full.right.length ∧
      (∀ j : Nat, j < L → start + j < total →
        out.left[(start + j).toNat]? = some (sc.left j) ∧
        (info.fChannels = 2 → out.right[(start + j).toNat]? = some (sc.right j))) ∧
      (∀ k : Nat, (∀ j : Nat, j < L → start + j < total → (start + j).toNat ≠ k) →
        out.left[k]? = full.left[k]? ∧ out.right[k]? = full.right[k]?) ∧
      (info.fChannels ≠ 2 → out.right = full.right)) ∧
    ((∃ out, placeFrames info start total sc L 0 full = some out) ↔
      (L = 0 ∨ start + L ≤ 2147483648)) := by
  constructor
  · intro out hout
    obtain ⟨hlen1, hlen2, hL, hR⟩ :=
      placeFrames_inv info start total sc L full out hout (Or.inr hs) hl hr
    refine ⟨by rw [hlen1, hl], hlen2, ?_, ?_, ?_⟩
    · intro j hj hjt
      have c : start ≤ ((start + j).toNat : Nat) ∧
          (((start + j).toNat : Nat) : Int) < start + (L : Int) ∧
          (((start + j).toNat : Nat) : Int) < total := by omega
      have e : (start + j).toNat - start.toNat = j := by omega
      refine ⟨?_, ?_⟩
      · rw [hL, if_pos c, e]
      · intro h2
        rw [hR, if_pos ⟨h2, c⟩, e]
    · intro k hk
      have c : ¬ (start ≤ k ∧ (k : Int) < start + (L : Int) ∧ (k : Int) < total) := by
        rintro ⟨a, b, c⟩
        exact hk (k - start.toNat) (by omega) (by omega) (by omega)
      refine ⟨?_, ?_⟩
      · rw [hL, if_neg c]
      · rw [hR, if_neg (fun h => c h.2)]
    · intro h2
      apply List.ext_getElem?
      intro k
      rw [hR k]
      simp [h2]
  · constructor
    · rintro ⟨out, hout⟩
      rcases placeFrames_bounds info start total sc L 0 full out hout with h0 | ⟨hb, _⟩
      · exact Or.inl h0
      · right
        simpa using hb
    · rintro (h0 | hfit)
      · subst h0
        exact ⟨full, rfl⟩
      · obtain ⟨out, hout, _⟩ :=
          placeFrames_run info start total sc hs L 0 full (by push_cast; omega) hl hr
        exact ⟨out, hout⟩

/-- A stereo slice of three frames placed at offset 1 of a three-frame loop: the loop
completes, frames 1 and 2 receive the first two samples and the third is dropped. -/
theorem placeFrames_places_slice_witness :
    placeFrames ⟨2, 44100, 1, 120000, 15360⟩ 1 3 ⟨fun j => 10 + j, fun j => 20 + j⟩ 3 0
        ⟨[7, 7, 7], [8, 8, 8]⟩ = some ⟨[7, 10, 11], [8, 20, 21]⟩ ∧
      ((∃ out, placeFrames ⟨2, 44100, 1, 120000, 15360⟩ 1 3
          ⟨fun j => 10 + j, fun j => 20 + j⟩ 3 0 ⟨[7, 7, 7], [8, 8, 8]⟩ = some out) ↔
        ((3 : Nat) = 0 ∨ (1 : Int) + (3 : Nat) ≤ 2147483648)) :=
  ⟨by decide,
    (placeFrames_places_slice ⟨2, 44100, 1, 120000, 15360⟩ 1 3
      ⟨fun j => 10 + j, fun j => 20 + j⟩ 3 ⟨[7, 7, 7], [8, 8, 8]⟩
      (by decide) rfl (fun _ => rfl)).2⟩

/-! ## C8: silence outside every window -/

/-- C8: for every header, slice list and set of render outcomes, whenever the placement
completes the buffers have `total` frames and every frame index `k < total` that lies
in no slice window holds `0.0` in every channel; with no slices the buffer is `total`
zeros; and the placement completes whenever `total ≥ 0` and every slice is placeable
(non-negative length, defined non-negative start offset, window within `int`). -/
theorem fullLoop_zero_outside_windows (info : Info) (total : Int) (render : Renderer)
    (infos : List SliceInfo) :
    (∀ out, fullLoop info total render infos = some out →
      out.left.length = total.toNat ∧
      (info.fChannels = 2 → out.right.length = total.toNat) ∧
      (∀ k : Nat, (k : Int) < total →
        (∀ s ∈ infos, ∀ st, startSample info total s = some st → ¬ inWindow st s k) →
        out.left[k]? = some 0 ∧ (info.fChannels = 2 → out.right[k]? = some 0)) ∧
      (infos = [] → out.left = List.replicate total.toNat 0 ∧
        (info.fChannels = 2 → out.right = List.replicate total.toNat 0))) ∧
    (0 ≤ total → Placeable info total infos →
      ∃ out, fullLoop info total render infos = some out) := by
  constructor
  · intro out hout
    unfold fullLoop at hout
    cases hinit : initFull info total with
    | none => simp [hinit] at hout
    | some full =>
      simp only [hinit] at hout
      obtain ⟨ht, hfl, hfr⟩ := initFull_some info total full hinit
      obtain ⟨hol, hor, _, hk⟩ := placeFrom_inv info total render ht infos 0 full out hout
        (by rw [hfl]; simp) (by intro h2; rw [hfr]; simp [h2])
      refine ⟨hol, hor, ?_, ?_⟩
      · intro k hkt hun
        obtain ⟨hA, _⟩ := hk k hkt
        obtain ⟨e1, e2⟩ := hA (fun p s sc st hp _ hst =>
          hun s (List.getElem?_mem hp) st hst)
        have hkn : k < total.toNat := by omega
        refine ⟨?_, ?_⟩
        · rw [e1, hfl]
          simp [List.getElem?_replicate, hkn]
        · intro h2
          rw [e2, hfr]
          simp [h2, List.getElem?_replicate, hkn]
      · intro hnil
        subst hnil
        simp only [placeFrom, Option.some.injEq] at hout
        rw [← hout, hfl, hfr]
        exact ⟨rfl, fun h2 => by rw [if_pos h2]⟩
  · intro ht hdef
    have hinit : initFull info total = some ⟨List.replicate total.toNat 0,
        if info.fChannels = 2 then List.replicate total.toNat 0 else []⟩ := by
      unfold initFull
      rw [if_neg (by omega)]
    obtain ⟨out, hout⟩ := placeFrom_defined info total render infos 0
      ⟨List.replicate total.toNat 0,
        if info.fChannels = 2 then List.replicate total.toNat 0 else []⟩
      (by simp) (by intro h2; simp [h2]) hdef
    refine ⟨out, ?_⟩
    unfold fullLoop
    rw [hinit]
    exact hout

/-- Two slices of two and one frames at PPQ 0 and 30720 of a 61440-PPQ loop rendered
into six frames, the second render failing: the placement completes and frame 4,
which lies in no window, is silent. -/
theorem fullLoop_zero_outside_windows_witness :
    ∃ out, fullLoop ⟨2, 44100, 2, 120000, 61440⟩ 6
        (fun i _ => if i = 0 then some ⟨fun j => 10 + j, fun j => 20 + j⟩ else none)
        [⟨0, 2⟩, ⟨30720, 1⟩] = some out ∧
      out.left[4]? = some 0 ∧ ((2 : Int) = 2 → out.right[4]? = some 0) := by
  obtain ⟨hprop, hdef⟩ := fullLoop_zero_outside_windows ⟨2, 44100, 2, 120000, 61440⟩ 6
    (fun i _ => if i = 0 then some ⟨fun j => 10 + j, fun j => 20 + j⟩ else none)
    [⟨0, 2⟩, ⟨30720, 1⟩]
  obtain ⟨out, hout⟩ := hdef (by decide)
    (placeable_of_check _ _ _ (by set_option maxRecDepth 100000 in decide))
  refine ⟨out, hout, ?_⟩
  obtain ⟨_, _, hk, _⟩ := hprop out hout
  apply hk 4 (by decide)
  intro s hs st hst
  simp only [List.mem_cons, List.mem_singleton, List.not_mem_nil, or_false] at hs
  rcases hs with rfl | rfl
  · have e : startSample ⟨2, 44100, 2, 120000, 61440⟩ 6 ⟨0, 2⟩ = some 0 := by
      set_option maxRecDepth 100000 in decide
    rw [e] at hst
    cases hst
    decide
  · have e : startSample ⟨2, 44100, 2, 120000, 61440⟩ 6 ⟨30720, 1⟩ = some 3 := by
      set_option maxRecDepth 100000 in decide
    rw [e] at hst
    cases hst
    decide

/-! ## C9: a later slice overwrites an earlier one -/

/-- C9: when every render succeeds, whenever the placement completes every frame index
`k < total` covered by some window holds the sample `scratch_p[k - start_p]` of the
highest-indexed slice `p` whose window contains `k`; and the placement completes
whenever `total ≥ 0` and every slice is placeable. -/
theorem fullLoop_last_slice_wins (info : Info) (total : Int) (render : Renderer)
    (infos : List SliceInfo)
    (hall : ∀ p s, infos[p]? = some s → (render p s.fSampleLength).isSome = true) :
    (∀ out, fullLoop info total render infos = some out →
      ∀ (k p : Nat) (s : SliceInfo) (st : Int), (k : Int) < total →
        infos[p]? = some s → startSample info total s = some st → inWindow st s k →
        (∀ q s2 st2, p < q → infos[q]? = some s2 →
          startSample info total s2 = some st2 → ¬ inWindow st2 s2 k) →
        ∃ sc, render p s.fSampleLength = some sc ∧
          out.left[k]? = some (sc.left (k - st.toNat)) ∧
          (info.fChannels = 2 → out.right[k]? = some (sc.right (k - st.toNat)))) ∧
    (0 ≤ total → Placeable info total infos →
      ∃ out, fullLoop info total render infos = some out) := by
  constructor
  · intro out hout k p s st hkt hp hst hin hlater
    unfold fullLoop at hout
    cases hinit : initFull info total with
    | none => simp [hinit] at hout
    | some full =>
      simp only [hinit] at hout
      obtain ⟨ht, hfl, hfr⟩ := initFull_some info total full hinit
      obtain ⟨_, _, _, hk⟩ := placeFrom_inv info total render ht infos 0 full out hout
        (by rw [hfl]; simp) (by intro h2; rw [hfr]; simp [h2])
      obtain ⟨sc, hren⟩ := Option.isSome_iff_exists.mp (hall p s hp)
      obtain ⟨_, hB⟩ := hk k hkt
      exact ⟨sc, hren, hB p s sc st hp (by simpa using hren) hst hin
        (fun q s2 _ st2 hpq hq _ hs2 => hlater q s2 st2 hpq hq hs2)⟩
  · intro ht hdef
    have hinit : initFull info total = some ⟨List.replicate total.toNat 0,
        if info.fChannels = 2 then List.replicate total.toNat 0 else []⟩ := by
      unfold initFull
      rw [if_neg (by omega)]
    obtain ⟨out, hout⟩ := placeFrom_defined info total render infos 0
      ⟨List.replicate total.toNat 0,
        if info.fChannels = 2 then List.replicate total.toNat 0 else []⟩
      (by simp) (by intro h2; simp [h2]) hdef
    refine ⟨out, ?_⟩
    unfold fullLoop
    rw [hinit]
    exact hout

/-- Two overlapping mono slices (three frames at offset 0, two frames at offset 2) in a
four-frame loop: frame 2 is covered by both windows and holds the first sample of the
second slice. -/
theorem fullLoop_last_slice_wins_witness :
    ∃ out, fullLoop ⟨1, 44100, 2, 120000, 61440⟩ 4
        (fun i _ => some ⟨fun j => 10 * (i + 1) + j, fun j => 100 * (i + 1) + j⟩)
        [⟨0, 3⟩, ⟨30720, 2⟩] = some out ∧ out.left[2]? = some 20 := by
  obtain ⟨hprop, hdef⟩ := fullLoop_last_slice_wins ⟨1, 44100, 2, 120000, 61440⟩ 4
    (fun i _ => some ⟨fun j => 10 * (i + 1) + j, fun j => 100 * (i + 1) + j⟩)
    [⟨0, 3⟩, ⟨30720, 2⟩] (fun _ _ _ => rfl)
  obtain ⟨out, hout⟩ := hdef (by decide)
    (placeable_of_check _ _ _ (by set_option maxRecDepth 100000 in decide))
  refine ⟨out, hout, ?_⟩
  obtain ⟨sc, hsc, hv, _⟩ := hprop out hout 2 1 ⟨30720, 2⟩ 2 (by decide) rfl
    (by set_option maxRecDepth 100000 in decide) (by decide)
    (by
      intro q s2 st2 hq hs2
      have : ([(⟨0, 3⟩ : SliceInfo), ⟨30720, 2⟩] : List SliceInfo)[q]? = none := by
        apply List.getElem?_eq_none
        simp only [List.length_cons, List.length_nil]
        omega
      rw [this] at hs2
      cases hs2)
  simp only [Option.some.injEq] at hsc
  rw [hv, ← hsc]
  rfl

/-! ## C10: slice indices after a failed metadata fetch -/

/-- C10 fails on the code: in a two-slice container whose metadata fetch fails for
index 0 and succeeds for index 1, the surviving slice (container index 1, 500 frames)
is stored at position 0 of `sliceInfos`; the per-slice loop renders container index 0
with 500 frames and numbers the file 001, and the placement loop also asks for index
0, so a renderer that only knows index 1 places nothing. -/
theorem failed_fetch_shifts_slice_index :
    enumerate (fun i => if i = 1 then some ⟨15360, 500⟩ else none) 2 = [⟨15360, 500⟩] ∧
      sliceRenderCalls (enumerate (fun i => if i = 1 then some ⟨15360, 500⟩ else none) 2) =
        [(0, 500, 1)] ∧
      fullLoop ⟨1, 44100, 2, 120000, 30720⟩ 4
        (fun i _ => if i = 1 then some ⟨fun j => 10 + j, fun j => 20 + j⟩ else none)
        (enumerate (fun i => if i = 1 then some ⟨15360, 500⟩ else none) 2) =
        some ⟨[0, 0, 0, 0], []⟩ ∧
      fullLoop ⟨1, 44100, 2, 120000, 30720⟩ 4
        (fun i _ => if i = 0 then some ⟨fun j => 10 + j, fun j => 20 + j⟩ else none)
        (enumerate (fun i => if i = 1 then some ⟨15360, 500⟩ else none) 2) =
        some ⟨[0, 0, 10, 11], []⟩ := by
  refine ⟨by decide, by decide, by decide, ?_⟩
  set_option maxRecDepth 100000 in decide

/-! ## The run as a whole -/

theorem placeFrom_append (info : Info) (total : Int) (render : Renderer) :
    ∀ (a b : List SliceInfo) (i : Nat) (full : Full),
      placeFrom info total render i (a ++ b) full =
        (placeFrom info total render i a full).bind
          (placeFrom info total render (i + a.length) b) := by
  intro a
  induction a with
  | nil => intro b i full; simp [placeFrom]
  | cons s rest ih =>
    intro b i full
    have hidx : i + (rest.length + 1) = i + 1 + rest.length := by omega
    rw [List.cons_append, List.length_cons, hidx]
    by_cases hneg : s.fSampleLength < 0
    · simp [placeFrom, hneg]
    · cases hren : render i s.fSampleLength with
      | none => simp only [placeFrom, if_neg hneg, hren, ih]
      | some sc =>
        cases hst : startSample info total s with
        | none => simp [placeFrom, hneg, hren, hst]
        | some st =>
          cases hpl : placeFrames info st total sc s.fSampleLength.toNat 0 full with
          | none => simp [placeFrom, hneg, hren, hst, hpl]
          | some full1 => simp only [placeFrom, if_neg hneg, hren, hst, hpl, ih]

theorem sliceFilesFrom_append (info : Info) (render : Renderer) (canOpen : String → Bool)
    (base : String) :
    ∀ (a b : List SliceInfo) (i : Nat),
      sliceFilesFrom info render canOpen base i (a ++ b) =
        match sliceFilesFrom info render canOpen base i a,
          sliceFilesFrom info render canOpen base (i + a.length) b with
        | some x, some y => some (x ++ y)
        | _, _ => none := by
  intro a
  induction a with
  | nil =>
    intro b i
    simp only [List.nil_append, sliceFilesFrom, List.length_nil, Nat.add_zero]
    cases sliceFilesFrom info render canOpen base i b <;> simp
  | cons s rest ih =>
    intro b i
    have hidx : i + (rest.length + 1) = i + 1 + rest.length := by omega
    rw [List.cons_append, List.length_cons, hidx]
    by_cases hneg : s.fSampleLength < 0
    · simp [sliceFilesFrom, hneg]
    · cases hren : render i s.fSampleLength with
      | none => simp only [sliceFilesFrom, if_neg hneg, hren, ih]
      | some sc =>
        by_cases hopen : canOpen (sliceFileName base i) = true
        · cases hw : writeSliceWav info s.fSampleLength sc with
          | none => simp [sliceFilesFrom, hneg, hren, hopen, hw]
          | some bytes =>
            simp only [sliceFilesFrom, if_neg hneg, hren, hopen, if_true, hw, ih]
            cases sliceFilesFrom info render canOpen base (i + 1) rest with
            | none => simp
            | some x =>
              cases sliceFilesFrom info render canOpen base (i + 1 + rest.length) b with
              | none => simp
              | some y => simp
        · simp only [sliceFilesFrom, if_neg hneg, hren, hopen, ih]
          simp

theorem run_cases (argc : Int) (fileOpened : Bool) (wavPath : String)
    (canOpen : String → Bool) (sdk : Sdk) (out : Output)
    (h : run argc fileOpened wavPath canOpen sdk = some out) :
    (out.status = 1 ∧ out.markers = [] ∧ out.markerText = "" ∧
      (argc ≠ 5 ∨ fileOpened = false ∨ sdk.initOk = false ∨ sdk.createOk = false ∨
        sdk.infoOk = false)) ∨
    (out.status = 0 ∧ out.markerText = markerText out.markers ∧
      (argc = 5 ∧ fileOpened = true ∧ sdk.initOk = true ∧ sdk.createOk = true ∧
        sdk.infoOk = true) ∧
      out.ops = [SdkOp.REXInitializeDLL_DirPath, SdkOp.REXCreate, SdkOp.REXGetInfo,
          SdkOp.REXGetCreatorInfo] ++ getSliceInfoOps 0 sdk.info.fSliceCount.toNat ++
        renderOpsFrom 0 (enumerate sdk.fetch sdk.info.fSliceCount) ++
        renderOpsFrom 0 (enumerate sdk.fetch sdk.info.fSliceCount) ++
        [SdkOp.REXDelete, SdkOp.REXUninitializeDLL] ∧
      ∃ total, totalFrames sdk.info = some total ∧
        sliceMarkers sdk.info total (enumerate sdk.fetch sdk.info.fSliceCount) =
          some out.markers ∧
        sliceFilesFrom sdk.info sdk.render canOpen (baseName wavPath) 0
          (enumerate sdk.fetch sdk.info.fSliceCount) = some out.sliceFiles ∧
        out.full = fullLoop sdk.info total sdk.render
          (enumerate sdk.fetch sdk.info.fSliceCount)) := by
  unfold run at h
  by_cases h1 : argc ≠ 5
  · rw [if_pos h1] at h
    simp only [Option.some.injEq] at h
    subst h
    exact Or.inl ⟨rfl, rfl, rfl, Or.inl h1⟩
  rw [if_neg h1] at h
  cases h2 : fileOpened
  · rw [h2] at h
    simp only [Bool.not_false, if_true, Option.some.injEq] at h
    subst h
    exact Or.inl ⟨rfl, rfl, rfl, Or.inr (Or.inl rfl)⟩
  rw [h2] at h
  cases h3 : sdk.initOk
  · rw [h3] at h
    simp only [Bool.not_false, Bool.not_true, if_true, Bool.false_eq_true, if_false,
      Option.some.injEq] at h
    subst h
    exact Or.inl ⟨rfl, rfl, rfl, Or.inr (Or.inr (Or.inl rfl))⟩
  rw [h3] at h
  cases h4 : sdk.createOk
  · rw [h4] at h
    simp only [Bool.not_false, Bool.not_true, if_true, Bool.false_eq_true, if_false,
      Option.some.injEq] at h
    subst h
    exact Or.inl ⟨rfl, rfl, rfl, Or.inr (Or.inr (Or.inr (Or.inl rfl)))⟩
  rw [h4] at h
  cases h5 : sdk.infoOk
  · rw [h5] at h
    simp only [Bool.not_false, Bool.not_true, if_true, Bool.false_eq_true, if_false,
      Option.some.injEq] at h
    subst h
    exact Or.inl ⟨rfl, rfl, rfl, Or.inr (Or.inr (Or.inr (Or.inr rfl)))⟩
  rw [h5] at h
  simp only [Bool.not_true, Bool.false_eq_true, if_false] at h
  right
  cases ht : totalFrames sdk.info with
  | none => simp [ht] at h
  | some total =>
    cases hm : sliceMarkers sdk.info total (enumerate sdk.fetch sdk.info.fSliceCount) with
    | none => simp [ht, hm] at h
    | some ms =>
      cases hf : sliceFilesFrom sdk.info sdk.render canOpen (baseName wavPath) 0
          (enumerate sdk.fetch sdk.info.fSliceCount) with
      | none => simp [ht, hm, hf] at h
      | some files =>
        cases hfull : fullLoop sdk.info total sdk.render
            (enumerate sdk.fetch sdk.info.fSliceCount) with
        | none => simp [ht, hm, hf, hfull] at h
        | some full =>
          cases hw : (if canOpen wavPath = true
              then (writeFullWav sdk.info total full).map some else some none) with
          | none => simp [ht, hm, hf, hfull, hw] at h
          | some wav =>
            simp only [ht, hm, hf, hfull, hw, Option.some.injEq] at h
            subst h
            exact ⟨rfl, rfl, ⟨not_not.mp h1, rfl, rfl, rfl, rfl⟩, rfl, total, rfl, hm, rfl, hfull.symm⟩

theorem getSliceInfoOps_mem (op : SdkOp) : ∀ (n i : Nat), op ∈ getSliceInfoOps i n →
    ∃ k, op = SdkOp.REXGetSliceInfo k
  | 0, _, h => by simp [getSliceInfoOps] at h
  | n + 1, i, h => by
    simp only [getSliceInfoOps, List.mem_cons] at h
    rcases h with h | h
    · exact ⟨i, h⟩
    · exact getSliceInfoOps_mem op n (i + 1) h

theorem renderOpsFrom_mem (op : SdkOp) : ∀ (infos : List SliceInfo) (i : Nat),
    op ∈ renderOpsFrom i infos → ∃ k n, op = SdkOp.REXRenderSlice k n
  | [], _, h => by simp [renderOpsFrom] at h
  | s :: rest, i, h => by
    simp only [renderOpsFrom, List.mem_cons] at h
    rcases h with h | h
    · exact ⟨i, s.fSampleLength, h⟩
    · exact renderOpsFrom_mem op rest (i + 1) h

/-! ## C11: a failed render -/

/-- C11: when the render of the slice at index `pre.length` fails (its length being
non-negative), the per-slice files are those of the slices before it followed by those
of the slices after it, the placement loop hands the buffers it has after the slices
before it unchanged to the slices after it, and both loops continue with the next index;
and for any two render behaviours, two runs that reach a `return` statement on otherwise
equal inputs have the same marker vector and the same marker text. -/
theorem failed_render_skips_slice (info : Info) (total : Int) (render : Renderer)
    (canOpen : String → Bool) (base : String) (pre post : List SliceInfo) (s : SliceInfo)
    (hlen : 0 ≤ s.fSampleLength) (hfail : render pre.length s.fSampleLength = none) :
    (sliceFilesFrom info render canOpen base 0 (pre ++ s :: post) =
      match sliceFilesFrom info render canOpen base 0 pre,
        sliceFilesFrom info render canOpen base (pre.length + 1) post with
      | some x, some y => some (x ++ y)
      | _, _ => none) ∧
    (∀ full, placeFrom info total render 0 (pre ++ s :: post) full =
      (placeFrom info total render 0 pre full).bind
        (placeFrom info total render (pre.length + 1) post)) ∧
    (∀ full, placeFrom info total render pre.length (s :: post) full =
      placeFrom info total render (pre.length + 1) post full) ∧
    (∀ (argc : Int) (fileOpened : Bool) (wavPath : String) (initOk createOk infoOk : Bool)
      (fetch : SliceFetch) (render2 : Renderer) (out out2 : Output),
      run argc fileOpened wavPath canOpen ⟨initOk, createOk, infoOk, info, fetch, render⟩ =
        some out →
      run argc fileOpened wavPath canOpen ⟨initOk, createOk, infoOk, info, fetch, render2⟩ =
        some out2 →
      out2.status = out.status ∧ out2.markers = out.markers ∧
        out2.markerText = out.markerText) := by
  have hneg : ¬ s.fSampleLength < 0 := by omega
  have hstep : ∀ full, placeFrom info total render pre.length (s :: post) full =
      placeFrom info total render (pre.length + 1) post full := by
    intro full
    simp only [placeFrom, if_neg hneg, hfail]
  have hfiles : sliceFilesFrom info render canOpen base pre.length (s :: post) =
      sliceFilesFrom info render canOpen base (pre.length + 1) post := by
    simp only [sliceFilesFrom, if_neg hneg, hfail]
  refine ⟨?_, ?_, hstep, ?_⟩
  · rw [sliceFilesFrom_append, Nat.zero_add, hfiles]
  · intro full
    rw [placeFrom_append, Nat.zero_add]
    congr 1
    funext f
    exact hstep f
  · intro argc fileOpened wavPath initOk createOk infoOk fetch render2 out out2 h1 h2
    rcases run_cases _ _ _ _ _ _ h1 with ⟨a1, a2, a3, a4⟩ | ⟨a1, a2, a3, _, t1, a4, a5, _⟩
    · rcases run_cases _ _ _ _ _ _ h2 with ⟨b1, b2, b3, _⟩ | ⟨_, _, b3, _⟩
      · rw [a1, a2, a3, b1, b2, b3]
        exact ⟨rfl, rfl, rfl⟩
      · obtain ⟨c1, c2, c3, c4, c5⟩ := b3
        simp only at c3 c4 c5
        simp only [c2, c3, c4, c5] at a4
        simp at a4
        exact absurd c1 a4
    · rcases run_cases _ _ _ _ _ _ h2 with ⟨_, _, _, b4⟩ | ⟨b1, b2, _, _, t2, b4, b5, _⟩
      · obtain ⟨c1, c2, c3, c4, c5⟩ := a3
        simp only at c3 c4 c5
        simp only [c2, c3, c4, c5] at b4
        simp at b4
        exact absurd c1 b4
      · simp only at a4 a5 b4 b5
        rw [a4] at b4
        simp only [Option.some.injEq] at b4
        subst b4
        rw [a5] at b5
        simp only [Option.some.injEq] at b5
        rw [a1, b1, a2, b2, b5]
        exact ⟨rfl, rfl, rfl⟩

/-- Scenario S5 (three slices, the render of index 1 failing): files for slices 1 and 3,
the window of slice 2 left at zero, three marker lines. -/
theorem failed_render_skips_slice_witness :
    (sliceFilesFrom s5Info s5Render (fun _ => true) "loop" 0
        ([⟨0, 4⟩] ++ ⟨5120, 4⟩ :: [⟨10240, 4⟩]) =
      match sliceFilesFrom s5Info s5Render (fun _ => true) "loop" 0 [⟨0, 4⟩],
        sliceFilesFrom s5Info s5Render (fun _ => true) "loop" 2 [⟨10240, 4⟩] with
      | some x, some y => some (x ++ y)
      | _, _ => none) ∧
    (run 5 true "loop.wav" (fun _ => true) s5Sdk).map
      (fun o => (o.status, o.sliceFiles.map Prod.fst, o.full, o.markers, o.markerText)) =
      some (0, ["loop_slice001.wav", "loop_slice003.wav"],
        some ⟨[16, 17, 18, 19, 0, 0, 0, 0, 48, 49, 50, 51], []⟩, [1, 4, 8],
        "renoise.song().selected_sample:insert_slice_marker(1)\n" ++
        "renoise.song().selected_sample:insert_slice_marker(4)\n" ++
        "renoise.song().selected_sample:insert_slice_marker(8)\n") :=
  ⟨(failed_render_skips_slice s5Info 12 s5Render (fun _ => true) "loop" [⟨0, 4⟩]
      [⟨10240, 4⟩] ⟨5120, 4⟩ (by decide) rfl).1,
    by set_option maxRecDepth 1000000 in decide⟩

/-! ## The WAV byte stream -/

theorem leValue_writeInt32LE (v : Int) (h0 : 0 ≤ v) (h1 : v < 4294967296) :
    (leValue (writeInt32LE v) : Int) = v := by
  simp only [writeInt32LE, leValue]
  push_cast
  omega

theorem leValue_writeInt16LE (v : Int) (h0 : 0 ≤ v) (h1 : v < 65536) :
    (leValue (writeInt16LE v) : Int) = v := by
  simp only [writeInt16LE, leValue]
  push_cast
  omega

theorem leValue_floatBytes (w : Nat) (h : w < 4294967296) : leValue (floatBytes w) = w := by
  simp only [floatBytes, leValue]
  omega

theorem frameBytes_length (buffers : Nat → Nat → Sample) (i : Nat) :
    ∀ n ch, (frameBytes buffers i n ch).length = 4 * n := by
  intro n
  induction n with
  | zero => intro ch; rfl
  | succ n ih =>
    intro ch
    simp only [frameBytes, List.length_append, ih, floatBytes, List.length_cons,
      List.length_nil]
    omega

theorem sampleBytes_length (buffers : Nat → Nat → Sample) (c : Nat) :
    ∀ n i, (sampleBytes buffers c n i).length = 4 * c * n := by
  intro n
  induction n with
  | zero => intro i; rfl
  | succ n ih =>
    intro i
    simp only [sampleBytes, List.length_append, ih, frameBytes_length]
    ring

theorem frameBytes_at (buffers : Nat → Nat → Sample) (i : Nat) :
    ∀ n ch k, k < n →
      ((frameBytes buffers i n ch).drop (4 * k)).take 4 = floatBytes (buffers (ch + k) i) := by
  intro n
  induction n with
  | zero => intro ch k hk; omega
  | succ n ih =>
    intro ch k hk
    cases k with
    | zero =>
      simp [frameBytes, floatBytes]
    | succ k =>
      have e : 4 * (k + 1) = 4 * k + 1 + 1 + 1 + 1 := by omega
      rw [e]
      simp only [frameBytes, floatBytes, List.cons_append, List.nil_append, List.drop_succ_cons]
      rw [ih (ch + 1) k (by omega)]
      congr 2
      omega

theorem sampleBytes_at (buffers : Nat → Nat → Sample) (c : Nat) :
    ∀ n i0 i ch, i < n → ch < c →
      ((sampleBytes buffers c n i0).drop (4 * (i * c + ch))).take 4 =
        floatBytes (buffers ch (i0 + i)) := by
  intro n
  induction n with
  | zero => intro i0 i ch hi; omega
  | succ n ih =>
    intro i0 i ch hi hch
    cases i with
    | zero =>
      simp only [sampleBytes, Nat.zero_mul, Nat.zero_add, Nat.add_zero]
      have hlen := frameBytes_length buffers i0 c 0
      rw [List.drop_append_of_le_length (by rw [hlen]; omega)]
      rw [List.take_append_of_le_length (by rw [List.length_drop, hlen]; omega)]
      have := frameBytes_at buffers i0 c 0 ch hch
      simpa using this
    | succ i =>
      simp only [sampleBytes]
      have hlen := frameBytes_length buffers i0 c 0
      have e : 4 * ((i + 1) * c + ch) = (frameBytes buffers i0 c 0).length + 4 * (i * c + ch) := by
        rw [hlen]; ring
      rw [e, List.drop_append]
      rw [ih (i0 + 1) i ch (by omega) hch]
      congr 2
      omega

theorem checkInt_some (v w : Int) (h : checkInt v = some w) : w = v ∧ Int32 v := by
  unfold checkInt at h
  split_ifs at h with hv
  cases h
  exact ⟨rfl, hv⟩

theorem checkInt_of_int32 (v : Int) (h : Int32 v) : checkInt v = some v := by
  unfold checkInt
  rw [if_pos h]

/-- The bytes of `writeWav` when every `int` computation is defined, and only then. -/
theorem writeWav_eq (channels sampleRate frameCount : Int) (buffers : Nat → Nat → Sample) :
    (Int32 (channels * 4) ∧ Int32 (sampleRate * (channels * 4)) ∧
        Int32 (frameCount * (channels * 4)) ∧ Int32 (36 + frameCount * (channels * 4)) →
      writeWav channels sampleRate frameCount buffers =
        some (ascii "RIFF" ++ writeInt32LE (36 + frameCount * (channels * 4)) ++ ascii "WAVE" ++
          ascii "fmt " ++ writeInt32LE 16 ++ writeInt16LE 3 ++
          writeInt16LE (toInt16 channels) ++ writeInt32LE sampleRate ++
          writeInt32LE (sampleRate * (channels * 4)) ++ writeInt16LE (toInt16 (channels * 4)) ++
          writeInt16LE (toInt16 32) ++
          ascii "data" ++ writeInt32LE (frameCount * (channels * 4)) ++
          sampleBytes buffers channels.toNat frameCount.toNat 0)) ∧
    (∀ bytes, writeWav channels sampleRate frameCount buffers = some bytes →
      Int32 (channels * 4) ∧ Int32 (sampleRate * (channels * 4)) ∧
        Int32 (frameCount * (channels * 4)) ∧ Int32 (36 + frameCount * (channels * 4))) := by
  have h8 : (32 : Int) / 8 = 4 := by decide
  constructor
  · rintro ⟨a, b, c, d⟩
    unfold writeWav
    simp only [h8]
    rw [checkInt_of_int32 _ a]
    simp only []
    rw [checkInt_of_int32 _ b, checkInt_of_int32 _ c]
    simp only []
    rw [checkInt_of_int32 _ d]
  · intro bytes h
    unfold writeWav at h
    simp only [h8] at h
    cases h1 : checkInt (channels * 4) with
    | none => simp [h1] at h
    | some blockAlign =>
      obtain ⟨e1, a⟩ := checkInt_some _ _ h1
      subst e1
      simp only [h1] at h
      cases h2 : checkInt (sampleRate * (channels * 4)) with
      | none => simp [h2] at h
      | some byteRate =>
        obtain ⟨e2, b⟩ := checkInt_some _ _ h2
        cases h3 : checkInt (frameCount * (channels * 4)) with
        | none => simp [h2, h3] at h
        | some dataSize =>
          obtain ⟨e3, c⟩ := checkInt_some _ _ h3
          subst e3
          simp only [h2, h3] at h
          cases h4 : checkInt (36 + frameCount * (channels * 4)) with
          | none => simp [h4] at h
          | some chunkSize =>
            obtain ⟨_, d⟩ := checkInt_some _ _ h4
            exact ⟨a, b, c, d⟩

theorem ascii_RIFF : ascii "RIFF" = [82, 73, 70, 70] := by decide
theorem ascii_WAVE : ascii "WAVE" = [87, 65, 86, 69] := by decide
theorem ascii_fmt : ascii "fmt " = [102, 109, 116, 32] := by decide
theorem ascii_data : ascii "data" = [100, 97, 116, 97] := by decide

theorem frameBytes_lt (buffers : Nat → Nat → Sample) (i : Nat) :
    ∀ n ch, ∀ b ∈ frameBytes buffers i n ch, b < 256 := by
  intro n
  induction n with
  | zero => intro ch b hb; simp [frameBytes] at hb
  | succ n ih =>
    intro ch b hb
    simp only [frameBytes, List.mem_append] at hb
    rcases hb with hb | hb
    · simp only [floatBytes, List.mem_cons, List.mem_singleton, List.not_mem_nil,
        or_false] at hb
      rcases hb with h | h | h | h <;> omega
    · exact ih (ch + 1) b hb

theorem sampleBytes_lt (buffers : Nat → Nat → Sample) (c : Nat) :
    ∀ n i, ∀ b ∈ sampleBytes buffers c n i, b < 256 := by
  intro n
  induction n with
  | zero => intro i b hb; simp [sampleBytes] at hb
  | succ n ih =>
    intro i b hb
    simp only [sampleBytes, List.mem_append] at hb
    rcases hb with hb | hb
    · exact frameBytes_lt buffers i c 0 b hb
    · exact ih (i + 1) b hb

theorem writeInt32LE_lt (v : Int) : ∀ b ∈ writeInt32LE v, b < 256 := by
  intro b hb
  simp only [writeInt32LE, List.mem_cons, List.mem_singleton, List.not_mem_nil,
    or_false] at hb
  rcases hb with h | h | h | h <;> omega

theorem writeInt16LE_lt (v : Int) : ∀ b ∈ writeInt16LE v, b < 256 := by
  intro b hb
  simp only [writeInt16LE, List.mem_cons, List.mem_singleton, List.not_mem_nil,
    or_false] at hb
  rcases hb with h | h <;> omega

theorem writeInt32LE_length (v : Int) : (writeInt32LE v).length = 4 := rfl

theorem writeInt16LE_length (v : Int) : (writeInt16LE v).length = 2 := rfl

theorem bytesAt_zero (p q : List Nat) (n : Nat) (h : p.length = n) :
    bytesAt (p ++ q) 0 n = p := by
  subst h
  simp [bytesAt]

theorem bytesAt_skip (p q : List Nat) (o o2 n : Nat) (h : o = p.length + o2) :
    bytesAt (p ++ q) o n = bytesAt q o2 n := by
  subst h
  simp [bytesAt, List.drop_append]

theorem toInt16_small (v : Int) (h0 : -32768 ≤ v) (h1 : v < 32768) : toInt16 v = v := by
  unfold toInt16
  omega

/-- The layout of a 44-byte header followed by sample data: each field sits at its
offset and decodes to the value written. -/
theorem header_layout (chunk fmtSize format ch sr br ba bits ds : Int) (rest : List Nat)
    (bytes : List Nat)
    (hb : bytes = ascii "RIFF" ++ (writeInt32LE chunk ++ (ascii "WAVE" ++ (ascii "fmt " ++
      (writeInt32LE fmtSize ++ (writeInt16LE format ++ (writeInt16LE ch ++
      (writeInt32LE sr ++ (writeInt32LE br ++ (writeInt16LE ba ++ (writeInt16LE bits ++
      (ascii "data" ++ (writeInt32LE ds ++ rest)))))))))))))
    (hrest : ∀ b ∈ rest, b < 256) :
    bytes.length = 44 + rest.length ∧
    (∀ b ∈ bytes, b < 256) ∧
    bytesAt bytes 0 4 = ascii "RIFF" ∧
    bytesAt bytes 4 4 = writeInt32LE chunk ∧
    bytesAt bytes 8 4 = ascii "WAVE" ∧
    bytesAt bytes 12 4 = ascii "fmt " ∧
    bytesAt bytes 16 4 = writeInt32LE fmtSize ∧
    bytesAt bytes 20 2 = writeInt16LE format ∧
    bytesAt bytes 22 2 = writeInt16LE ch ∧
    bytesAt bytes 24 4 = writeInt32LE sr ∧
    bytesAt bytes 28 4 = writeInt32LE br ∧
    bytesAt bytes 32 2 = writeInt16LE ba ∧
    bytesAt bytes 34 2 = writeInt16LE bits ∧
    bytesAt bytes 36 4 = ascii "data" ∧
    bytesAt bytes 40 4 = writeInt32LE ds ∧
    bytes.drop 44 = rest := by
  subst hb
  have a4 : ∀ s : String, (s = "RIFF" ∨ s = "WAVE" ∨ s = "fmt " ∨ s = "data") →
      (ascii s).length = 4 ∧ ∀ b ∈ ascii s, b < 256 := by
    intro s hs
    rcases hs with rfl | rfl | rfl | rfl <;> decide
  have l1 := (a4 "RIFF" (by simp)).1
  have l2 := (a4 "WAVE" (by simp)).1
  have l3 := (a4 "fmt " (by simp)).1
  have l4 := (a4 "data" (by simp)).1
  refine ⟨?_, ?_, ?_, ?_, ?_, ?_, ?_, ?_, ?_, ?_, ?_, ?_, ?_, ?_, ?_, ?_⟩
  · simp only [List.length_append, writeInt32LE_length, writeInt16LE_length, l1, l2, l3, l4]
    omega
  · intro b hb
    simp only [List.mem_append] at hb
    rcases hb with h | h | h | h | h | h | h | h | h | h | h | h | h | h
    · exact (a4 "RIFF" (by simp)).2 b h
    · exact writeInt32LE_lt _ b h
    · exact (a4 "WAVE" (by simp)).2 b h
    · exact (a4 "fmt " (by simp)).2 b h
    · exact writeInt32LE_lt _ b h
    · exact writeInt16LE_lt _ b h
    · exact writeInt16LE_lt _ b h
    · exact writeInt32LE_lt _ b h
    · exact writeInt32LE_lt _ b h
    · exact writeInt16LE_lt _ b h
    · exact writeInt16LE_lt _ b h
    · exact (a4 "data" (by simp)).2 b h
    · exact writeInt32LE_lt _ b h
    · exact hrest b h
  · exact bytesAt_zero _ _ _ l1
  · rw [bytesAt_skip _ _ 4 0 4 (by rw [l1])]
    exact bytesAt_zero _ _ _ rfl
  · rw [bytesAt_skip _ _ 8 4 4 (by rw [l1]), bytesAt_skip _ _ 4 0 4 (by rfl)]
    exact bytesAt_zero _ _ _ l2
  · rw [bytesAt_skip _ _ 12 8 4 (by rw [l1]), bytesAt_skip _ _ 8 4 4 (by rfl),
      bytesAt_skip _ _ 4 0 4 (by rw [l2])]
    exact bytesAt_zero _ _ _ l3
  · rw [bytesAt_skip _ _ 16 12 4 (by rw [l1]), bytesAt_skip _ _ 12 8 4 (by rfl),
      bytesAt_skip _ _ 8 4 4 (by rw [l2]), bytesAt_skip _ _ 4 0 4 (by rw [l3])]
    exact bytesAt_zero _ _ _ rfl
  · rw [bytesAt_skip _ _ 20 16 2 (by rw [l1]), bytesAt_skip _ _ 16 12 2 (by rfl),
      bytesAt_skip _ _ 12 8 2 (by rw [l2]), bytesAt_skip _ _ 8 4 2 (by rw [l3]),
      bytesAt_skip _ _ 4 0 2 (by rfl)]
    exact bytesAt_zero _ _ _ rfl
  · rw [bytesAt_skip _ _ 22 18 2 (by rw [l1]), bytesAt_skip _ _ 18 14 2 (by rfl),
      bytesAt_skip _ _ 14 10 2 (by rw [l2]), bytesAt_skip _ _ 10 6 2 (by rw [l3]),
      bytesAt_skip _ _ 6 2 2 (by rfl), bytesAt_skip _ _ 2 0 2 (by rfl)]
    exact bytesAt_zero _ _ _ rfl
  · rw [bytesAt_skip _ _ 24 20 4 (by rw [l1]), bytesAt_skip _ _ 20 16 4 (by rfl),
      bytesAt_skip _ _ 16 12 4 (by rw [l2]), bytesAt_skip _ _ 12 8 4 (by rw [l3]),
      bytesAt_skip _ _ 8 4 4 (by rfl), bytesAt_skip _ _ 4 2 4 (by rfl), bytesAt_skip _ _ 2 0 4 (by rfl)]
    exact bytesAt_zero _ _ _ rfl
  · rw [bytesAt_skip _ _ 28 24 4 (by rw [l1]), bytesAt_skip _ _ 24 20 4 (by rfl),
      bytesAt_skip _ _ 20 16 4 (by rw [l2]), bytesAt_skip _ _ 16 12 4 (by rw [l3]),
      bytesAt_skip _ _ 12 8 4 (by rfl), bytesAt_skip _ _ 8 6 4 (by rfl), bytesAt_skip _ _ 6 4 4 (by rfl),
      bytesAt_skip _ _ 4 0 4 (by rfl)]
    exact bytesAt_zero _ _ _ rfl
  · rw [bytesAt_skip _ _ 32 28 2 (by rw [l1]), bytesAt_skip _ _ 28 24 2 (by rfl),
      bytesAt_skip _ _ 24 20 2 (by rw [l2]), bytesAt_skip _ _ 20 16 2 (by rw [l3]),
      bytesAt_skip _ _ 16 12 2 (by rfl), bytesAt_skip _ _ 12 10 2 (by rfl),
      bytesAt_skip _ _ 10 8 2 (by rfl), bytesAt_skip _ _ 8 4 2 (by rfl), bytesAt_skip _ _ 4 0 2 (by rfl)]
    exact bytesAt_zero _ _ _ rfl
  · rw [bytesAt_skip _ _ 34 30 2 (by rw [l1]), bytesAt_skip _ _ 30 26 2 (by rfl),
      bytesAt_skip _ _ 26 22 2 (by rw [l2]), bytesAt_skip _ _ 22 18 2 (by rw [l3]),
      bytesAt_skip _ _ 18 14 2 (by rfl), bytesAt_skip _ _ 14 12 2 (by rfl),
      bytesAt_skip _ _ 12 10 2 (by rfl), bytesAt_skip _ _ 10 6 2 (by rfl), bytesAt_skip _ _ 6 2 2 (by rfl),
      bytesAt_skip _ _ 2 0 2 (by rfl)]
    exact bytesAt_zero _ _ _ rfl
  · rw [bytesAt_skip _ _ 36 32 4 (by rw [l1]), bytesAt_skip _ _ 32 28 4 (by rfl),
      bytesAt_skip _ _ 28 24 4 (by rw [l2]), bytesAt_skip _ _ 24 20 4 (by rw [l3]),
      bytesAt_skip _ _ 20 16 4 (by rfl), bytesAt_skip _ _ 16 14 4 (by rfl),
      bytesAt_skip _ _ 14 12 4 (by rfl), bytesAt_skip _ _ 12 8 4 (by rfl), bytesAt_skip _ _ 8 4 4 (by rfl),
      bytesAt_skip _ _ 4 2 4 (by rfl), bytesAt_skip _ _ 2 0 4 (by rfl)]
    exact bytesAt_zero _ _ _ l4
  · rw [bytesAt_skip _ _ 40 36 4 (by rw [l1]), bytesAt_skip _ _ 36 32 4 (by rfl),
      bytesAt_skip _ _ 32 28 4 (by rw [l2]), bytesAt_skip _ _ 28 24 4 (by rw [l3]),
      bytesAt_skip _ _ 24 20 4 (by rfl), bytesAt_skip _ _ 20 18 4 (by rfl),
      bytesAt_skip _ _ 18 16 4 (by rfl), bytesAt_skip _ _ 16 12 4 (by rfl),
      bytesAt_skip _ _ 12 8 4 (by rfl), bytesAt_skip _ _ 8 6 4 (by rfl), bytesAt_skip _ _ 6 4 4 (by rfl),
      bytesAt_skip _ _ 4 0 4 (by rw [l4])]
    exact bytesAt_zero _ _ _ rfl
  · have e : ∀ (p q : List Nat) (o o2 : Nat), o = p.length + o2 →
        (p ++ q).drop o = q.drop o2 := by
      intro p q o o2 h
      subst h
      simp [List.drop_append]
    rw [e _ _ 44 40 (by rw [l1]), e _ _ 40 36 (by rfl), e _ _ 36 32 (by rw [l2]),
      e _ _ 32 28 (by rw [l3]), e _ _ 28 24 (by rfl), e _ _ 24 22 (by rfl), e _ _ 22 20 (by rfl),
      e _ _ 20 16 (by rfl), e _ _ 16 12 (by rfl), e _ _ 12 10 (by rfl), e _ _ 10 8 (by rfl),
      e _ _ 8 4 (by rw [l4]), e _ _ 4 0 (by rfl)]
    rfl

/-- A stream produced by `writeWav` is the 44-byte header followed by the sample bytes. -/
theorem writeWav_layout (channels sampleRate frameCount : Int) (buffers : Nat → Nat → Sample)
    (bytes : List Nat) (h : writeWav channels sampleRate frameCount buffers = some bytes) :
    bytes.length = 44 + 4 * channels.toNat * frameCount.toNat ∧
    (∀ b ∈ bytes, b < 256) ∧
    bytesAt bytes 0 4 = ascii "RIFF" ∧
    bytesAt bytes 4 4 = writeInt32LE (36 + frameCount * (channels * 4)) ∧
    bytesAt bytes 8 4 = ascii "WAVE" ∧
    bytesAt bytes 12 4 = ascii "fmt " ∧
    bytesAt bytes 16 4 = writeInt32LE 16 ∧
    bytesAt bytes 20 2 = writeInt16LE 3 ∧
    bytesAt bytes 22 2 = writeInt16LE (toInt16 channels) ∧
    bytesAt bytes 24 4 = writeInt32LE sampleRate ∧
    bytesAt bytes 28 4 = writeInt32LE (sampleRate * (channels * 4)) ∧
    bytesAt bytes 32 2 = writeInt16LE (toInt16 (channels * 4)) ∧
    bytesAt bytes 34 2 = writeInt16LE (toInt16 32) ∧
    bytesAt bytes 36 4 = ascii "data" ∧
    bytesAt bytes 40 4 = writeInt32LE (frameCount * (channels * 4)) ∧
    bytes.drop 44 = sampleBytes buffers channels.toNat frameCount.toNat 0 := by
  obtain ⟨hto, hfrom⟩ := writeWav_eq channels sampleRate frameCount buffers
  have e := hto (hfrom bytes h)
  rw [h] at e
  simp only [Option.some.injEq, List.append_assoc] at e
  have hl := header_layout _ _ _ _ _ _ _ _ _ _ bytes e
    (sampleBytes_lt buffers channels.toNat frameCount.toNat 0)
  rw [sampleBytes_length] at hl
  exact hl

/-! ## C12: the WAV header -/

/-- C12: for `channels` 1 or 2, a 32-bit `sample_rate ≥ 0`, `frame_count ≥ 0` and
`36 + frame_count × channels × 4 < 2^31`, every byte stream `writeWav` produces has
length `44 + frame_count × channels × 4`, consists of bytes, and its first 44 bytes
decode (little-endian) to `RIFF`, `36 + data_size`, `WAVE`, `fmt `, 16, 3, `channels`,
`sample_rate`, `sample_rate × channels × 4`, `channels × 4`, 32, `data`, `data_size`;
the stream is produced exactly when `sample_rate × channels × 4` fits in `int`; and the
1-frame mono 44100 Hz file holding `0.0` is the 48 bytes listed, ending in four zeros. -/
theorem writeWav_header (channels sampleRate frameCount : Int)
    (buffers : Nat → Nat → Sample) (hc : channels = 1 ∨ channels = 2)
    (hsr : 0 ≤ sampleRate) (hsr32 : Int32 sampleRate) (hn : 0 ≤ frameCount)
    (hsize : 36 + frameCount * channels * 4 < 2147483648) :
    (∀ bytes, writeWav channels sampleRate frameCount buffers = some bytes →
      (bytes.length : Int) = 44 + frameCount * channels * 4 ∧
      (∀ b ∈ bytes, b < 256) ∧
      bytesAt bytes 0 4 = ascii "RIFF" ∧
      (leValue (bytesAt bytes 4 4) : Int) = 36 + frameCount * channels * 4 ∧
      bytesAt bytes 8 4 = ascii "WAVE" ∧
      bytesAt bytes 12 4 = ascii "fmt " ∧
      leValue (bytesAt bytes 16 4) = 16 ∧
      leValue (bytesAt bytes 20 2) = 3 ∧
      (leValue (bytesAt bytes 22 2) : Int) = channels ∧
      (leValue (bytesAt bytes 24 4) : Int) = sampleRate ∧
      (leValue (bytesAt bytes 28 4) : Int) = sampleRate * channels * 4 ∧
      (leValue (bytesAt bytes 32 2) : Int) = channels * 4 ∧
      leValue (bytesAt bytes 34 2) = 32 ∧
      bytesAt bytes 36 4 = ascii "data" ∧
      (leValue (bytesAt bytes 40 4) : Int) = frameCount * channels * 4) ∧
    ((∃ bytes, writeWav channels sampleRate frameCount buffers = some bytes) ↔
      sampleRate * channels * 4 < 2147483648) ∧
    writeWav 1 44100 1 (fun _ _ => 0) =
      some [82, 73, 70, 70, 40, 0, 0, 0, 87, 65, 86, 69, 102, 109, 116, 32, 16, 0, 0, 0,
        3, 0, 1, 0, 68, 172, 0, 0, 16, 177, 2, 0, 4, 0, 32, 0, 100, 97, 116, 97,
        4, 0, 0, 0, 0, 0, 0, 0] := by
  obtain ⟨hto, hfrom⟩ := writeWav_eq channels sampleRate frameCount buffers
  unfold Int32 at hsr32
  refine ⟨?_, ?_, by decide⟩
  · intro bytes h
    obtain ⟨a, b, c, d⟩ := hfrom bytes h
    unfold Int32 at a b c d
    obtain ⟨k0, k1, k2, k3, k4, k5, k6, k7, k8, k9, k10, k11, k12, k13, k14, _⟩ :=
      writeWav_layout channels sampleRate frameCount buffers bytes h
    have e4 : frameCount * channels * 4 = frameCount * (channels * 4) := by ring
    have e5 : sampleRate * channels * 4 = sampleRate * (channels * 4) := by ring
    have hch : toInt16 channels = channels := by
      rcases hc with rfl | rfl <;> decide
    have hba : toInt16 (channels * 4) = channels * 4 := by
      rcases hc with rfl | rfl <;> decide
    rw [k3, k6, k7, k8, k9, k10, k11, k12, k14, hch, hba, e4, e5]
    refine ⟨?_, k1, k2, ?_, k4, k5, by decide, by decide, ?_, ?_, ?_, ?_, by decide, k13, ?_⟩
    · rw [k0]
      rcases hc with rfl | rfl
      · have : ((1 : Int).toNat) = 1 := rfl
        rw [this]
        push_cast
        rw [Int.toNat_of_nonneg hn]
        ring
      · have : ((2 : Int).toNat) = 2 := rfl
        rw [this]
        push_cast
        rw [Int.toNat_of_nonneg hn]
        ring
    · exact leValue_writeInt32LE _ (by rcases hc with rfl | rfl <;> omega)
        (by rcases hc with rfl | rfl <;> omega)
    · exact leValue_writeInt16LE _ (by rcases hc with rfl | rfl <;> omega)
        (by rcases hc with rfl | rfl <;> omega)
    · exact leValue_writeInt32LE _ hsr (by omega)
    · exact leValue_writeInt32LE _ (by rcases hc with rfl | rfl <;> omega)
        (by rcases hc with rfl | rfl <;> omega)
    · exact leValue_writeInt16LE _ (by rcases hc with rfl | rfl <;> omega)
        (by rcases hc with rfl | rfl <;> omega)
    · exact leValue_writeInt32LE _ (by rcases hc with rfl | rfl <;> omega)
        (by rcases hc with rfl | rfl <;> omega)
  · constructor
    · rintro ⟨bytes, h⟩
      obtain ⟨_, b, _, _⟩ := hfrom bytes h
      unfold Int32 at b
      rcases hc with rfl | rfl <;> omega
    · intro hb
      refine ⟨_, hto ⟨?_, ?_, ?_, ?_⟩⟩ <;> unfold Int32 <;> rcases hc with rfl | rfl <;> omega

/-- C12, at a stereo 48000 Hz three-frame buffer. -/
theorem writeWav_header_witness :
    (leValue (bytesAt ((writeWav 2 48000 3 (fun _ i => i)).getD []) 28 4) : Int) =
      48000 * 2 * 4 ∧
    (∃ bytes, writeWav 2 48000 3 (fun _ i => i) = some bytes) :=
  have h := writeWav_header 2 48000 3 (fun _ i => i) (Or.inr rfl) (by decide) (by decide)
    (by decide) (by decide)
  have hex : ∃ bytes, writeWav 2 48000 3 (fun _ i => i) = some bytes := h.2.1.2 (by decide)
  ⟨by
    obtain ⟨bytes, hb⟩ := hex
    rw [hb]
    exact (h.1 bytes hb).2.2.2.2.2.2.2.2.2.2.1, hex⟩

/-! ## C13: the sample data -/

/-- C13: for `channels` 1 or 2 and buffers of 32-bit sample words, in every byte stream
`writeWav` produces the 4 bytes at offset `44 + (i × channels + ch) × 4`, read as a
little-endian word, are `buffers[ch][i]` for every frame `i < frame_count` and channel
`ch < channels`; the stream is produced exactly when the byte rate, the data size and
the chunk size fit in `int`. -/
theorem writeWav_samples_roundtrip (channels sampleRate frameCount : Int)
    (buffers : Nat → Nat → Sample) (hc : channels = 1 ∨ channels = 2)
    (hbuf : ∀ ch i, buffers ch i < 4294967296) :
    (∀ bytes, writeWav channels sampleRate frameCount buffers = some bytes →
      ∀ i ch : Nat, (i : Int) < frameCount → (ch : Int) < channels →
        (bytesAt bytes (44 + (i * channels.toNat + ch) * 4) 4).length = 4 ∧
        leValue (bytesAt bytes (44 + (i * channels.toNat + ch) * 4) 4) = buffers ch i) ∧
    ((∃ bytes, writeWav channels sampleRate frameCount buffers = some bytes) ↔
      Int32 (sampleRate * (channels * 4)) ∧ Int32 (frameCount * (channels * 4)) ∧
        Int32 (36 + frameCount * (channels * 4))) := by
  obtain ⟨hto, hfrom⟩ := writeWav_eq channels sampleRate frameCount buffers
  constructor
  · intro bytes h i ch hi hch
    have hd := (writeWav_layout channels sampleRate frameCount buffers bytes h).2.2.2.2.2.2.2.2.2.2.2.2.2.2.2
    have e : bytesAt bytes (44 + (i * channels.toNat + ch) * 4) 4 =
        floatBytes (buffers ch i) := by
      unfold bytesAt
      rw [← List.drop_drop, hd, Nat.mul_comm _ 4,
        sampleBytes_at buffers channels.toNat frameCount.toNat 0 i ch (by omega) (by omega),
        Nat.zero_add]
    rw [e]
    exact ⟨rfl, leValue_floatBytes _ (hbuf ch i)⟩
  · constructor
    · rintro ⟨bytes, h⟩
      exact (hfrom bytes h).2
    · rintro ⟨a, b, c⟩
      refine ⟨_, hto ⟨?_, a, b, c⟩⟩
      unfold Int32
      rcases hc with rfl | rfl <;> omega

/-- C13, at a stereo three-frame buffer whose words are `(7 × ch + i) mod 256`: frame 2 of
channel 1 is read back at offset 64. -/
theorem writeWav_samples_roundtrip_witness :
    (∃ bytes, writeWav 2 48000 3 (fun ch i => (7 * ch + i) % 256) = some bytes) ∧
    (∀ bytes, writeWav 2 48000 3 (fun ch i => (7 * ch + i) % 256) = some bytes →
      leValue (bytesAt bytes 64 4) = 9) :=
  have h := writeWav_samples_roundtrip 2 48000 3 (fun ch i => (7 * ch + i) % 256) (Or.inr rfl)
    (fun ch i => lt_trans (Nat.mod_lt _ (by decide)) (by decide))
  ⟨h.2.2 (by decide), fun bytes hb => (h.1 bytes hb 2 1 (by decide) (by decide)).2⟩

/-! ## Marker text -/

theorem sliceMarkers_ge_one (info : Info) (total : Int) :
    ∀ (infos : List SliceInfo) (ms : List Int),
      sliceMarkers info total infos = some ms → ∀ m ∈ ms, 1 ≤ m := by
  intro infos
  induction infos with
  | nil =>
    intro ms h
    simp only [sliceMarkers, Option.some.injEq] at h
    subst h
    intro m hm
    simp at hm
  | cons s rest ih =>
    intro ms h
    obtain ⟨m, ms2, rfl, hm, hr⟩ := sliceMarkers_cons info total s rest ms h
    intro x hx
    rcases List.mem_cons.mp hx with rfl | hx
    · exact marker_ge_one info total s x hm
    · exact ih ms2 hr x hx

theorem digitChar_isDigit (k : Nat) (h : k < 10) : (Nat.digitChar k).isDigit = true := by
  interval_cases k <;> decide

theorem toDigitsCore_isDigit : ∀ (fuel n : Nat) (ds : List Char),
    (∀ c ∈ ds, c.isDigit = true) → ∀ c ∈ Nat.toDigitsCore 10 fuel n ds, c.isDigit = true := by
  intro fuel
  induction fuel with
  | zero =>
    intro n ds h c hc
    simp only [Nat.toDigitsCore] at hc
    exact h c hc
  | succ fuel ih =>
    intro n ds h c hc
    have hd : ∀ x ∈ Nat.digitChar (n % 10) :: ds, x.isDigit = true := by
      intro x hx
      rcases List.mem_cons.mp hx with rfl | hx
      · exact digitChar_isDigit _ (Nat.mod_lt _ (by decide))
      · exact h x hx
    simp only [Nat.toDigitsCore] at hc
    split_ifs at hc
    · exact hd c hc
    · exact ih _ _ hd c hc

theorem repr_isDigit (n : Nat) : ∀ c ∈ (Nat.repr n).toList, c.isDigit = true := by
  intro c hc
  exact toDigitsCore_isDigit (n + 1) n [] (by simp) c hc

theorem count_newline_of_isDigit (l : List Char) (h : ∀ c ∈ l, c.isDigit = true) :
    l.count '\n' = 0 := by
  rw [List.count_eq_zero]
  intro hmem
  have := h _ hmem
  revert this
  decide

theorem toString_of_nonneg (m : Int) (h : 0 ≤ m) : toString m = Nat.repr m.toNat := by
  obtain ⟨n, rfl⟩ := Int.eq_ofNat_of_zero_le h
  rfl

theorem markerLine_eq (m : Int) (h : 1 ≤ m) :
    markerLine m =
      "renoise.song().selected_sample:insert_slice_marker(" ++ Nat.repr m.toNat ++ ")\n" := by
  unfold markerLine
  rw [if_neg (by omega), toString_of_nonneg m (by omega)]

theorem markerLine_newlines (m : Int) : (markerLine m).toList.count '\n' = 1 := by
  have key : ∀ n : Nat,
      ("renoise.song().selected_sample:insert_slice_marker(" ++ Nat.repr n ++
        ")\n").toList.count '\n' = 1 := by
    intro n
    have e : ("renoise.song().selected_sample:insert_slice_marker(" ++ Nat.repr n ++
        ")\n").toList =
        "renoise.song().selected_sample:insert_slice_marker(".toList ++
          ((Nat.repr n).toList ++ ")\n".toList) := by
      simp [String.toList, String.data_append]
    rw [e, List.count_append, List.count_append,
      count_newline_of_isDigit _ (repr_isDigit n)]
    decide
  unfold markerLine
  by_cases h : m < 1
  · rw [if_pos h]
    exact key 1
  · rw [if_neg h, toString_of_nonneg m (by omega)]
    exact key _

theorem markerText_newlines : ∀ ms : List Int, (markerText ms).toList.count '\n' = ms.length
  | [] => by decide
  | m :: ms => by
    have e : (markerText (m :: ms)).toList = (markerLine m).toList ++ (markerText ms).toList := by
      simp [markerText, String.toList, String.data_append]
    rw [e, List.count_append, markerLine_newlines, markerText_newlines ms, List.length_cons]
    omega

theorem foldl_append_left : ∀ (l : List String) (a b : String),
    a ++ List.foldl (fun r s => r ++ s) b l = List.foldl (fun r s => r ++ s) (a ++ b) l
  | [], _, _ => rfl
  | x :: l, a, b => by
    rw [List.foldl_cons, List.foldl_cons, foldl_append_left l a (b ++ x), String.append_assoc]

theorem join_cons (s : String) (l : List String) :
    String.join (s :: l) = s ++ String.join l := by
  unfold String.join
  rw [List.foldl_cons, foldl_append_left l s "", String.append_empty, String.empty_append]

theorem markerText_join : ∀ ms : List Int, (∀ m ∈ ms, 1 ≤ m) →
    markerText ms = String.join (ms.map (fun m =>
      "renoise.song().selected_sample:insert_slice_marker(" ++ Nat.repr m.toNat ++ ")\n"))
  | [], _ => by decide
  | m :: ms, h => by
    have ih := markerText_join ms (fun x hx => h x (List.mem_cons_of_mem _ hx))
    rw [markerText, ih, markerLine_eq m (h m (List.mem_cons_self _ _))]
    rw [List.map_cons, join_cons]

/-! ## C14: the marker text -/

/-- C14: for every header, fetch outcomes and loop length for which the marker vector is
computed, the marker text is the concatenation, in slice order, of one line per
enumerated slice, each line being the call prefix, the decimal digits of the marker (an
integer ≥ 1), `)` and a newline; it holds as many newlines as slices were enumerated
(none for an empty enumeration); and the marker vector is computed whenever no position
is negative or beyond `ppq_length > 0` (fields 32-bit). -/
theorem markerText_one_line_per_slice (info : Info) (total : Int) (fetch : SliceFetch) :
    (∀ ms, sliceMarkers info total (enumerate fetch info.fSliceCount) = some ms →
      ms.length = (enumerate fetch info.fSliceCount).length ∧
      (∀ m ∈ ms, 1 ≤ m) ∧
      markerText ms = String.join (ms.map (fun m =>
        "renoise.song().selected_sample:insert_slice_marker(" ++ Nat.repr m.toNat ++ ")\n")) ∧
      (∀ m ∈ ms, ∀ c ∈ (Nat.repr m.toNat).toList, c.isDigit = true) ∧
      (markerText ms).toList.count '\n' = (enumerate fetch info.fSliceCount).length) ∧
    (enumerate fetch info.fSliceCount = [] →
      sliceMarkers info total (enumerate fetch info.fSliceCount) = some [] ∧
        markerText [] = "") ∧
    (Int32 info.fPPQLength → Int32 total → 0 < info.fPPQLength →
      (∀ s ∈ enumerate fetch info.fSliceCount,
        Int32 s.fPPQPos ∧ 0 ≤ s.fPPQPos ∧ s.fPPQPos ≤ info.fPPQLength) →
      ∃ ms, sliceMarkers info total (enumerate fetch info.fSliceCount) = some ms) := by
  refine ⟨?_, ?_, ?_⟩
  · intro ms h
    have h1 := sliceMarkers_ge_one info total _ ms h
    have hlen := sliceMarkers_length info total _ ms h
    refine ⟨hlen, h1, markerText_join ms h1, fun m _ => repr_isDigit _, ?_⟩
    rw [markerText_newlines, hlen]
  · intro h
    rw [h]
    exact ⟨rfl, rfl⟩
  · intro hl ht hlen hs
    exact sliceMarkers_defined info total hl ht hlen _ hs

/-- Scenario S1, every fetch succeeding: four markers, four lines. -/
theorem markerText_one_line_per_slice_witness :
    sliceMarkers s1Info 88200 (enumerate (fun i => s1Slices.get? i) s1Info.fSliceCount) =
      some [1, 22050, 44100, 66150] ∧
    markerText [1, 22050, 44100, 66150] =
      "renoise.song().selected_sample:insert_slice_marker(1)\n" ++
      "renoise.song().selected_sample:insert_slice_marker(22050)\n" ++
      "renoise.song().selected_sample:insert_slice_marker(44100)\n" ++
      "renoise.song().selected_sample:insert_slice_marker(66150)\n" ∧
    (markerText [1, 22050, 44100, 66150]).toList.count '\n' =
      (enumerate (fun i => s1Slices.get? i) s1Info.fSliceCount).length ∧
    (enumerate (fun i => s1Slices.get? i) s1Info.fSliceCount).length = 4 :=
  have h : sliceMarkers s1Info 88200
      (enumerate (fun i => s1Slices.get? i) s1Info.fSliceCount) =
      some [1, 22050, 44100, 66150] := by set_option maxRecDepth 100000 in decide
  ⟨h, by set_option maxRecDepth 100000 in decide,
    ((markerText_one_line_per_slice s1Info 88200 (fun i => s1Slices.get? i)).1 _ h).2.2.2.2,
    by decide⟩

/-! ## C15: per-slice file names -/

/-- C15 fails for the output path `out.d/loop`: `find_last_of` searches the whole path,
so the base name is cut at the `.` of the directory component and the first slice is
written to `out_slice001.wav`, not to `out.d/loop_slice001.wav`.  For a path whose last
`.` is in the file name the extension is removed, and the number is `i + 1` padded with
zeros to three digits (wider numbers are printed in full). -/
theorem baseName_cuts_directory_component :
    baseName "out.d/loop" = "out" ∧
    sliceFileName (baseName "out.d/loop") 0 = "out_slice001.wav" ∧
    sliceFileName (baseName "out.d/loop") 0 ≠ "out.d/loop_slice001.wav" ∧
    sliceFileName (baseName "out.d/loop.wav") 0 = "out.d/loop_slice001.wav" ∧
    sliceFileName (baseName "loop.wav") 11 = "loop_slice012.wav" ∧
    sliceFileName (baseName "loop.wav") 1233 = "loop_slice1234.wav" := by
  decide

/-! ## C16: closing the SDK -/

/-- C16 fails on two exit paths: when `REXCreate` fails after a successful
`REXInitializeDLL_DirPath`, and when `REXGetInfo` fails on an open handle, `main`
returns 1 without calling `REXDelete` or `REXUninitializeDLL`.  Only a run that reaches
the end of `main` ends with `REXDelete` followed by `REXUninitializeDLL` (shown in general
and on scenario S5). -/
theorem early_return_skips_sdk_cleanup (wavPath : String) (canOpen : String → Bool)
    (info : Info) (fetch : SliceFetch) (render : Renderer) (infoOk : Bool) :
    run 5 true wavPath canOpen ⟨true, false, infoOk, info, fetch, render⟩ =
      some ⟨1, [SdkOp.REXInitializeDLL_DirPath, SdkOp.REXCreate], [], none, none, [], ""⟩ ∧
    run 5 true wavPath canOpen ⟨true, true, false, info, fetch, render⟩ =
      some ⟨1, [SdkOp.REXInitializeDLL_DirPath, SdkOp.REXCreate, SdkOp.REXGetInfo], [],
        none, none, [], ""⟩ ∧
    (run 5 true wavPath canOpen ⟨true, true, true, info, fetch, render⟩).map Output.ops =
      (run 5 true wavPath canOpen ⟨true, true, true, info, fetch, render⟩).map (fun _ =>
        [SdkOp.REXInitializeDLL_DirPath, SdkOp.REXCreate, SdkOp.REXGetInfo,
          SdkOp.REXGetCreatorInfo] ++ getSliceInfoOps 0 info.fSliceCount.toNat ++
        renderOpsFrom 0 (enumerate fetch info.fSliceCount) ++
        renderOpsFrom 0 (enumerate fetch info.fSliceCount) ++
        [SdkOp.REXDelete, SdkOp.REXUninitializeDLL]) ∧
    SdkOp.REXDelete ∉ getSliceInfoOps 0 info.fSliceCount.toNat ++
        renderOpsFrom 0 (enumerate fetch info.fSliceCount) ++
        renderOpsFrom 0 (enumerate fetch info.fSliceCount) ∧
    SdkOp.REXUninitializeDLL ∉ getSliceInfoOps 0 info.fSliceCount.toNat ++
        renderOpsFrom 0 (enumerate fetch info.fSliceCount) ++
        renderOpsFrom 0 (enumerate fetch info.fSliceCount) ∧
    (run 5 true "loop.wav" (fun _ => true) s5Sdk).map (fun o => (o.status, o.ops)) =
      some (0, [SdkOp.REXInitializeDLL_DirPath, SdkOp.REXCreate, SdkOp.REXGetInfo,
        SdkOp.REXGetCreatorInfo, SdkOp.REXGetSliceInfo 0, SdkOp.REXGetSliceInfo 1,
        SdkOp.REXGetSliceInfo 2, SdkOp.REXRenderSlice 0 4, SdkOp.REXRenderSlice 1 4,
        SdkOp.REXRenderSlice 2 4, SdkOp.REXRenderSlice 0 4, SdkOp.REXRenderSlice 1 4,
        SdkOp.REXRenderSlice 2 4, SdkOp.REXDelete, SdkOp.REXUninitializeDLL]) := by
  refine ⟨rfl, rfl, ?_, ?_, ?_, by set_option maxRecDepth 1000000 in decide⟩
  · cases h : run 5 true wavPath canOpen ⟨true, true, true, info, fetch, render⟩ with
    | none => rfl
    | some out =>
      rcases run_cases _ _ _ _ _ _ h with ⟨_, _, _, a4⟩ | ⟨_, _, _, a4, _⟩
      · simp at a4
      · simp only [Option.map_some', Option.some.injEq]
        exact a4
  · intro hmem
    simp only [List.mem_append] at hmem
    rcases hmem with (hmem | hmem) | hmem
    · obtain ⟨k, hk⟩ := getSliceInfoOps_mem _ _ _ hmem
      cases hk
    · obtain ⟨k, n, hk⟩ := renderOpsFrom_mem _ _ _ hmem
      cases hk
    · obtain ⟨k, n, hk⟩ := renderOpsFrom_mem _ _ _ hmem
      cases hk
  · intro hmem
    simp only [List.mem_append] at hmem
    rcases hmem with (hmem | hmem) | hmem
    · obtain ⟨k, hk⟩ := getSliceInfoOps_mem _ _ _ hmem
      cases hk
    · obtain ⟨k, n, hk⟩ := renderOpsFrom_mem _ _ _ hmem
      cases hk
    · obtain ⟨k, n, hk⟩ := renderOpsFrom_mem _ _ _ hmem
      cases hk

/-! ## C17: offsets at the end of the loop -/

/-- C17: for `ppq_length > 0`, `total_frames ≥ 0` and a slice with
`0 ≤ ppq_pos < ppq_length` (fields 32-bit), the start offset is defined and
`0 ≤ start_offset ≤ total_frames`; every completed run of the placement loop of that
slice keeps the buffer lengths and changes no entry outside
`[start_offset, total_frames)`, and leaves the buffers as they were when the offset
equals `total_frames`; the loop completes when the window ends within `int`.  For
44100 Hz, tempo 174000, `ppq_length` 30720 the loop has 30414 frames and the slice at
PPQ 30719 gets offset 30413. -/
theorem startSample_within_loop (info : Info) (total : Int) (s : SliceInfo)
    (hp : Int32 s.fPPQPos) (hl : Int32 info.fPPQLength) (ht : Int32 total)
    (hlen : 0 < info.fPPQLength) (ht0 : 0 ≤ total) (h0 : 0 ≤ s.fPPQPos)
    (hlt : s.fPPQPos < info.fPPQLength) :
    (∃ st, startSample info total s = some st ∧ 0 ≤ st ∧ st ≤ total ∧
      (∀ (sc : Scratch) (full out : Full), full.left.length = total.toNat →
        (info.fChannels = 2 → full.right.length = total.toNat) →
        placeFrames info st total sc s.fSampleLength.toNat 0 full = some out →
          out.left.length = full.left.length ∧ out.right.length = full.right.length ∧
          (∀ k : Nat, ¬ (st ≤ k ∧ (k : Int) < total) →
            out.left[k]? = full.left[k]? ∧ out.right[k]? = full.right[k]?) ∧
          (st = total → out = full)) ∧
      (∀ (sc : Scratch) (full : Full), full.left.length = total.toNat →
        (info.fChannels = 2 → full.right.length = total.toNat) →
        st + s.fSampleLength.toNat ≤ 2147483648 →
        ∃ out, placeFrames info st total sc s.fSampleLength.toNat 0 full = some out)) ∧
    totalFrames ⟨2, 44100, 2, 174000, 30720⟩ = some 30414 ∧
    startSample ⟨2, 44100, 2, 174000, 30720⟩ 30414 ⟨30719, 100⟩ = some 30413 := by
  refine ⟨?_, by set_option maxRecDepth 100000 in decide,
    by set_option maxRecDepth 100000 in decide⟩
  obtain ⟨st, hst, hst0, hstle, _⟩ :=
    startSample_near info total s hp hl ht hlen h0 (le_of_lt hlt) ht0
  refine ⟨st, hst, hst0, hstle, ?_, ?_⟩
  · intro sc full out hfl hfr hrun
    obtain ⟨a, b, c, d⟩ := placeFrames_inv info st total sc _ full out hrun (Or.inr hst0)
      hfl hfr
    have hout : ∀ k : Nat, ¬ (st ≤ k ∧ (k : Int) < total) →
        out.left[k]? = full.left[k]? ∧ out.right[k]? = full.right[k]? := by
      intro k hk
      constructor
      · rw [c k, if_neg]
        rintro ⟨x, _, y⟩
        exact hk ⟨x, y⟩
      · rw [d k, if_neg]
        rintro ⟨_, x, _, y⟩
        exact hk ⟨x, y⟩
    refine ⟨a, b, hout, ?_⟩
    intro heq
    have hall : ∀ k : Nat, ¬ (st ≤ k ∧ (k : Int) < total) := by
      intro k
      omega
    have e1 : out.left = full.left := List.ext_getElem? (fun k => (hout k (hall k)).1)
    have e2 : out.right = full.right := List.ext_getElem? (fun k => (hout k (hall k)).2)
    cases out
    cases full
    simp only at e1 e2
    rw [e1, e2]
  · intro sc full hfl hfr hend
    obtain ⟨out, hrun, _⟩ := placeFrames_run info st total sc hst0 s.fSampleLength.toNat 0
      full (by push_cast; omega) hfl hfr
    exact ⟨out, hrun⟩

/-- Scenario S4: the second slice, at PPQ 30719 of 30720, in the loop of 30414 frames. -/
theorem startSample_within_loop_witness :
    ∃ st, startSample ⟨2, 44100, 2, 174000, 30720⟩ 30414 ⟨30719, 100⟩ = some st ∧
      0 ≤ st ∧ st ≤ 30414 :=
  have h := (startSample_within_loop ⟨2, 44100, 2, 174000, 30720⟩ 30414 ⟨30719, 100⟩
    (by decide) (by decide) (by decide) (by decide) (by decide) (by decide) (by decide)).1
  h.elim fun st hst => ⟨st, hst.1, hst.2.1, hst.2.2.1⟩

/-! ## C18: the per-slice writer -/

/-- C18: for a header with 1 or 2 channels, the bytes of the writer inlined in the
per-slice loop are the bytes `writeWav` produces for the same channel count, sample
rate, frame count and channel pointers `finalChannels` (both defined or both not); and a
mono slice file of `n ≥ 0` frames carries one channel: channel field 1, data size
`n × 4`, length `44 + n × 4`, frame `j` holding the left sample alone. -/
theorem writeSliceWav_eq_writeWav (info : Info) (sliceFrameCount : Int) (sc : Scratch)
    (hc : info.fChannels = 1 ∨ info.fChannels = 2) :
    writeSliceWav info sliceFrameCount sc =
      writeWav info.fChannels info.fSampleRate sliceFrameCount (sliceFinalChannels info sc) ∧
    (info.fChannels = 1 → 0 ≤ sliceFrameCount →
      ∀ bytes, writeSliceWav info sliceFrameCount sc = some bytes →
        leValue (bytesAt bytes 22 2) = 1 ∧
        (leValue (bytesAt bytes 40 4) : Int) = sliceFrameCount * 4 ∧
        (bytes.length : Int) = 44 + sliceFrameCount * 4 ∧
        ∀ j : Nat, (j : Int) < sliceFrameCount →
          bytesAt bytes (44 + j * 4) 4 = floatBytes (sc.left j)) := by
  have hno : ¬ (2 < info.fChannels ∧ 0 < sliceFrameCount) := by
    rintro ⟨h, _⟩
    rcases hc with h1 | h1 <;> omega
  have heq : writeSliceWav info sliceFrameCount sc =
      writeWav info.fChannels info.fSampleRate sliceFrameCount
        (sliceFinalChannels info sc) := by
    unfold writeSliceWav writeWav
    simp only [if_neg hno]
  refine ⟨heq, ?_⟩
  intro h1 hn bytes hb
  rw [heq] at hb
  obtain ⟨_, hfrom⟩ := writeWav_eq info.fChannels info.fSampleRate sliceFrameCount
    (sliceFinalChannels info sc)
  obtain ⟨_, _, c, d⟩ := hfrom bytes hb
  obtain ⟨k0, _, _, _, _, _, _, _, k8, _, _, _, _, _, k14, k15⟩ :=
    writeWav_layout _ _ _ _ bytes hb
  rw [h1] at k0 k8 k14 k15 c d
  unfold Int32 at c d
  have e1 : ((1 : Int).toNat) = 1 := rfl
  rw [e1] at k0 k15
  refine ⟨?_, ?_, ?_, ?_⟩
  · rw [k8]
    decide
  · rw [k14, leValue_writeInt32LE _ (by omega) (by omega)]
    ring
  · rw [k0]
    push_cast
    rw [Int.toNat_of_nonneg hn]
    ring
  · intro j hj
    unfold bytesAt
    have := sampleBytes_at (sliceFinalChannels info sc) 1 sliceFrameCount.toNat 0 j 0
      (by omega) (by decide)
    rw [← List.drop_drop, k15, Nat.mul_comm j 4]
    simpa [sliceFinalChannels] using this

/-- C18, at a mono header and a two-frame slice. -/
theorem writeSliceWav_eq_writeWav_witness :
    writeSliceWav ⟨1, 44100, 1, 120000, 15360⟩ 2 ⟨fun j => j + 1, fun _ => 0⟩ =
      writeWav 1 44100 2
        (sliceFinalChannels ⟨1, 44100, 1, 120000, 15360⟩ ⟨fun j => j + 1, fun _ => 0⟩) ∧
    writeSliceWav ⟨1, 44100, 1, 120000, 15360⟩ 2 ⟨fun j => j + 1, fun _ => 0⟩ =
      some [82, 73, 70, 70, 44, 0, 0, 0, 87, 65, 86, 69, 102, 109, 116, 32, 16, 0, 0, 0,
        3, 0, 1, 0, 68, 172, 0, 0, 16, 177, 2, 0, 4, 0, 32, 0, 100, 97, 116, 97,
        8, 0, 0, 0, 1, 0, 0, 0, 2, 0, 0, 0] :=
  ⟨(writeSliceWav_eq_writeWav ⟨1, 44100, 1, 120000, 15360⟩ 2 ⟨fun j => j + 1, fun _ => 0⟩
    (Or.inl rfl)).1, by decide⟩

end Rex2
